import Mathlib

/-!
# The extension manager of gandi-vm

A shallow embedding of `src/extension-support/extension-manager.js`: the registry of
loaded extensions, hot replacement, deletion, the FIFO allocation of extension workers,
the load counter with its waiters, the normalisation of descriptors, blocks and menus,
the catalog of external extensions, the built-in extensions and the reserved ids.  The
manager's fields, the dispatch services and the parts of the runtime that
the manager reads or writes are gathered in one `State` record; every method is a
function from a state to an `Outcome` (the state it leaves behind and what it returned
or threw).  Calls into collaborators whose effect the manager never reads back are kept
in the `effects` log, in the order in which they are made.
-/

set_option autoImplicit false

namespace GandiVM

/-! ## Strings, maps and sets -/

/-- JavaScript strings, as sequences of characters. -/
abbrev Str := List Char

/-- The method `s.startsWith(p)`. -/
def startsWith (s p : Str) : Bool := p.isPrefixOf s

/-- The method `s.substring(n)` for a non-negative integer `n`. -/
def substring (s : Str) (n : Nat) : Str := s.drop n

/-- Truthiness of a string: every string but the empty one. -/
def Str.truthy (s : Str) : Bool := !s.isEmpty

/-- Truthiness of a value that is a string or `undefined`. -/
def truthyOpt : Option Str → Bool
  | none => false
  | some s => Str.truthy s

/-- The method `xs.join(sep)` on an array of strings. -/
def join (sep : Str) : List Str → Str
  | [] => []
  | [x] => x
  | x :: y :: rest => x ++ sep ++ join sep (y :: rest)

/-- A `Map` (or a plain object used as a table): the entries in insertion order.
Lookup takes the first entry of a key. -/
abbrev Dict (κ β : Type) := List (κ × β)

namespace Dict

variable {κ β : Type} [DecidableEq κ]

/-- The method `map.get(key)`, or `obj[key]`. -/
def get : Dict κ β → κ → Option β
  | [], _ => none
  | (k, v) :: m, a => if k = a then some v else get m a

/-- The method `map.has(key)`. -/
def has (m : Dict κ β) (a : κ) : Bool := (get m a).isSome

/-- The method `map.set(key, value)`, or `obj[key] = value`: an existing key keeps its
place, a new key goes to the end. -/
def set : Dict κ β → κ → β → Dict κ β
  | [], a, b => [(a, b)]
  | (k, v) :: m, a, b => if k = a then (k, b) :: m else (k, v) :: set m a b

/-- The method `map.delete(key)`, or `delete obj[key]`. -/
def delete (m : Dict κ β) (a : κ) : Dict κ β := m.filter (fun e => decide (e.1 ≠ a))

/-- The method `map.values()`, as an array. -/
def values (m : Dict κ β) : List β := m.map Prod.snd

/-- The method `map.keys()`, as an array. -/
def keys (m : Dict κ β) : List κ := m.map Prod.fst

end Dict

/-- The names of the members that a plain object inherits from `Object.prototype`. -/
def objectPrototypeMembers : List Str :=
  ["constructor".toList, "__defineGetter__".toList, "__defineSetter__".toList,
    "hasOwnProperty".toList, "__lookupGetter__".toList, "__lookupSetter__".toList,
    "isPrototypeOf".toList, "propertyIsEnumerable".toList, "toString".toList,
    "valueOf".toList, "__proto__".toList, "toLocaleString".toList]

/-- What reading `table[key]` gives on a plain object: the value of its own property,
or the member of that name that it inherits from `Object.prototype`, or `undefined`. -/
inductive Lookup (β : Type)
  | own (value : β)
  | inherited (name : Str)
  | undefined
  deriving DecidableEq, Repr

/-- The read `table[key]` on a plain object whose own properties are the entries of the
map. -/
def Dict.read {β : Type} (m : Dict Str β) (key : Str) : Lookup β :=
  match Dict.get m key with
  | some value => .own value
  | none => if key ∈ objectPrototypeMembers then .inherited key else .undefined

/-- The elements of `new Set(xs)` in insertion order: the first occurrence of every
element of `xs`. -/
def setOf {α : Type} [DecidableEq α] : List α → List α
  | [] => []
  | a :: l => a :: (setOf l).filter (fun b => decide (b ≠ a))

/-- The method `a.difference(b)` on sets: the elements of `a` that `b` lacks, in the
order of `a`. -/
def difference {α : Type} [DecidableEq α] (a b : List α) : List α :=
  a.filter (fun x => decide (x ∉ b))

/-! ## Extension descriptors -/

/-- Modelled from the spec: the block kinds of `block-type.js`, which §3 enumerates as
COMMAND, REPORTER, BOOLEAN, EVENT, BUTTON, LABEL and XML. -/
inductive BlockType
  | COMMAND | REPORTER | BOOLEAN | EVENT | BUTTON | LABEL | XML
  deriving DecidableEq, Repr

/-- JavaScript values, as far as block results and menu items need them.  A number is
kept by the bit pattern of its double, an object by the string that converting it to a
string yields. -/
inductive JSValue
  | undefined
  | null
  | boolean (b : Bool)
  | number (bits : Nat)
  | string (s : Str)
  | object (shown : Str)
  deriving DecidableEq, Repr

/-- The value of a block's `func` field: the name of a method, as the extension
supplies it, or one of the two wrappers that `_prepareBlockInfo` builds in lines
820-866.  `funcName` is what the wrapper looks up or calls on the service, `isDynamic`
tells whether the block description is read from the call's mutation. -/
inductive FuncValue
  /-- A string naming a method of the extension object. -/
  | name (method : Str)
  /-- The wrapper over a call through `dispatch.call(serviceName, funcName, ...)`. -/
  | remote (serviceName : Str) (funcName : FuncValue) (isDynamic : Bool)
  /-- The wrapper over a direct call of `serviceObject[funcName]`; the service object
  is kept by its identity. -/
  | direct (serviceObject : Nat) (funcName : FuncValue) (isDynamic : Bool)
  deriving DecidableEq, Repr

/-- Truthiness of a `func` value: a function is truthy, a string unless it is empty. -/
def FuncValue.truthy : FuncValue → Bool
  | .name method => Str.truthy method
  | .remote _ _ _ => true
  | .direct _ _ _ => true

/-- An entry of a block's `arguments`. -/
structure ArgumentInfo where
  type : Str
  defaultValue : JSValue
  deriving DecidableEq, Repr

/-- The field `callFunc` that `_prepareBlockInfo` gives a button (lines 801-803): a
function that calls `dispatch.call(serviceName, func)`. -/
structure ButtonCall where
  serviceName : Str
  func : Option FuncValue
  deriving DecidableEq, Repr

/-- The fields of a block description; a field that reads as `undefined` is `none`, and
`other` holds the fields that the manager never reads. -/
structure ExtensionBlockMetadata where
  opcode : Option Str := none
  blockType : Option BlockType := none
  text : Option Str := none
  func : Option FuncValue := none
  terminal : Option Bool := none
  blockAllThreads : Option Bool := none
  arguments : Option (Dict Str ArgumentInfo) := none
  isDynamic : Option Bool := none
  xml : Option Str := none
  callFunc : Option ButtonCall := none
  other : Dict Str JSValue := []
  /-- The names of those among the properties `blockType`, `terminal`, `blockAllThreads`
  and `arguments` that the object has with the value `undefined`: such a field is `none`
  above, and `Object.assign` copies it all the same, whereas a field that is `none` and
  is not named here is absent.  (Of the other fields the manager reads the value only.) -/
  undefinedProperties : List Str := []
  deriving DecidableEq, Repr

/-- An entry of a `blocks` array: a string (a separator such as `'---'`) or a block
description. -/
inductive BlockEntry
  | str (text : Str)
  | block (info : ExtensionBlockMetadata)
  deriving DecidableEq, Repr

/-- The property `b.opcode`; a string has none. -/
def BlockEntry.opcode : BlockEntry → Option Str
  | .str _ => none
  | .block b => b.opcode

/-- The property `b.blockType`; a string has none. -/
def BlockEntry.blockType : BlockEntry → Option BlockType
  | .str _ => none
  | .block b => b.blockType

/-- Truthiness of an entry: an object is truthy, a string unless it is empty. -/
def BlockEntry.truthy : BlockEntry → Bool
  | .str t => Str.truthy t
  | .block _ => true

/-- Modelled from the spec: a localisable message, the kind of object that
`maybe-format-message.js` hands to `formatMessage` (§4.2: "formats any localizable text
fields"). -/
structure Message where
  id : Str
  default : Str
  deriving DecidableEq, Repr

/-- The `text` of a menu item object: a plain value or a localisable message. -/
inductive MenuText
  | value (v : JSValue)
  | message (m : Message)
  deriving DecidableEq, Repr

/-- An item of a menu. -/
inductive MenuItem
  /-- A bare string. -/
  | string (s : Str)
  /-- A localisable message. -/
  | message (m : Message)
  /-- An object with the fields `text` and `value`. -/
  | object (text : MenuText) (value : JSValue)
  /-- A two-element array, with its display text and its value. -/
  | array (text : JSValue) (value : JSValue)
  /-- Any other value: `undefined`, `null`, a boolean or a number. -/
  | other (v : JSValue)
  deriving DecidableEq, Repr

/-- An element of the array that opening a generated menu yields: a pair of a display
text and a value, or a value that was passed through as it is. -/
inductive MenuEntry
  | pair (text : JSValue) (value : JSValue)
  | bare (item : JSValue)
  deriving DecidableEq, Repr

/-- A value of the `menus` object, or of the `items` of a menu: an array of items, a
string (the name of a method that generates the items), the function that
`_prepareMenuInfo` binds for such a name (with the identity of the extension object it
is bound to, if there is one), an object with the field `items`, or an object without
it. -/
inductive MenuValue
  | array (items : List MenuItem)
  | string (name : Str)
  | function (serviceObject : Option Nat) (menuItemFunctionName : Str)
  | object (items : MenuValue) (acceptReporters : Option Bool)
  | bare (acceptReporters : Option Bool)
  deriving DecidableEq, Repr

/-- Truthiness of a menu value: all but the empty string. -/
def MenuValue.truthy : MenuValue → Bool
  | .string name => Str.truthy name
  | _ => true

/-- The test `menuInfo.items` of line 693 is truthy: the value is an object whose
field `items` is truthy. -/
def MenuValue.hasItems : MenuValue → Bool
  | .object items _ => items.truthy
  | _ => false

/-- What `getInfo()` returns.  An absent field (`undefined`) is `none`; `other` holds
the fields that the manager never reads. -/
structure ExtensionInfo where
  id : Str
  blocks : Option (List BlockEntry)
  name : Option Str := none
  targetTypes : Option (List Str) := none
  menus : Option (Dict Str MenuValue) := none
  warningTipText : Option Str := none
  other : Dict Str JSValue := []
  deriving DecidableEq, Repr

/-- A method of an extension object that generates menu items: what it returns for
the id of the target being edited (`none` for `null`), given as a table with a value
for all other ids. -/
structure MenuGenerator where
  byTarget : Dict (Option Str) (List MenuItem) := []
  otherwise : List MenuItem := []
  deriving DecidableEq, Repr

/-- The call `menuFunc.call(extensionObject, editingTargetID)`. -/
def MenuGenerator.call (g : MenuGenerator) (editingTargetID : Option Str) : List MenuItem :=
  (Dict.get g.byTarget editingTargetID).getD g.otherwise

/-- An extension object.  `ident` stands for the identity of the object, so that two
instances with the same descriptor can be told apart; `getInfo` is the descriptor that
the method `getInfo()` returns, taken to be the same at every call; `menuMethods` holds
the methods that return an array of menu items, and `methods` names the other
methods. -/
structure ExtensionInstance where
  ident : Nat
  getInfo : ExtensionInfo
  methods : List Str := []
  menuMethods : Dict Str MenuGenerator := []
  deriving DecidableEq, Repr

/-- The `extension` argument of `registerExtension`: a class, which the manager
instantiates with `new extension(runtime)`, or an instance. -/
inductive Extension
  | cls (make : ExtensionInstance)
  | obj (inst : ExtensionInstance)
  deriving DecidableEq, Repr

/-- The test `isConstructor(value)`: does the value have a prototype. -/
def isConstructor : Extension → Bool
  | .cls _ => true
  | .obj _ => false

/-- Modelled from the spec: a target of the Dispatch Fabric (`central-dispatch.js`),
which §2 describes as a local object or a remote worker proxy. -/
inductive Service
  | localObject (inst : ExtensionInstance)
  | remoteWorker (worker : Nat)
  deriving DecidableEq, Repr

/-! ## The runtime, as far as the manager touches it -/

/-- A block of a program: `blocks._blocks[id]`. -/
structure Block where
  id : Str
  opcode : Str
  deriving DecidableEq, Repr

/-- A runtime target; `_blocks` lists `Object.values(blocks._blocks)`. -/
structure Target where
  _blocks : List Block
  deriving DecidableEq, Repr

/-- An entry of a category's block list (`ConvertedBlockInfo`): `info` is the block
entry it was converted from. -/
structure ConvertedBlockInfo where
  info : BlockEntry
  deriving DecidableEq, Repr

/-- An element of `runtime._blockInfo` (`CategoryInfo`). -/
structure CategoryInfo where
  id : Str
  blocks : List ConvertedBlockInfo
  deriving DecidableEq, Repr

/-- An entry of the monitor state. -/
structure Monitor where
  id : Str
  opcode : Str
  deriving DecidableEq, Repr

/-- A record of `_customExtensionInfo` or `_officialExtensionInfo`: the object passed to
`addCustomExtensionInfo` without its constructor. -/
structure ExternalExtensionInfo where
  extensionId : Str
  url : Option Str
  replaceable : Bool
  deriving DecidableEq, Repr

/-! ## Errors and effects -/

/-- The `code` of an error's `cause`. -/
inductive CauseCode
  | OPCODE_NOT_FOUND | BLOCK_TYPE_CHANGED | OPCODE_IN_USE
  deriving DecidableEq, Repr

/-- What a method throws. -/
inductive Err
  /-- An `Error` built with `{cause: {code, values}}`; `undefined` in `values` is `none`. -/
  | cause (code : CauseCode) (values : List (Option Str))
  /-- A `TypeError`: a property or a method of `undefined` was used. -/
  | typeError
  /-- An error of `dispatch.callSync`: the service is remote, or is not bound. -/
  | dispatchError
  /-- The error `Error('Invalid extension id')`. -/
  | invalidExtensionId
  /-- The error `Error('Missing opcode for block')`. -/
  | missingOpcode
  /-- The error `Error('Extension menu returned no items: ' + name)`. -/
  | noMenuItems (menuItemFunctionName : Str)
  /-- The error `Error('Failed to load additional Gandi extension services')`. -/
  | failedToLoadServices
  /-- The error with which an extension script failed to load. -/
  | scriptError
  /-- The error `Error('extensionId not found, add extensionInfo failed')`. -/
  | extensionIdNotFound
  /-- The error `Error('extensionId is null in extensionInfo')`. -/
  | extensionIdNull
  /-- The error of line 946: the extension id is reserved. -/
  | extensionIdReserved (extensionId : Str)
  deriving DecidableEq, Repr

/-- Events the manager emits on the runtime. -/
inductive RuntimeEvent
  | EXTENSION_NOT_FOUND (url : Str)
  | EXTENSION_DATA_LOADING (loading : Bool)
  deriving DecidableEq, Repr

/-- Calls into collaborators, logged in the order in which they are made. -/
inductive Effect
  /-- The call `log.warn(message)`. -/
  | warn (message : Str)
  /-- The call `log.error(...)`. -/
  | error
  /-- The call `new extension(runtime)`. -/
  | construct (ident : Nat)
  /-- The call `refreshExtension(serviceName)` inside `refreshBlocks`. -/
  | refreshExtension (serviceName : Str)
  /-- The call `dispatch.call('runtime', '_registerExtensionPrimitives', info)`. -/
  | registerExtensionPrimitives (serviceName : Str) (info : ExtensionInfo)
  /-- The call `runtime.compilerRegisterExtension(id, instance)`. -/
  | compilerRegisterExtension (extensionId : Str) (ident : Nat)
  /-- The call `runtime.gandi.addWildExtension({id, url})`. -/
  | addWildExtension (id url : Str)
  /-- The call `runtime.gandi.deleteWildExtension(id)`. -/
  | deleteWildExtension (id : Str)
  /-- The call `runtime.removeExtensionPrimitives(id)`. -/
  | removeExtensionPrimitives (id : Str)
  /-- The call `runtime.monitorBlocks.deleteBlock(id)`. -/
  | deleteMonitorBlock (id : Str)
  /-- The call `runtime.emitProjectChanged()`. -/
  | emitProjectChanged
  /-- The call `runtime.resetAllCaches()`. -/
  | resetAllCaches
  /-- The call `runtime.emit(event, ...)`. -/
  | emit (event : RuntimeEvent)
  /-- The call `createExtensionWorker()` made for the promise `request`. -/
  | createExtensionWorker (request : Nat)
  /-- The promise `request` was resolved. -/
  | resolve (request : Nat)
  /-- The promise `request` was rejected. -/
  | reject (request : Nat)
  /-- The call `i.resolve()` for the waiter `i` of `asyncExtensionsLoadedCallbacks`. -/
  | resolveWaiter (waiter : Nat)
  /-- The call `i.reject(error)` for the waiter `i` of `asyncExtensionsLoadedCallbacks`. -/
  | rejectWaiter (waiter : Nat)
  /-- The call `loadExternalExtensionToLibrary(url)`. -/
  | loadExternalExtensionToLibrary (url : Str)
  /-- The call `log.warn` of line 790: a function is ignored for an event block. -/
  | warnIgnoringFunction (func : FuncValue) (opcode : Option Str)
  /-- The calls `log.warn` of lines 797 and 807: an opcode is ignored for a button or
  for a label. -/
  | warnIgnoringOpcode (blockType : BlockType) (opcode : Str) (text : Option Str)
  /-- The call `log.warn` of line 843: the service object has no such function. -/
  | warnFunctionNotFound (funcName : FuncValue)
  deriving DecidableEq, Repr

/-! ## The state -/

/-- An entry of `pendingExtensions` (`PendingExtensionWorker`).  `request` names the
promise whose `resolve` and `reject` functions the entry holds. -/
structure PendingExtensionWorker where
  extensionURL : Str
  request : Nat
  deriving DecidableEq, Repr

/-- The fields of the manager, the dispatch services and the runtime data it uses. -/
structure State where
  /-- Field `this.nextExtensionWorker`: the integer that the number holds. -/
  nextExtensionWorker : Nat
  /-- Field `this.pendingExtensions`. -/
  pendingExtensions : List PendingExtensionWorker
  /-- Field `this.pendingWorkers`, a sparse array; a slot can hold `undefined`. -/
  pendingWorkers : Dict Nat (Option PendingExtensionWorker)
  /-- Field `this.workerURLs`, a sparse array. -/
  workerURLs : Dict Nat Str
  /-- Field `this._loadedExtensions`: extension id to service name. -/
  _loadedExtensions : Dict Str Str
  /-- Field `this.loadingAsyncExtensions`. -/
  loadingAsyncExtensions : Int
  /-- Field `this.asyncExtensionsLoadedCallbacks`: the promises of the waiters. -/
  asyncExtensionsLoadedCallbacks : List Nat
  /-- Field `this._customExtensionInfo`, a plain object: its own properties. -/
  _customExtensionInfo : Dict Str ExternalExtensionInfo
  /-- Field `this._officialExtensionInfo`, a plain object: its own properties. -/
  _officialExtensionInfo : Dict Str ExternalExtensionInfo
  /-- The module-level table `customExtension`. -/
  customExtension : Dict Str Extension
  /-- The module-level table `officialExtension`. -/
  officialExtension : Dict Str Extension
  /-- The table `dispatch.services`, restricted to services that host extensions. -/
  services : Dict Str Service
  /-- The array `runtime.targets`. -/
  targets : List Target
  /-- The array `runtime._blockInfo`. -/
  _blockInfo : List CategoryInfo
  /-- The monitor state `runtime.getMonitorState()`. -/
  monitors : List Monitor
  /-- The extension URLs for which `runtime.gandi.isExtensionURLInGandiAssets` holds. -/
  gandiAssetURLs : List Str
  /-- The number of promises created so far; the next promise gets this name. -/
  nextRequest : Nat
  /-- The calls made so far. -/
  effects : List Effect
  /-- Field `this.showCompatibilityWarning`. -/
  showCompatibilityWarning : Bool := false
  /-- What `runtime.getFormatMessage()` makes of the message
  `gui.extension.compatibilityWarning` of lines 631-637. -/
  compatibilityWarning : Str := "This extension is incompatible with Original Scratch.".toList
  /-- Field `this._gandiExternalExtensionServices`. -/
  _gandiExternalExtensionServices : List Str := []
  /-- Field `this._gandiExternalExtensionServicesLoaded`. -/
  _gandiExternalExtensionServicesLoaded : Bool := false
  /-- The table `runtime.gandi.dynamicMenuItems`. -/
  dynamicMenuItems : Dict Str (List MenuItem) := []
  /-- The id of `runtime.getEditingTarget()`, if there is such a target. -/
  editingTarget : Option Str := none
  /-- The id of `runtime.getTargetForStage()`, if there is such a target. -/
  stage : Option Str := none
  /-- Field `this.builtinExtensions`, by what each entry returns when it is called.  The
  modules that the entries of `defaultBuiltinExtensions` load are outside `src/`; a state
  lists the entries it has. -/
  builtinExtensions : Dict Str Extension := []
  deriving DecidableEq, Repr

/-- How a call ends: it returns a value or throws. -/
inductive Completion (α : Type)
  | returned (value : α)
  | thrown (e : Err)
  deriving DecidableEq, Repr

/-- The value returned, if there is one. -/
def Completion.value? {α : Type} : Completion α → Option α
  | .returned value => some value
  | .thrown _ => none

/-- The state a call leaves behind, and how it ended. -/
structure Outcome (α : Type) where
  state : State
  result : Completion α
  deriving DecidableEq, Repr

/-- Append a call to the log. -/
def State.log (s : State) (e : Effect) : State := { s with effects := s.effects ++ [e] }

/-- Run `f` on what `o` returned; a throw of `o` passes through. -/
def Outcome.andThen {α β : Type} (o : Outcome α) (f : State → α → Outcome β) : Outcome β :=
  match o.result with
  | .returned v => f o.state v
  | .thrown e => ⟨o.state, .thrown e⟩

/-! ## The registry -/

/-- Method `isExtensionLoaded`. -/
def isExtensionLoaded (s : State) (extensionID : Str) : Bool :=
  Dict.has s._loadedExtensions extensionID

/-- Method `getExtensionInfoById`: what `_customExtensionInfo[id]` gives, or else, when
that is `undefined`, what `_officialExtensionInfo[id]` gives.  Both tables are plain
objects, so a member inherited from `Object.prototype` is found as well. -/
def getExtensionInfoById (s : State) (extensionId : Str) : Lookup ExternalExtensionInfo :=
  match Dict.read s._customExtensionInfo extensionId with
  | .undefined => Dict.read s._officialExtensionInfo extensionId
  | found => found

/-- Method `isExternalExtension`. -/
def isExternalExtension (s : State) (extensionId : Str) : Bool :=
  Dict.has s.officialExtension extensionId || Dict.has s.customExtension extensionId

/-- Method `saveWildExtensionsURL`.  When the lookup finds an inherited member, the flag
is set on that member, which is none of the records. -/
def saveWildExtensionsURL (s : State) (id url : Str) : Outcome Unit :=
  let s1 := s.log (.addWildExtension id url)
  if url ∈ s1.gandiAssetURLs then
    match Dict.read s1._customExtensionInfo id with
    | .own extInfo =>
      ⟨{ s1 with _customExtensionInfo :=
          Dict.set s1._customExtensionInfo id { extInfo with replaceable := true } },
        .returned ()⟩
    | .inherited _ => ⟨s1, .returned ()⟩
    | .undefined =>
      match Dict.read s1._officialExtensionInfo id with
      | .own extInfo =>
        ⟨{ s1 with _officialExtensionInfo :=
            Dict.set s1._officialExtensionInfo id { extInfo with replaceable := true } },
          .returned ()⟩
      | .inherited _ => ⟨s1, .returned ()⟩
      | .undefined => ⟨s1, .thrown .typeError⟩
  else ⟨s1, .returned ()⟩

/-- Method `setLoadedExtension`.  An inherited member has no `url`. -/
def setLoadedExtension (s : State) (extensionID value : Str) : Outcome Unit :=
  let saved : Outcome Unit :=
    match getExtensionInfoById s extensionID with
    | .own extInfo =>
      if truthyOpt extInfo.url then saveWildExtensionsURL s extensionID (extInfo.url.getD [])
      else ⟨s, .returned ()⟩
    | _ => ⟨s, .returned ()⟩
  saved.andThen fun s1 _ =>
    ⟨{ s1 with _loadedExtensions := Dict.set s1._loadedExtensions extensionID value },
      .returned ()⟩

/-- The opcodes in use of an extension (lines 229-234, 1067-1072 and 1122-1128): the
opcodes of all blocks of all targets that start with the id and an underscore, with
that start cut off, as a set. -/
def opsInUse (targets : List Target) (extensionId : Str) : List Str :=
  setOf ((((targets.map fun t => t._blocks.map fun b => b.opcode).flatten).filter
    fun op => startsWith op (extensionId ++ ['_'])).map
    fun op => substring op (extensionId.length + 1))

/-- Modelled from the spec: `dispatch.callSync(service, 'getInfo')` of
`central-dispatch.js`.  By §2 and §6 the synchronous call succeeds only for an
in-process target. -/
def callSyncGetInfo (s : State) (service : Str) : Except Err ExtensionInfo :=
  match Dict.get s.services service with
  | some (.localObject inst) => .ok inst.getInfo
  | some (.remoteWorker _) => .error .dispatchError
  | none => .error .dispatchError

/-- Modelled from the spec: `dispatch.setServiceSync(service, provider)` of
`central-dispatch.js`, which binds the name to the target (§2). -/
def setServiceSync (s : State) (service : Str) (provider : ExtensionInstance) : State :=
  { s with services := Dict.set s.services service (.localObject provider) }

/-- The services `refreshBlocks(targetServiceName)` refreshes: the target alone when it
is a loaded service name, every loaded service otherwise. -/
def refreshTargets (s : State) (targetServiceName : Str) : List Str :=
  let isExisted := (Dict.values s._loadedExtensions).find? fun name => name = targetServiceName
  if Str.truthy targetServiceName && truthyOpt isExisted then [targetServiceName]
  else Dict.values s._loadedExtensions

/-- Method `refreshBlocks`: a `refreshExtension` call per service. -/
def refreshBlocks (s : State) (targetServiceName : Str) : State :=
  { s with effects := s.effects ++ (refreshTargets s targetServiceName).map .refreshExtension }

/-! ## Normalisation -/

/-- A character that the class `[\w-.]` of line 622 accepts. -/
def validIdChar (c : Char) : Bool := c.isAlphanum || c = '_' || c = '-' || c = '.'

/-- The test `/[^\w-.]/i.test(id)`. -/
def hasInvalidIdChar (id : Str) : Bool := id.any fun c => !validIdChar c

/-- The constant `scratchExtension` of lines 34-43. -/
def scratchExtension : List Str :=
  ["music".toList, "pen".toList, "videoSensing".toList, "text".toList, "faceSensing".toList,
    "microbit".toList, "text2speech".toList, "translate".toList]

/-- What a step of the normaliser gives: the calls of `log` it made, and how it ended. -/
structure Prepared (α : Type) where
  logs : List Effect
  result : Completion α
  deriving DecidableEq, Repr

/-- Modelled from the spec: `dispatch._isRemoteService(serviceName)` of
`central-dispatch.js` (§4.2: "If the hosting service is remote (worker/sandbox)"). -/
def _isRemoteService (s : State) (serviceName : Str) : Bool :=
  match Dict.get s.services serviceName with
  | some (.remoteWorker _) => true
  | _ => false

/-- The test `serviceObject[funcName]` of lines 841 and 849: the object has a method of
that name, of its own or inherited from `Object.prototype`.  A function used as a
property name finds nothing. -/
def ExtensionInstance.hasMethod (serviceObject : ExtensionInstance) : FuncValue → Bool
  | .name method =>
    method = "getInfo".toList || decide (method ∈ serviceObject.methods) ||
      Dict.has serviceObject.menuMethods method || decide (method ∈ objectPrototypeMembers)
  | _ => false

/-- The test of lines 650-651: the entry is a string that starts with `---`. -/
def isSeparator : BlockEntry → Bool
  | .str t => startsWith t "---".toList
  | .block _ => false

/-- The value `blockInfo.func || blockInfo.opcode` of line 815, for a truthy opcode. -/
def funcNameOf (func : Option FuncValue) (opcode : Option Str) : FuncValue :=
  match func with
  | some f => if f.truthy then f else .name (opcode.getD [])
  | none => .name (opcode.getD [])

/-- The result handler of lines 824-836, through which the wrapper for a remote service
passes what `dispatch.call` answers: a number, a string or a boolean is returned as it
is, anything else as the string that the template literal makes of it. -/
def coerceResult : JSValue → JSValue
  | .number bits => .number bits
  | .string s => .string s
  | .boolean b => .boolean b
  | .undefined => .string "undefined".toList
  | .null => .string "null".toList
  | .object shown => .string shown

/-- The operator `typeof` on the values kept here. -/
def JSValue.typeof : JSValue → Str
  | .undefined => "undefined".toList
  | .null => "object".toList
  | .boolean _ => "boolean".toList
  | .number _ => "number".toList
  | .string _ => "string".toList
  | .object _ => "object".toList

/-- The property `name` of `Object.assign({}, {name: fallback}, blockInfo)` (lines
779-784): the value of the own property of `blockInfo`, also when that value is
`undefined`, and the default when `blockInfo` has no such property. -/
def assigned {α : Type} (undefinedProperties : List Str) (name : Str) (value : Option α)
    (fallback : α) : Option α :=
  match value with
  | some v => some v
  | none => if name ∈ undefinedProperties then none else some fallback

/-- Method `_prepareBlockInfo`.  A string entry has none of the fields of a block: its
kind defaults to COMMAND and its opcode is missing. -/
def _prepareBlockInfo (s : State) (serviceName : Str) (blockInfo : BlockEntry) :
    Prepared BlockEntry :=
  match blockInfo with
  | .str _ => ⟨[], .thrown .missingOpcode⟩
  | .block supplied =>
    if supplied.blockType = some .XML then
      ⟨[], .returned (.block { supplied with xml := some (supplied.xml.getD "undefined".toList) })⟩
    else
      let defaulted : ExtensionBlockMetadata := { supplied with
        blockType := assigned supplied.undefinedProperties "blockType".toList
          supplied.blockType .COMMAND,
        terminal := assigned supplied.undefinedProperties "terminal".toList
          supplied.terminal false,
        blockAllThreads := assigned supplied.undefinedProperties "blockAllThreads".toList
          supplied.blockAllThreads false,
        arguments := assigned supplied.undefinedProperties "arguments".toList
          supplied.arguments [] }
      let blockInfo : ExtensionBlockMetadata := { defaulted with
        text := if truthyOpt defaulted.text then defaulted.text else defaulted.opcode }
      match blockInfo.blockType with
      | some .EVENT =>
        ⟨match blockInfo.func with
          | some f => if f.truthy then [.warnIgnoringFunction f blockInfo.opcode] else []
          | none => [],
          .returned (.block blockInfo)⟩
      | some .BUTTON =>
        ⟨if truthyOpt blockInfo.opcode then
            [.warnIgnoringOpcode .BUTTON (blockInfo.opcode.getD []) blockInfo.text]
          else [],
          .returned (.block { blockInfo with callFunc := some ⟨serviceName, blockInfo.func⟩ })⟩
      | some .LABEL =>
        ⟨if truthyOpt blockInfo.opcode then
            [.warnIgnoringOpcode .LABEL (blockInfo.opcode.getD []) blockInfo.text]
          else [],
          .returned (.block blockInfo)⟩
      | _ =>
        if !truthyOpt blockInfo.opcode then ⟨[], .thrown .missingOpcode⟩
        else
          let funcName := funcNameOf blockInfo.func blockInfo.opcode
          let isDynamic : Bool := decide (blockInfo.isDynamic = some true)
          if _isRemoteService s serviceName then
            ⟨[], .returned (.block { blockInfo with
              func := some (.remote serviceName funcName isDynamic) })⟩
          else
            match Dict.get s.services serviceName with
            | some (.localObject serviceObject) =>
              ⟨if serviceObject.hasMethod funcName then [] else [.warnFunctionNotFound funcName],
                .returned (.block { blockInfo with
                  func := some (.direct serviceObject.ident funcName isDynamic) })⟩
            | _ => ⟨[], .thrown .typeError⟩

/-- The loop of lines 645-669: separators pass, other entries are prepared, and an
entry whose preparation throws is logged and left out.  The first component holds the
calls of `log`, the second one the new block list. -/
def prepareBlocks (s : State) (serviceName : Str) :
    List BlockEntry → List Effect × List BlockEntry
  | [] => ([], [])
  | blockInfo :: rest =>
    let results := prepareBlocks s serviceName rest
    if isSeparator blockInfo then (results.1, blockInfo :: results.2)
    else
      let prepared := _prepareBlockInfo s serviceName blockInfo
      match prepared.result with
      | .returned result => (prepared.logs ++ results.1, result :: results.2)
      | .thrown _ => (prepared.logs ++ [.error] ++ results.1, results.2)

/-- The extension object that `dispatch.services[serviceName]` gives, by its identity;
there is none when the name is not bound or is bound to a worker. -/
def serviceObjectOf (s : State) (serviceName : Str) : Option ExtensionInstance :=
  match Dict.get s.services serviceName with
  | some (.localObject serviceObject) => some serviceObject
  | _ => none

/-- The body of the loop of `_prepareMenuInfo` (lines 688-710), for one menu. -/
def prepareMenu (s : State) (serviceName : Str) (menuInfo : MenuValue) : MenuValue :=
  let general := if menuInfo.hasItems then menuInfo else .object menuInfo none
  match general with
  | .object (.string menuItemFunctionName) acceptReporters =>
    .object (.function ((serviceObjectOf s serviceName).map fun o => o.ident)
      menuItemFunctionName) acceptReporters
  | other => other

/-- Method `_prepareMenuInfo`. -/
def _prepareMenuInfo (s : State) (serviceName : Str) (menus : Dict Str MenuValue) :
    Dict Str MenuValue :=
  menus.map fun entry => (entry.1, prepareMenu s serviceName entry.2)

/-- Modelled from the spec: the test of `maybeFormatMessage` in
`util/maybe-format-message.js` for "localizable text fields" (§4.2): the object has an
id and a default text. -/
def Message.localizable (m : Message) : Bool := Str.truthy m.id && Str.truthy m.default

/-- The function mapped over the items in lines 739-755.  `format` stands for
`formatMessage` in the message context of the target. -/
def convertMenuItem (format : Message → Str) : MenuItem → Completion MenuEntry
  | .string item => .returned (.pair (.string item) (.string item))
  | .message m =>
    if m.localizable then .returned (.pair (.string (format m)) (.string (format m)))
    else .returned (.pair .undefined .undefined)
  | .object text value =>
    .returned (.pair
      (match text with
        | .value v => v
        | .message m =>
          if m.localizable then .string (format m) else .object "[object Object]".toList)
      value)
  | .array _ _ => .returned (.pair .undefined .undefined)
  | .other .undefined => .returned (.bare .undefined)
  | .other .null => .thrown .typeError
  | .other (.boolean b) => .returned (.bare (.boolean b))
  | .other (.number bits) => .returned (.bare (.number bits))
  | .other (.string item) => .returned (.pair (.string item) (.string item))
  | .other (.object _) => .returned (.pair .undefined .undefined)

/-- The call of `map` of line 739: the first item that throws ends it. -/
def convertMenuItems (format : Message → Str) : List MenuItem → Completion (List MenuEntry)
  | [] => .returned []
  | item :: rest =>
    match convertMenuItem format item with
    | .thrown e => .thrown e
    | .returned entry =>
      match convertMenuItems format rest with
      | .thrown e => .thrown e
      | .returned entries => .returned (entry :: entries)

/-- The value `editingTargetID` of lines 725-727: the id of the target being edited, or
else of the stage, or else `null`. -/
def editingTargetID (s : State) : Option Str :=
  match s.editingTarget with
  | some id => some id
  | none => s.stage

/-- Method `_getExtensionMenuItems`; `extensionObject` is `none` when the resolver was
bound to no extension object. -/
def _getExtensionMenuItems (s : State) (format : Message → Str)
    (extensionObject : Option ExtensionInstance) (menuItemFunctionName : Str) :
    Completion (List MenuEntry) :=
  match extensionObject with
  | none => .thrown .typeError
  | some object =>
    match Dict.get object.menuMethods menuItemFunctionName with
    | none => .thrown .typeError
    | some menuFunc =>
      match convertMenuItems format (menuFunc.call (editingTargetID s) ++
          (Dict.get s.dynamicMenuItems menuItemFunctionName).getD []) with
      | .thrown e => .thrown e
      | .returned menuItems =>
        if menuItems.length < 1 then .thrown (.noMenuItems menuItemFunctionName)
        else .returned menuItems

/-- Method `_prepareExtensionInfo`. -/
def _prepareExtensionInfo (s : State) (serviceName : Str) (extensionInfo : ExtensionInfo) :
    Prepared ExtensionInfo :=
  if hasInvalidIdChar extensionInfo.id then ⟨[], .thrown .invalidExtensionId⟩
  else
    let warningTipText : Option Str :=
      if !decide (extensionInfo.id ∈ scratchExtension) && s.showCompatibilityWarning then
        if truthyOpt extensionInfo.warningTipText then extensionInfo.warningTipText
        else some s.compatibilityWarning
      else none
    let blocks := prepareBlocks s serviceName (extensionInfo.blocks.getD [])
    ⟨blocks.1, .returned { extensionInfo with
      warningTipText := warningTipText,
      name := if truthyOpt extensionInfo.name then extensionInfo.name else some extensionInfo.id,
      blocks := some blocks.2,
      targetTypes := some (extensionInfo.targetTypes.getD []),
      menus := some (_prepareMenuInfo s serviceName (extensionInfo.menus.getD [])) }⟩

/-- Method `_registerExtensionInfo`. -/
def _registerExtensionInfo (s : State) (serviceName : Str) (extensionInfo : ExtensionInfo) :
    Outcome Unit :=
  let prepared := _prepareExtensionInfo s serviceName extensionInfo
  let s1 := { s with effects := s.effects ++ prepared.logs }
  match prepared.result with
  | .thrown e => ⟨s1, .thrown e⟩
  | .returned info => ⟨s1.log (.registerExtensionPrimitives serviceName info), .returned ()⟩

/-- Method `registerExtensionServiceSync`. -/
def registerExtensionServiceSync (s : State) (serviceName : Str) : Outcome Unit :=
  match callSyncGetInfo s serviceName with
  | .error e => ⟨s, .thrown e⟩
  | .ok info => _registerExtensionInfo s serviceName info

/-- The operator `++` on a number that holds a non-negative integer.  Up to 2^53 every
integer is a double; from there to 2^54 only the even ones are, and the sum `n + 1` is
rounded to the neighbour with the even significand; beyond 2^54 it is rounded back to
`n`.  So a count that starts at 0 stops at 2^53. -/
def increment (n : Nat) : Nat :=
  if n < 2 ^ 53 then n + 1
  else if n < 2 ^ 54 ∧ n % 4 = 2 then n + 2
  else n

/-- The service name of line 583 for worker id `n` and descriptor id `id`; the template
literal writes an integer below 10^21 in decimal digits. -/
def internalServiceName (n : Nat) (id : Str) : Str :=
  "extension_".toList ++ Nat.toDigits 10 n ++ ['_'] ++ id

/-- Method `_registerInternalExtension`. -/
def _registerInternalExtension (s : State) (extensionObject : ExtensionInstance) :
    Outcome Str :=
  let extensionInfo := extensionObject.getInfo
  let fakeWorkerId := s.nextExtensionWorker
  let s1 := { s with nextExtensionWorker := increment s.nextExtensionWorker }
  let serviceName := internalServiceName fakeWorkerId extensionInfo.id
  let s2 := setServiceSync s1 serviceName extensionObject
  (registerExtensionServiceSync s2 serviceName).andThen fun s3 _ =>
    ⟨s3, .returned serviceName⟩

/-! ## Registration and replacement -/

/-- The instance of line 225: the one a class constructs, or the argument itself. -/
def Extension.toInstance : Extension → ExtensionInstance
  | .cls make => make
  | .obj inst => inst

/-- The state after line 225 (a class is instantiated, and the call is logged) and the
instance `registerExtension` goes on with. -/
def instantiate (s : State) (extension : Extension) : State × ExtensionInstance :=
  if isConstructor extension then
    (s.log (.construct extension.toInstance.ident), extension.toInstance)
  else (s, extension.toInstance)

/-- The filter of lines 249-250: the old blocks for which some incoming block has the
same in-use opcode and another block type. -/
def typeChangedBlocks (opsInUseSet : List Str) (oldBlocks incomingBlocks : List BlockEntry) :
    List BlockEntry :=
  oldBlocks.filter fun a =>
    match incomingBlocks.find? fun b =>
        (match a.opcode with
          | some op => decide (op ∈ opsInUseSet)
          | none => false) &&
        decide (a.opcode = b.opcode) && decide (a.blockType ≠ b.blockType) with
    | some b => b.truthy
    | none => false

/-- Lines 247-259 of `registerExtension`: the block type check against the descriptor
of the loaded service and, when it passes, the replacement. -/
def replaceLoaded (s1 : State) (extensionId serviceName : Str)
    (extensionInstance : ExtensionInstance) (incomingBlocks : List BlockEntry)
    (opsInUseSet : List Str) : Outcome (Option Str) :=
  match callSyncGetInfo s1 serviceName with
  | .error e => ⟨s1, .thrown e⟩
  | .ok oldInfo =>
    match oldInfo.blocks with
    | none => ⟨s1, .thrown .typeError⟩
    | some oldBlocks =>
      let changed := typeChangedBlocks opsInUseSet oldBlocks incomingBlocks
      if changed.length > 0 then
        ⟨s1, .thrown (.cause .BLOCK_TYPE_CHANGED (changed.map fun b => b.opcode))⟩
      else
        let s2 := setServiceSync s1 serviceName extensionInstance
        (setLoadedExtension s2 extensionId serviceName).andThen fun s3 _ =>
          ⟨refreshBlocks s3 extensionId, .returned (some extensionId)⟩

/-- Method `registerExtension`. -/
def registerExtension (s : State) (extensionId : Str) (extension : Extension)
    (shouldReplace : Bool) : Outcome (Option Str) :=
  let loadedExtServiceName := Dict.get s._loadedExtensions extensionId
  if truthyOpt loadedExtServiceName && !shouldReplace then
    ⟨s.log (.warn ("Rejecting attempt to load a second extension with ID ".toList ++
        extensionId)), .returned none⟩
  else
    let s1 := (instantiate s extension).1
    let extensionInstance := (instantiate s extension).2
    if truthyOpt loadedExtServiceName && shouldReplace then
      let serviceName := loadedExtServiceName.getD []
      match extensionInstance.getInfo.blocks with
      | none => ⟨s1, .thrown .typeError⟩
      | some incomingBlocks =>
        let incomingOpsSet := setOf (incomingBlocks.map fun b => b.opcode)
        let opsInUseSet := opsInUse s1.targets extensionId
        let diff := difference (opsInUseSet.map some) incomingOpsSet
        if diff.length > 0 then
          let detail := diff
          ⟨s1.log (.warn ("Rejecting attempt to replace extension ".toList ++ extensionId ++
              " with new extension that has conflicting opcodes: ".toList ++
              join ",    ".toList (detail.map fun v => v.getD []))),
            .thrown (.cause .OPCODE_NOT_FOUND detail)⟩
        else replaceLoaded s1 extensionId serviceName extensionInstance incomingBlocks opsInUseSet
    else
      (_registerInternalExtension s1 extensionInstance).andThen fun s2 serviceName =>
        (setLoadedExtension s2 extensionId serviceName).andThen fun s3 _ =>
          ⟨s3.log (.compilerRegisterExtension extensionId extensionInstance.ident),
            .returned (some extensionId)⟩

/-! ## Deletion -/

/-- The loop of lines 1092-1097: every monitor whose opcode starts with the id and an
underscore loses its monitor block and is removed from the monitor state. -/
def deleteMonitors (s : State) (extensionId : Str) : State :=
  let doomed := s.monitors.filter fun monitorData =>
    startsWith monitorData.opcode (extensionId ++ ['_'])
  doomed.foldl (fun st monitorData =>
    { st with
      monitors := st.monitors.filter (fun m => decide (m.id ≠ monitorData.id)),
      effects := st.effects ++ [.deleteMonitorBlock monitorData.id] }) s

/-- Method `deleteExtensionById`. -/
def deleteExtensionById (s : State) (extensionId : Str) : Outcome Unit :=
  let inUseBlockOps := opsInUse s.targets extensionId
  if inUseBlockOps.length > 0 then
    ⟨s, .thrown (.cause .OPCODE_IN_USE (inUseBlockOps.map some))⟩
  else
    let serviceName := Dict.get s._loadedExtensions extensionId
    let s1 := { s with services := Dict.delete s.services (serviceName.getD "undefined".toList) }
    let s2 := { s1 with _loadedExtensions := Dict.delete s1._loadedExtensions extensionId }
    let s3 := { s2 with
      _customExtensionInfo := Dict.delete s2._customExtensionInfo extensionId,
      customExtension := Dict.delete s2.customExtension extensionId }
    let s4 := s3.log (.deleteWildExtension extensionId)
    let s5 := s4.log (.removeExtensionPrimitives extensionId)
    let s6 := deleteMonitors s5 extensionId
    ⟨s6.log .emitProjectChanged, .returned ()⟩

/-! ## Replacement under another id -/

/-- The filter of lines 1138-1143: the old blocks for which some incoming block has
the same `info.opcode` and another `info.blockType`. -/
def typeChangedConverted (oldBlocks incomingBlocks : List ConvertedBlockInfo) :
    List ConvertedBlockInfo :=
  oldBlocks.filter fun a =>
    (incomingBlocks.find? fun b =>
      if a.info.truthy && b.info.truthy then
        decide (a.info.opcode = b.info.opcode) && decide (a.info.blockType ≠ b.info.blockType)
      else false).isSome

/-- The assignment of lines 1153-1155 on one block. -/
def renameOpcode (oldId newId : Str) (b : Block) : Block :=
  if startsWith b.opcode (oldId ++ ['_']) then
    { b with opcode := newId ++ ['_'] ++ substring b.opcode (oldId.length + 1) }
  else b

/-- The loop of lines 1150-1158 over all blocks of all targets. -/
def renameOpcodes (oldId newId : Str) (targets : List Target) : List Target :=
  targets.map fun t => { t with _blocks := t._blocks.map (renameOpcode oldId newId) }

/-- Method `replaceExtensionWithId`. -/
def replaceExtensionWithId (s : State) (newId oldId : Str) : Outcome Unit :=
  match s._blockInfo.find? fun block => decide (block.id = newId) with
  | none => ⟨s, .thrown .typeError⟩
  | some incomingExt =>
    let incomingBlocks := incomingExt.blocks
    let incomingOpsSet := setOf ((incomingBlocks.map fun b => b.info.opcode).filter truthyOpt)
    match s._blockInfo.find? fun block => decide (block.id = oldId) with
    | none => ⟨s, .thrown .typeError⟩
    | some oldExt =>
      let currOpsSet := opsInUse s.targets oldExt.id
      let diff := difference (currOpsSet.map some) incomingOpsSet
      if diff.length > 0 then
        (deleteExtensionById s incomingExt.id).andThen fun s1 _ =>
          ⟨s1, .thrown (.cause .OPCODE_NOT_FOUND diff)⟩
      else
        let changed := typeChangedConverted oldExt.blocks incomingBlocks
        if changed.length > 0 then
          ⟨s, .thrown (.cause .BLOCK_TYPE_CHANGED (changed.map fun b => b.info.opcode))⟩
        else
          let s1 := { s with targets := renameOpcodes oldExt.id incomingExt.id s.targets }
          let s2 := s1.log .resetAllCaches
          deleteExtensionById s2 oldExt.id

/-! ## The catalog, built-in extensions and reserved ids -/

/-- The constant `reservedExtId` of lines 50-54. -/
def reservedExtId : List Str :=
  ["control".toList, "event".toList, "looks".toList, "motion".toList, "operator".toList,
    "sound".toList, "sensing".toList, "data".toList, "procedures".toList, "argument".toList,
    "ccw".toList, "Gandi".toList]

/-- Method `isExtensionIdReserved`. -/
def isExtensionIdReserved (extensionId : Str) : Bool :=
  if decide (extensionId ∈ reservedExtId) then true
  else if truthyOpt (reservedExtId.find? fun pre => startsWith extensionId (pre ++ ['_'])) then
    true
  else false

/-- The argument `obj` of `addOfficialExtensionInfo` and `addCustomExtensionInfo`: the
field `Extension` and, of the rest, `info.extensionId` (`none` when `info` or the id is
absent), `url` and `replaceable`. -/
structure ExtensionObject where
  Extension : Extension
  extensionId : Option Str
  url : Option Str := none
  replaceable : Bool := false
  deriving DecidableEq, Repr

/-- Method `addOfficialExtensionInfo`. -/
def addOfficialExtensionInfo (s : State) (obj : ExtensionObject) : Outcome Unit :=
  if !truthyOpt obj.extensionId then ⟨s, .thrown .extensionIdNotFound⟩
  else
    let extensionId := obj.extensionId.getD []
    let ext : ExternalExtensionInfo :=
      { extensionId := extensionId, url := obj.url, replaceable := obj.replaceable }
    ⟨{ s with
        _officialExtensionInfo := Dict.set s._officialExtensionInfo extensionId ext,
        officialExtension := Dict.set s.officialExtension extensionId obj.Extension },
      .returned ()⟩

/-- Method `addCustomExtensionInfo`; the table `customExtension` is kept by what its
entry is or, for a class, returns. -/
def addCustomExtensionInfo (s : State) (obj : ExtensionObject) (url : Option Str) :
    Outcome Unit :=
  if !truthyOpt obj.extensionId then ⟨s, .thrown .extensionIdNull⟩
  else
    let extensionId := obj.extensionId.getD []
    if isExtensionIdReserved extensionId then ⟨s, .thrown (.extensionIdReserved extensionId)⟩
    else
      let ext : ExternalExtensionInfo :=
        { extensionId := extensionId,
          url := if truthyOpt url then url else obj.url,
          replaceable := obj.replaceable }
      ⟨{ s with
          _customExtensionInfo := Dict.set s._customExtensionInfo extensionId ext,
          customExtension := Dict.set s.customExtension extensionId obj.Extension },
        .returned ()⟩

/-- Method `isBuiltinExtension`. -/
def isBuiltinExtension (s : State) (extensionId : Str) : Bool :=
  Dict.has s.builtinExtensions extensionId

/-- Method `addBuiltinExtension`. -/
def addBuiltinExtension (s : State) (extensionId : Str) (extensionClass : Extension) : State :=
  { s with builtinExtensions := Dict.set s.builtinExtensions extensionId extensionClass }

/-- Method `loadExtensionIdSync`. -/
def loadExtensionIdSync (s : State) (extensionId : Str) : Outcome (Option Str) :=
  if !isBuiltinExtension s extensionId then
    ⟨s.log (.warn ("Could not find extension ".toList ++ extensionId ++
      " in the built in extensions.".toList)), .returned none⟩
  else if isExtensionLoaded s extensionId then
    ⟨s.log (.warn ("Rejecting attempt to load a second extension with ID ".toList ++
      extensionId)), .returned none⟩
  else
    match Dict.get s.builtinExtensions extensionId with
    | none => ⟨s, .thrown .typeError⟩
    | some extension => registerExtension s extensionId extension false

/-- The callback of lines 1057-1062: the URL of a loaded id, if its record has one, is
entered under the id. -/
def addLoadedURL (s : State) (loadURLs : Dict Str Str) (extId : Str) : Dict Str Str :=
  match getExtensionInfoById s extId with
  | .own ext => if truthyOpt ext.url then Dict.set loadURLs extId (ext.url.getD []) else loadURLs
  | _ => loadURLs

/-- Method `getLoadedExtensionURLs`. -/
def getLoadedExtensionURLs (s : State) : Dict Str Str :=
  (Dict.keys s._loadedExtensions).foldl (addLoadedURL s) []

/-! ## Extension workers -/

/-- Method `loadExtensionURLInWorker`, up to the point where it returns its promise:
the counter goes up, the request is queued and a worker is asked for.  The value
returned names the promise. -/
def loadExtensionURLInWorker (s : State) (extensionURL : Str) : Outcome Nat :=
  let s1 := { s with loadingAsyncExtensions := s.loadingAsyncExtensions + 1 }
  let request := s1.nextRequest
  let s2 := { s1 with
    nextRequest := request + 1,
    pendingExtensions := s1.pendingExtensions ++ [PendingExtensionWorker.mk extensionURL request] }
  ⟨s2.log (.createExtensionWorker request), .returned request⟩

/-- The `catch` and `finally` handlers of `loadExtensionURLInWorker` (lines 413-418):
what runs when the worker of `request` could not be created or added. -/
def workerCreationFailed (s : State) (extensionURL : Str) (request : Nat) : State :=
  ((((s.log (.emit (.EXTENSION_NOT_FOUND extensionURL))).log .error).log
    (.reject request)).log (.emit (.EXTENSION_DATA_LOADING false)))

/-- Method `allocateWorker`. -/
def allocateWorker (s : State) : Outcome (Nat × Str) :=
  let id := s.nextExtensionWorker
  let s1 := { s with nextExtensionWorker := increment s.nextExtensionWorker }
  let workerInfo := s1.pendingExtensions.head?
  let s2 := { s1 with pendingExtensions := s1.pendingExtensions.tail }
  let s3 := { s2 with pendingWorkers := Dict.set s2.pendingWorkers id workerInfo }
  match workerInfo with
  | none => ⟨s3, .thrown .typeError⟩
  | some info =>
    ⟨{ s3 with workerURLs := Dict.set s3.workerURLs id info.extensionURL },
      .returned (id, info.extensionURL)⟩

/-- The state after `loadExtensionURLInWorker` has been called for every URL of the
list, in order. -/
def loadAll (s : State) (urls : List Str) : State :=
  urls.foldl (fun st u => (loadExtensionURLInWorker st u).state) s

/-- The results of `k` calls of `allocateWorker` in a row, and the state after them. -/
def allocateWorkers : State → Nat → State × List (Completion (Nat × Str))
  | s, 0 => (s, [])
  | s, k + 1 =>
    let o := allocateWorker s
    let rest := allocateWorkers o.state k
    (rest.1, o.result :: rest.2)

/-- A call that takes the next number of the sequence counter `nextExtensionWorker`. -/
inductive Allocation
  /-- A call of `_registerInternalExtension`. -/
  | register (extensionObject : ExtensionInstance)
  /-- A call of `allocateWorker`. -/
  | worker
  deriving DecidableEq, Repr

/-- The service names that the calls of `_registerInternalExtension` among the given
calls return, in order, the calls being made one after the other from the state. -/
def serviceNames : State → List Allocation → List Str
  | _, [] => []
  | s, .register extensionObject :: rest =>
    match (_registerInternalExtension s extensionObject).result with
    | .returned serviceName =>
      serviceName :: serviceNames (_registerInternalExtension s extensionObject).state rest
    | .thrown _ => serviceNames (_registerInternalExtension s extensionObject).state rest
  | s, .worker :: rest => serviceNames (allocateWorker s).state rest

/-- The promise of the load request is settled: it was resolved or rejected. -/
def State.settled (s : State) (request : Nat) : Bool :=
  decide (Effect.resolve request ∈ s.effects) || decide (Effect.reject request ∈ s.effects)

/-- The call of `resolve` or of `reject` for the promise of a load request.  A settled
promise stays as it is; otherwise the promise is settled and the `finally` handler of
line 418 runs. -/
def settle (s : State) (request : Nat) (call : Effect) : State :=
  if s.settled request then s
  else (s.log call).log (.emit (.EXTENSION_DATA_LOADING false))

/-- Method `onWorkerInit`; `e` tells whether an error was passed. -/
def onWorkerInit (s : State) (id : Nat) (e : Bool) : Outcome Unit :=
  let workerInfo := Dict.get s.pendingWorkers id
  let s1 := { s with pendingWorkers := Dict.delete s.pendingWorkers id }
  if e then
    let s2 := { s1 with loadingAsyncExtensions := 0 }
    match workerInfo with
    | some (some info) => ⟨settle s2 info.request (.reject info.request), .returned ()⟩
    | _ => ⟨s2, .thrown .typeError⟩
  else
    match workerInfo with
    | some (some info) => ⟨settle s1 info.request (.resolve info.request), .returned ()⟩
    | _ => ⟨s1, .thrown .typeError⟩

/-- Method `_finishedLoadingExtensionScript`. -/
def _finishedLoadingExtensionScript (s : State) : State :=
  let s1 := { s with loadingAsyncExtensions := s.loadingAsyncExtensions - 1 }
  if s1.loadingAsyncExtensions = 0 then
    { s1 with
      effects := s1.effects ++ s1.asyncExtensionsLoadedCallbacks.map .resolveWaiter,
      asyncExtensionsLoadedCallbacks := [] }
  else s1

/-- Method `_failedLoadingExtensionScript`. -/
def _failedLoadingExtensionScript (s : State) (error : Err) : Outcome Unit :=
  let s1 := { s with loadingAsyncExtensions := s.loadingAsyncExtensions - 1 }
  ⟨{ s1 with
      effects := s1.effects ++ s1.asyncExtensionsLoadedCallbacks.map .rejectWaiter,
      asyncExtensionsLoadedCallbacks := [] },
    .thrown error⟩

/-- Method `registerExtensionService`, with the handler of lines 534-538 run as soon as
`dispatch.call(serviceName, 'getInfo')` has its answer: the descriptor of the object for
a service in process, `answer` for a service that a worker hosts.  For a name that is
not bound there is no answer, and the handler does not run. -/
def registerExtensionService (s : State) (serviceName : Str) (answer : ExtensionInfo) :
    Outcome Unit :=
  match Dict.get s.services serviceName with
  | none => ⟨s, .returned ()⟩
  | some service =>
    let info :=
      match service with
      | .localObject serviceObject => serviceObject.getInfo
      | .remoteWorker _ => answer
    (setLoadedExtension s info.id serviceName).andThen fun s1 _ =>
      (_registerExtensionInfo s1 serviceName info).andThen fun s2 _ =>
        ⟨_finishedLoadingExtensionScript s2, .returned ()⟩

/-- Method `loadGandiExternalExtensionServers`, as far as the flag goes; `fetched` tells
whether every call of `loadExternalExtensionToLibrary` succeeds. -/
def loadGandiExternalExtensionServers (s : State) (fetched : Bool) : Outcome Unit :=
  let s1 := { s with effects := s.effects ++
    s._gandiExternalExtensionServices.map .loadExternalExtensionToLibrary }
  if fetched || s._gandiExternalExtensionServices.isEmpty then
    ⟨{ s1 with _gandiExternalExtensionServicesLoaded := true }, .returned ()⟩
  else ⟨s1, .thrown .scriptError⟩

/-- Method `allAsyncExtensionsLoaded`.  It returns `none` when its promise is fulfilled
at once, and the waiter it has registered otherwise. -/
def allAsyncExtensionsLoaded (s : State) (fetched : Bool) : Outcome (Option Nat) :=
  let ensured : Outcome Unit :=
    if !s._gandiExternalExtensionServicesLoaded then
      let loaded := loadGandiExternalExtensionServers s fetched
      match loaded.result with
      | .returned _ => ⟨loaded.state, .returned ()⟩
      | .thrown _ => ⟨loaded.state, .thrown .failedToLoadServices⟩
    else ⟨s, .returned ()⟩
  ensured.andThen fun s1 _ =>
    if s1.loadingAsyncExtensions = 0 then ⟨s1, .returned none⟩
    else
      ⟨{ s1 with
          nextRequest := s1.nextRequest + 1,
          asyncExtensionsLoadedCallbacks :=
            s1.asyncExtensionsLoadedCallbacks ++ [s1.nextRequest] },
        .returned (some s1.nextRequest)⟩

/-- What can happen to the load counter and to the waiters. -/
inductive Event
  /-- A call of `loadExtensionURLInWorker`. -/
  | load (extensionURL : Str)
  /-- A call of `allocateWorker`. -/
  | allocate
  /-- A call of `onWorkerInit`, with or without an error. -/
  | init (id : Nat) (e : Bool)
  /-- A call of `_finishedLoadingExtensionScript`, by which `registerExtensionService`
  completes. -/
  | finished
  /-- A call of `_failedLoadingExtensionScript`. -/
  | failed
  deriving DecidableEq, Repr

/-- The state after an event. -/
def step (s : State) : Event → State
  | .load extensionURL => (loadExtensionURLInWorker s extensionURL).state
  | .allocate => (allocateWorker s).state
  | .init id e => (onWorkerInit s id e).state
  | .finished => _finishedLoadingExtensionScript s
  | .failed => (_failedLoadingExtensionScript s .scriptError).state

/-- The state after a sequence of events. -/
def run (s : State) (events : List Event) : State := events.foldl step s

/-- The event is an allocation, an initialisation without error or a completion. -/
def Event.isProgress : Event → Bool
  | .allocate => true
  | .init _ e => !e
  | .finished => true
  | _ => false

/-- The number of completions among the events. -/
def completions (events : List Event) : Nat := events.countP fun e => decide (e = .finished)

/-- The empty manager of the constructor (lines 117-197), over a runtime without
targets and with no built-in extension. -/
def State.initial : State :=
  { nextExtensionWorker := 0, pendingExtensions := [], pendingWorkers := [],
    workerURLs := [], _loadedExtensions := [], loadingAsyncExtensions := 0,
    asyncExtensionsLoadedCallbacks := [], _customExtensionInfo := [],
    _officialExtensionInfo := [], customExtension := [], officialExtension := [],
    services := [], targets := [], _blockInfo := [], monitors := [],
    gandiAssetURLs := [], nextRequest := 0, effects := [] }

/-! ## Sample states -/

/-- An instance of extension `a` with a reporter `x`, a separator and a command `y`. -/
def sampleOld : ExtensionInstance :=
  { ident := 0,
    getInfo :=
      { id := "a".toList,
        blocks := some [.block { opcode := some "x".toList, blockType := some .REPORTER },
          .str "---".toList,
          .block { opcode := some "y".toList, blockType := some .COMMAND }] } }

/-- A candidate for `a` that declares `x` only. -/
def sampleLacking : ExtensionInstance :=
  { ident := 1,
    getInfo :=
      { id := "a".toList,
        blocks := some [.block { opcode := some "x".toList, blockType := some .REPORTER }] } }

/-- A candidate for `a` in which `x` has become a command. -/
def sampleRetyped : ExtensionInstance :=
  { ident := 2,
    getInfo :=
      { id := "a".toList,
        blocks := some [.block { opcode := some "x".toList, blockType := some .COMMAND },
          .block { opcode := some "y".toList, blockType := some .COMMAND }] } }

/-- A candidate for `a` that keeps `x` and `y` and adds `z`. -/
def sampleExtended : ExtensionInstance :=
  { ident := 3,
    getInfo :=
      { id := "a".toList,
        blocks := some [.block { opcode := some "x".toList, blockType := some .REPORTER },
          .block { opcode := some "y".toList, blockType := some .COMMAND },
          .block { opcode := some "z".toList, blockType := some .BOOLEAN }] } }

/-- Extension `a` is registered in-process and a program uses `a_x` and `a_y`. -/
def sampleState : State :=
  { State.initial with
    nextExtensionWorker := 1,
    _loadedExtensions := [("a".toList, "extension_0_a".toList)],
    services := [("extension_0_a".toList, .localObject sampleOld)],
    targets := [{ _blocks := [{ id := "b1".toList, opcode := "a_x".toList },
      { id := "b2".toList, opcode := "motion_movesteps".toList },
      { id := "b3".toList, opcode := "a_y".toList }] }] }

/-- Extension `a` is registered under a service that a worker hosts; no program uses
its blocks. -/
def sampleRemote : State :=
  { State.initial with
    nextExtensionWorker := 1,
    _loadedExtensions := [("a".toList, "worker_0_a".toList)],
    services := [("worker_0_a".toList, .remoteWorker 0)] }

/-- An instance whose descriptor has the given id and no `blocks` property. -/
def sampleBare (ident : Nat) (id : Str) : ExtensionInstance :=
  { ident := ident, getInfo := { id := id, blocks := none } }

/-- The block info of an extension with the single command `x`. -/
def sampleCategory (id : Str) : CategoryInfo :=
  { id := id,
    blocks := [{ info := .block { opcode := some "x".toList, blockType := some .COMMAND } }] }

/-- Extensions `o` and `n` are registered; `o` has the command `x`, which a program
uses, and `n` has no blocks. -/
def sampleUncovered : State :=
  { State.initial with
    nextExtensionWorker := 2,
    _loadedExtensions :=
      [("o".toList, "extension_0_o".toList), ("n".toList, "extension_1_n".toList)],
    services :=
      [("extension_0_o".toList, .localObject (sampleBare 0 "o".toList)),
        ("extension_1_n".toList, .localObject (sampleBare 1 "n".toList))],
    targets := [{ _blocks := [{ id := "b1".toList, opcode := "o_x".toList }] }],
    _blockInfo := [sampleCategory "o".toList, { id := "n".toList, blocks := [] }] }

/-- Extensions `o` and `n` are registered, both with the command `x`, and a program
uses `o_x`. -/
def sampleFork : State :=
  { sampleUncovered with
    _blockInfo := [sampleCategory "o".toList, sampleCategory "n".toList] }

/-- Extensions `a` and `a_b` are registered, both with the command `x`, and a program
uses `a_x`. -/
def samplePrefixed : State :=
  { State.initial with
    nextExtensionWorker := 2,
    _loadedExtensions :=
      [("a".toList, "extension_0_a".toList), ("a_b".toList, "extension_1_a_b".toList)],
    targets := [{ _blocks := [{ id := "b1".toList, opcode := "a_x".toList }] }],
    _blockInfo := [sampleCategory "a".toList, sampleCategory "a_b".toList] }

/-- The state after a load request for `u1` whose worker could not be created, followed
by a load request for `u2`. -/
def sampleFailedLoad : State :=
  (loadExtensionURLInWorker
    (workerCreationFailed (loadExtensionURLInWorker State.initial "u1".toList).state
      "u1".toList 0) "u2".toList).state

/-! ## The vocabulary of the claims -/

/-- The opcode `op` is in use by the extension: some block of some target has the opcode
formed of the extension id, an underscore and `op`. -/
def InUse (s : State) (extensionId op : Str) : Prop :=
  ∃ t ∈ s.targets, ∃ b ∈ t._blocks, b.opcode = extensionId ++ ['_'] ++ op

/-- The extension id has a registration under the service name: the registry holds the
name for the id, and the name is truthy (a non-empty string), which is what lines
219-226 of `registerExtension` test. -/
def Registered (s : State) (extensionId serviceName : Str) : Prop :=
  Dict.get s._loadedExtensions extensionId = some serviceName ∧ serviceName ≠ []

/-- The block list declares the opcode `op`. -/
def Declares (blocks : List BlockEntry) (op : Str) : Prop :=
  ∃ b ∈ blocks, b.opcode = some op

/-- The opcode `op` has different block types in the two block lists. -/
def TypeDiffers (oldBlocks incomingBlocks : List BlockEntry) (op : Str) : Prop :=
  ∃ a ∈ oldBlocks, ∃ b ∈ incomingBlocks,
    a.opcode = some op ∧ b.opcode = some op ∧ a.blockType ≠ b.blockType

/-- The instance declares the opcode `op`: its descriptor lists blocks, and one of them
has the opcode. -/
def DeclaredBy (inst : ExtensionInstance) (op : Str) : Prop :=
  ∃ blocks, inst.getInfo.blocks = some blocks ∧ Declares blocks op

/-- The opcode `op` is in use by the extension, is declared by the descriptor of the
instance bound to the service name and by the descriptor of the candidate, and has
different block types in the two. -/
def TypeChanged (s : State) (extensionId serviceName : Str) (candidate : ExtensionInstance)
    (op : Str) : Prop :=
  InUse s extensionId op ∧ ∃ old oldBlocks incomingBlocks,
    Dict.get s.services serviceName = some (.localObject old) ∧
    old.getInfo.blocks = some oldBlocks ∧
    candidate.getInfo.blocks = some incomingBlocks ∧
    TypeDiffers oldBlocks incomingBlocks op

/-- The queue entries of requests for the given URLs, the first of which holds promise
`n`, the next one promise `n + 1`, and so on. -/
def requestsFrom (n : Nat) : List Str → List PendingExtensionWorker
  | [] => []
  | u :: us => ⟨u, n⟩ :: requestsFrom (n + 1) us

/-- The results of allocating the given queue entries in order, the first under worker
id `n`, the next one under `n + 1`, and so on. -/
def allocations (n : Nat) : List PendingExtensionWorker → List (Completion (Nat × Str))
  | [] => []
  | w :: ws => .returned (n, w.extensionURL) :: allocations (n + 1) ws

/-- The two states agree on everything but the log of calls. -/
def State.sameData (a b : State) : Prop := { a with effects := [] } = { b with effects := [] }

/-- A manager whose sequence counter has reached 2^53. -/
def sampleExhausted : State :=
  { State.initial with nextExtensionWorker := 2 ^ 53 }

/-! ## Sample states for loading and normalisation -/

/-- A manager in which nothing is loading and the catalogs have been fetched. -/
def sampleIdle : State :=
  { State.initial with _gandiExternalExtensionServicesLoaded := true }

/-- A load of `u1` is outstanding (promise 0), a waiter has been registered (promise 1),
and the worker of the load has been allocated under id 0. -/
def sampleAllocated : State :=
  (allocateWorker (allAsyncExtensionsLoaded
    (loadExtensionURLInWorker sampleIdle "u1".toList).state true).state).state

/-- An extension object with the methods `x` and `go`, whose descriptor lists a command,
a separator, a reporter without opcode, a label and a string that is no separator. -/
def sampleMixed : ExtensionInstance :=
  { ident := 7,
    methods := ["x".toList, "go".toList],
    getInfo :=
      { id := "m".toList,
        blocks := some [.block { opcode := some "x".toList },
          .str "---".toList,
          .block { blockType := some .REPORTER, text := some "lost".toList },
          .block { blockType := some .LABEL, text := some "hello".toList },
          .str "oops".toList] } }

/-- The service `extension_0_m` is bound to the object `sampleMixed`. -/
def sampleHosted : State :=
  { State.initial with
    nextExtensionWorker := 1,
    services := [("extension_0_m".toList, .localObject sampleMixed)] }

/-- A worker hosts the service `worker_0_w`. -/
def sampleWorker : State :=
  { State.initial with services := [("worker_0_w".toList, .remoteWorker 0)] }

/-- An extension object whose method `gen` returns no menu items, and whose method
`two` returns the items `a` and `b`. -/
def sampleMenus : ExtensionInstance :=
  { ident := 8,
    getInfo := { id := "menus".toList, blocks := none },
    menuMethods :=
      [("gen".toList, { otherwise := [] }),
        ("two".toList, { otherwise := [.string "a".toList, .string "b".toList] })] }

/-- The editor has registered the extra item `x` under the generator name `gen`. -/
def sampleDynamic : State :=
  { State.initial with dynamicMenuItems := [("gen".toList, [.string "x".toList])] }

/-! ## The vocabulary of the claims on loading and normalisation -/

/-- The character is an ASCII letter, a digit, an underscore, a dot or a hyphen. -/
def IdChar (c : Char) : Prop :=
  ('a' ≤ c ∧ c ≤ 'z') ∨ ('A' ≤ c ∧ c ≤ 'Z') ∨ ('0' ≤ c ∧ c ≤ '9') ∨
    c = '_' ∨ c = '.' ∨ c = '-'

/-- The entry needs an opcode and has none: its kind is not XML, EVENT, BUTTON or LABEL,
and its opcode is absent or empty, which is the test of line 811. -/
def MissingOpcode (blockInfo : BlockEntry) : Prop :=
  blockInfo.blockType ≠ some .XML ∧ blockInfo.blockType ≠ some .EVENT ∧
    blockInfo.blockType ≠ some .BUTTON ∧ blockInfo.blockType ≠ some .LABEL ∧
    truthyOpt blockInfo.opcode = false

/-! ## Sample states for the catalog, replacement and menus -/

/-- Extension `o` comes from the official catalog, with a URL, and is registered; no
program uses its blocks. -/
def sampleOfficial : State :=
  { State.initial with
    nextExtensionWorker := 1,
    _loadedExtensions := [("o".toList, "extension_0_o".toList)],
    _officialExtensionInfo :=
      [("o".toList,
        { extensionId := "o".toList, url := some "https://x/o.js".toList, replaceable := false })],
    officialExtension := [("o".toList, .obj (sampleBare 0 "o".toList))],
    services := [("extension_0_o".toList, .localObject (sampleBare 0 "o".toList))] }

/-- Extension `constructor` comes from the custom catalog and is registered; no program
uses its blocks. -/
def sampleInherited : State :=
  { State.initial with
    nextExtensionWorker := 1,
    _loadedExtensions := [("constructor".toList, "extension_0_constructor".toList)],
    _customExtensionInfo :=
      [("constructor".toList,
        { extensionId := "constructor".toList, url := none, replaceable := true })],
    customExtension := [("constructor".toList, .obj (sampleBare 0 "constructor".toList))],
    services :=
      [("extension_0_constructor".toList, .localObject (sampleBare 0 "constructor".toList))] }

/-- A manager whose table of built-in extensions has the entry `pen`, a class. -/
def sampleBuiltin : State :=
  { State.initial with builtinExtensions := [("pen".toList, .cls (sampleBare 5 "pen".toList))] }

/-- A manager whose table of built-in extensions has the entry `bad`, a class whose
descriptor has the id `a b`. -/
def sampleBadBuiltin : State :=
  { State.initial with
    builtinExtensions := [("bad".toList, .cls (sampleBare 6 "a b".toList))] }

/-- A candidate for `a` whose descriptor lists no blocks. -/
def sampleEmptyCandidate : ExtensionInstance :=
  { ident := 9, getInfo := { id := "a".toList, blocks := some [] } }

/-- Extension `a` is registered in-process with the reporter `x` and the command `y`, and
a program uses `a_y` and then `a_x`. -/
def sampleReversed : State :=
  { sampleState with
    targets := [{ _blocks := [{ id := "b1".toList, opcode := "a_y".toList },
      { id := "b2".toList, opcode := "a_x".toList }] }] }

/-- Extension `a` is registered in-process with the reporter `x` and the command `y`, and
no program uses its blocks. -/
def sampleUnused : State := { sampleState with targets := [] }

/-- The block info of an extension with the single reporter `x`. -/
def sampleReporterCategory (id : Str) : CategoryInfo :=
  { id := id,
    blocks := [{ info := .block { opcode := some "x".toList, blockType := some .REPORTER } }] }

/-- Extension `o` has the reporter `x` and extension `n` the command `x`; no program
uses a block of either. -/
def sampleRetypedFork : State :=
  { State.initial with
    nextExtensionWorker := 2,
    _loadedExtensions :=
      [("o".toList, "extension_0_o".toList), ("n".toList, "extension_1_n".toList)],
    _blockInfo := [sampleReporterCategory "o".toList, sampleCategory "n".toList] }

/-- The block info of an extension with a label and a button, which have no opcode. -/
def sampleLabelCategory (id : Str) : CategoryInfo :=
  { id := id,
    blocks :=
      [{ info := .block { blockType := some .LABEL, text := some "hello".toList } },
        { info := .block { blockType := some .BUTTON, text := some "go".toList } }] }

/-- Extensions `o` and `n` both have the same label and the same button; no program
uses a block of either. -/
def sampleLabelFork : State :=
  { State.initial with
    nextExtensionWorker := 2,
    _loadedExtensions :=
      [("o".toList, "extension_0_o".toList), ("n".toList, "extension_1_n".toList)],
    _blockInfo := [sampleLabelCategory "o".toList, sampleLabelCategory "n".toList] }

/-- An extension object for `a` whose descriptor lists a label and a button. -/
def sampleLabels : ExtensionInstance :=
  { ident := 11,
    getInfo :=
      { id := "a".toList,
        blocks := some [.block { blockType := some .LABEL, text := some "hello".toList },
          .block { blockType := some .BUTTON, text := some "go".toList }] } }

/-- Extension `a` is registered in-process with a label and a button; no program uses a
block of it. -/
def sampleLabelled : State :=
  { State.initial with
    nextExtensionWorker := 1,
    _loadedExtensions := [("a".toList, "extension_0_a".toList)],
    services := [("extension_0_a".toList, .localObject sampleLabels)] }

/-- Extensions `a` and `a_b` are registered in-process, `a` with the reporter `x`; the
only block of the program is the block `x` of `a_b`, with the opcode `a_b_x`. -/
def sampleShared : State :=
  { State.initial with
    nextExtensionWorker := 2,
    _loadedExtensions :=
      [("a".toList, "extension_0_a".toList), ("a_b".toList, "extension_1_a_b".toList)],
    services :=
      [("extension_0_a".toList, .localObject sampleLacking),
        ("extension_1_a_b".toList, .localObject (sampleBare 1 "a_b".toList))],
    targets := [{ _blocks := [{ id := "b1".toList, opcode := "a_b_x".toList }] }] }

/-- An extension object whose method `count` returns the number 1, kept by the bits of
its double, and the string `two`. -/
def sampleNumbers : ExtensionInstance :=
  { ident := 10,
    getInfo := { id := "nums".toList, blocks := none },
    menuMethods :=
      [("count".toList,
        { otherwise := [.other (.number 4607182418800017408), .string "two".toList] })] }

/-- The descriptor that preparing the descriptor with the id `m` and the single block
`x` gives for the service `extension_0_m` of `sampleHosted`. -/
def sampleOnce : ExtensionInfo :=
  { id := "m".toList, name := some "m".toList, targetTypes := some [], menus := some [],
    blocks := some [.block
      { opcode := some "x".toList, blockType := some .COMMAND, text := some "x".toList,
        func := some (.direct 7 (.name "x".toList) false), terminal := some false,
        blockAllThreads := some false, arguments := some [] }] }

/-! ## The vocabulary of the claims on menus, idempotence and service names -/

/-- The in-use test of line 250 on an entry: its opcode is in the set. -/
def opcodeIn (ops : List Str) (a : BlockEntry) : Bool :=
  match a.opcode with
  | some op => decide (op ∈ ops)
  | none => false

/-- The number that a list of decimal digits stands for. -/
def digitsValue (ds : List Char) : Nat := ds.foldl (fun acc c => 10 * acc + (c.toNat - 48)) 0

/-- The field `func` of an entry; a string has none. -/
def BlockEntry.func : BlockEntry → Option FuncValue
  | .str _ => none
  | .block info => info.func

/-- The entry without its field `func`. -/
def BlockEntry.withoutFunc : BlockEntry → BlockEntry
  | .str t => .str t
  | .block info => .block { info with func := none }

/-- The entry is a block of a kind that `_prepareBlockInfo` gives a call wrapper: its
kind is not XML, EVENT, BUTTON or LABEL. -/
def BlockEntry.wrapped : BlockEntry → Bool
  | .str _ => false
  | .block info =>
    !(decide (info.blockType = some .XML) || decide (info.blockType = some .EVENT) ||
      decide (info.blockType = some .BUTTON) || decide (info.blockType = some .LABEL))

/-- What preparing a prepared entry once more makes of it: all fields but `func` are
kept; an entry without call wrapper is kept altogether; for an entry with a call wrapper,
the new `func` is another wrapper, made over the wrapper that the entry had, and so is
not the `func` that the entry had. -/
def Reprepared (first second : BlockEntry) : Prop :=
  second.withoutFunc = first.withoutFunc ∧
  (first.wrapped = false → second = first) ∧
  (first.wrapped = true → ∃ f, first.func = some f ∧ second.func ≠ some f ∧
    ((∃ serviceObject isDynamic, second.func = some (.direct serviceObject f isDynamic)) ∨
      ∃ serviceName isDynamic, second.func = some (.remote serviceName f isDynamic)))

/-- The outcome of preparing a prepared entry once more is a block that stands in the
relation `Reprepared` to the entry. -/
def RepreparedResult (first : BlockEntry) : Completion BlockEntry → Prop
  | .returned second => Reprepared first second
  | .thrown _ => False

/-- The step of the loop of lines 645-669 on one entry: what is pushed, if anything. -/
def pushed (s : State) (serviceName : Str) (blockInfo : BlockEntry) : Option BlockEntry :=
  if isSeparator blockInfo then some blockInfo
  else (_prepareBlockInfo s serviceName blockInfo).result.value?

end GandiVM

/-! # Theorems -/

namespace GandiVM

/-! ## Lemmas on maps and sets -/

namespace Dict
variable {κ β : Type} [DecidableEq κ]

theorem get_set (m : Dict κ β) (k a : κ) (v : β) :
    get (set m k v) a = if a = k then some v else get m a := by
  induction m with
  | nil =>
    by_cases h : a = k
    · simp [set, get, h]
    · have h2 : ¬ k = a := fun e => h e.symm
      simp [set, get, h, h2]
  | cons e m ih =>
    obtain ⟨k1, v1⟩ := e
    by_cases h1 : k1 = k
    · subst h1
      by_cases h : a = k1
      · simp [set, get, h]
      · have h2 : ¬ k1 = a := fun e => h e.symm
        simp [set, get, h, h2]
    · by_cases h : a = k
      · subst h
        have h3 : ¬ k1 = a := h1
        simp [set, get, h1, ih]
      · by_cases h4 : k1 = a
        · simp [set, get, h1, h4, h]
        · simp [set, get, h1, h4, h, ih]

theorem get_set_self (m : Dict κ β) (k : κ) (v : β) : get (set m k v) k = some v := by
  simp [get_set]

theorem get_set_of_ne (m : Dict κ β) (k a : κ) (v : β) (h : a ≠ k) :
    get (set m k v) a = get m a := by
  simp [get_set, h]

theorem set_eq_self (m : Dict κ β) (k : κ) (v : β) (h : get m k = some v) : set m k v = m := by
  induction m with
  | nil => simp [get] at h
  | cons e m ih =>
    obtain ⟨k1, v1⟩ := e
    by_cases h1 : k1 = k
    · simp [get, h1] at h
      simp [set, h1, h]
    · simp [get, h1] at h
      simp [set, h1, ih h]

theorem delete_cons (e : κ × β) (m : Dict κ β) (k : κ) :
    delete (e :: m) k = if e.1 = k then delete m k else e :: delete m k := by
  unfold delete
  by_cases h : e.1 = k <;> simp [List.filter_cons, h]

theorem get_cons (e : κ × β) (m : Dict κ β) (a : κ) :
    get (e :: m) a = if e.1 = a then some e.2 else get m a := by
  obtain ⟨k1, v1⟩ := e
  rfl

theorem get_delete (m : Dict κ β) (k a : κ) :
    get (delete m k) a = if a = k then none else get m a := by
  induction m with
  | nil => simp [delete, get]
  | cons e m ih =>
    rw [delete_cons]
    by_cases h1 : e.1 = k
    · rw [if_pos h1, ih, get_cons]
      by_cases h : a = k
      · simp [h]
      · have h2 : ¬ e.1 = a := fun e2 => h (e2.symm.trans h1)
        simp [h, h2]
    · rw [if_neg h1, get_cons, get_cons, ih]
      by_cases h4 : e.1 = a
      · have h : ¬ a = k := fun e2 => h1 (h4.trans e2)
        simp [h4, h]
      · simp [h4]

theorem get_delete_self (m : Dict κ β) (k : κ) : get (delete m k) k = none := by
  simp [get_delete]

theorem get_delete_of_ne (m : Dict κ β) (k a : κ) (h : a ≠ k) :
    get (delete m k) a = get m a := by
  simp [get_delete, h]

end Dict

theorem mem_setOf {α : Type} [DecidableEq α] (l : List α) (a : α) : a ∈ setOf l ↔ a ∈ l := by
  induction l with
  | nil => simp [setOf]
  | cons b l ih =>
    by_cases h : a = b
    · simp [setOf, h]
    · simp [setOf, List.mem_filter, ih, h]

theorem mem_difference {α : Type} [DecidableEq α] (a b : List α) (x : α) :
    x ∈ difference a b ↔ x ∈ a ∧ x ∉ b := by
  simp [difference, List.mem_filter]

theorem startsWith_iff (s p : Str) : startsWith s p = true ↔ ∃ t, s = p ++ t := by
  unfold startsWith
  rw [ List.isPrefixOf_iff_prefix]
  constructor
  · rintro ⟨t, ht⟩
    exact ⟨t, ht.symm⟩
  · rintro ⟨t, ht⟩
    exact ⟨t, ht.symm⟩

theorem substring_append (id t : Str) : substring (id ++ ['_'] ++ t) (id.length + 1) = t := by
  unfold substring
  have : (id ++ ['_']).length = id.length + 1 := by simp
  rw [← this, List.drop_left]

/-- An opcode is in use by an extension exactly when some block of some target has the
opcode formed of the id, an underscore and that opcode. -/
theorem mem_opsInUse (targets : List Target) (extensionId op : Str) :
    op ∈ opsInUse targets extensionId ↔
      ∃ t ∈ targets, ∃ b ∈ t._blocks, b.opcode = extensionId ++ ['_'] ++ op := by
  unfold opsInUse
  rw [mem_setOf]
  simp only [List.mem_map, List.mem_filter, List.mem_flatten, startsWith_iff]
  constructor
  · rintro ⟨full, ⟨⟨l, ⟨t, ht, rfl⟩, hfull⟩, ⟨rest, hrest⟩⟩, rfl⟩
    rw [List.mem_map] at hfull
    obtain ⟨b, hb, rfl⟩ := hfull
    refine ⟨t, ht, b, hb, ?_⟩
    rw [hrest, substring_append]
  · rintro ⟨t, ht, b, hb, hop⟩
    refine ⟨b.opcode, ⟨⟨_, ⟨t, ht, rfl⟩, List.mem_map.mpr ⟨b, hb, rfl⟩⟩, ⟨op, hop⟩⟩, ?_⟩
    rw [hop, substring_append]

/-! ## Lemmas on states -/

theorem instantiate_snd (s : State) (e : Extension) : (instantiate s e).2 = e.toInstance := by
  unfold instantiate; split <;> rfl

theorem instantiate_sameData (s : State) (e : Extension) : (instantiate s e).1.sameData s := by
  unfold instantiate; split <;> rfl

theorem sameData_log (s : State) (e : Effect) : (s.log e).sameData s := rfl


theorem sameData_refl (s : State) : s.sameData s := rfl

theorem sameData_trans (a b c : State) (h1 : a.sameData b) (h2 : b.sameData c) :
    a.sameData c := by
  unfold State.sameData at *
  rw [h1, h2]

/-- Below 2^53 the operator `++` adds one. -/
theorem increment_of_lt (n : Nat) (h : n < 2 ^ 53) : increment n = n + 1 := by
  unfold increment
  rw [if_pos h]

/-- The operator `++` never lowers the count. -/
theorem le_increment (n : Nat) : n ≤ increment n := by
  unfold increment
  split
  · omega
  · split <;> omega

/-! ## Registration with replacement -/


theorem truthyOpt_some_iff (name : Str) : truthyOpt (some name) = true ↔ name ≠ [] := by
  cases name <;> simp [truthyOpt, Str.truthy]

theorem inUse_iff (s : State) (extensionId op : Str) :
    InUse s extensionId op ↔ op ∈ opsInUse s.targets extensionId :=
  (mem_opsInUse s.targets extensionId op).symm

theorem declares_iff (blocks : List BlockEntry) (op : Str) :
    Declares blocks op ↔ some op ∈ setOf (blocks.map fun b => b.opcode) := by
  rw [mem_setOf, List.mem_map]
  rfl

/-- The payload of OPCODE_NOT_FOUND holds the in-use opcodes that the incoming blocks
do not declare. -/
theorem mem_missing_iff (s : State) (extensionId : Str) (incoming : List BlockEntry)
    (v : Option Str) :
    v ∈ difference ((opsInUse s.targets extensionId).map some)
        (setOf (incoming.map fun b => b.opcode)) ↔
      ∃ op, v = some op ∧ InUse s extensionId op ∧ ¬ Declares incoming op := by
  rw [mem_difference, List.mem_map]
  constructor
  · rintro ⟨⟨op, hop, rfl⟩, hnot⟩
    exact ⟨op, rfl, (inUse_iff s extensionId op).mpr hop,
      fun hd => hnot ((declares_iff incoming op).mp hd)⟩
  · rintro ⟨op, rfl, huse, hnot⟩
    exact ⟨⟨op, (inUse_iff s extensionId op).mp huse, rfl⟩,
      fun hd => hnot ((declares_iff incoming op).mpr hd)⟩

theorem length_pos_iff_exists_mem {α : Type} (l : List α) : l.length > 0 ↔ ∃ v, v ∈ l := by
  cases l with
  | nil => simp
  | cons a l => simp

theorem instantiate_targets (s : State) (e : Extension) : (instantiate s e).1.targets = s.targets :=
  by unfold instantiate; split <;> rfl

theorem instantiate_services (s : State) (e : Extension) :
    (instantiate s e).1.services = s.services :=
  by unfold instantiate; split <;> rfl

theorem instantiate_loaded (s : State) (e : Extension) :
    (instantiate s e).1._loadedExtensions = s._loadedExtensions :=
  by unfold instantiate; split <;> rfl

theorem setLoadedExtension_result (s : State) (extensionID value : Str) :
    (setLoadedExtension s extensionID value).result = .returned () := by
  unfold setLoadedExtension getExtensionInfoById saveWildExtensionsURL Outcome.andThen
    Dict.read
  cases h1 : Dict.get s._customExtensionInfo extensionID with
  | some info =>
    by_cases hu : truthyOpt info.url = true
    · by_cases hm : info.url.getD [] ∈ s.gandiAssetURLs <;> simp [h1, hu, hm, State.log]
    · simp [h1, hu]
  | none =>
    by_cases hp : extensionID ∈ objectPrototypeMembers
    · simp [h1, hp]
    · cases h2 : Dict.get s._officialExtensionInfo extensionID with
      | some info =>
        by_cases hu : truthyOpt info.url = true
        · by_cases hm : info.url.getD [] ∈ s.gandiAssetURLs <;>
            simp [h1, h2, hp, hu, hm, State.log]
        · simp [h1, h2, hp, hu]
      | none => simp [h1, h2, hp]

theorem callSyncGetInfo_error (s : State) (service : Str) (e : Err)
    (h : callSyncGetInfo s service = .error e) : e = .dispatchError := by
  unfold callSyncGetInfo at h
  split at h <;> simp at h <;> exact h.symm

theorem replaceLoaded_ne_opcode_not_found (s1 : State) (extensionId serviceName : Str)
    (inst : ExtensionInstance) (incoming : List BlockEntry) (ops : List Str)
    (values : List (Option Str)) :
    (replaceLoaded s1 extensionId serviceName inst incoming ops).result ≠
      .thrown (.cause .OPCODE_NOT_FOUND values) := by
  unfold replaceLoaded
  split
  · next e he =>
    rw [callSyncGetInfo_error _ _ _ he]
    simp
  · split
    · simp
    · dsimp only
      split
      · simp
      · simp [Outcome.andThen, setLoadedExtension_result]

/-- Claim C1: for an extension id with a registration and a candidate whose descriptor
lists its blocks, `registerExtension(id, candidate, true)` throws the
cause OPCODE_NOT_FOUND exactly when some opcode in use (some block of some target has
opcode `<id>_<op>`) is not declared by the candidate's blocks; the values of the cause
are exactly those opcodes; and the registry and the services are then what they were
(the state differs in the log only). -/
theorem registerExtension_replace_opcode_not_found (s : State) (extensionId name : Str)
    (extension : Extension) (incoming : List BlockEntry)
    (hregistered : Registered s extensionId name)
    (hblocks : extension.toInstance.getInfo.blocks = some incoming) :
    ((∃ values, (registerExtension s extensionId extension true).result =
        .thrown (.cause .OPCODE_NOT_FOUND values)) ↔
      ∃ op, InUse s extensionId op ∧ ¬ Declares incoming op) ∧
    ∀ values, (registerExtension s extensionId extension true).result =
        .thrown (.cause .OPCODE_NOT_FOUND values) →
      (∀ v, v ∈ values ↔
        ∃ op, v = some op ∧ InUse s extensionId op ∧ ¬ Declares incoming op) ∧
      (registerExtension s extensionId extension true).state._loadedExtensions =
        s._loadedExtensions ∧
      (registerExtension s extensionId extension true).state.services = s.services ∧
      (registerExtension s extensionId extension true).state.sameData s := by
  obtain ⟨hreg, hname⟩ := hregistered
  have ht : truthyOpt (some name) = true := (truthyOpt_some_iff name).mpr hname
  have hex : (∃ v, v ∈ difference ((opsInUse s.targets extensionId).map some)
        (setOf (incoming.map fun b => b.opcode))) ↔
      ∃ op, InUse s extensionId op ∧ ¬ Declares incoming op := by
    constructor
    · rintro ⟨v, hv⟩
      obtain ⟨op, _, h⟩ := (mem_missing_iff s extensionId incoming v).mp hv
      exact ⟨op, h⟩
    · rintro ⟨op, h⟩
      exact ⟨some op, (mem_missing_iff s extensionId incoming _).mpr ⟨op, rfl, h⟩⟩
  unfold registerExtension
  simp only [hreg, ht, Bool.not_true, Bool.and_false, Bool.false_eq_true, if_false,
    Bool.and_self, if_true, instantiate_snd, hblocks, instantiate_targets]
  by_cases hd : (difference ((opsInUse s.targets extensionId).map some)
        (setOf (incoming.map fun b => b.opcode))).length > 0
  · rw [if_pos hd]
    refine ⟨⟨fun _ => hex.mp ((length_pos_iff_exists_mem _).mp hd), fun _ => ⟨_, rfl⟩⟩, ?_⟩
    intro values hv
    simp only [Completion.thrown.injEq, Err.cause.injEq, true_and] at hv
    subst hv
    refine ⟨fun v => mem_missing_iff s extensionId incoming v, ?_, ?_, ?_⟩
    · exact instantiate_loaded s extension
    · exact instantiate_services s extension
    · exact sameData_trans _ _ _ (sameData_log _ _) (instantiate_sameData s extension)
  · rw [if_neg hd]
    have hno : ¬ ∃ op, InUse s extensionId op ∧ ¬ Declares incoming op :=
      fun h => hd ((length_pos_iff_exists_mem _).mpr (hex.mpr h))
    refine ⟨⟨fun ⟨values, hv⟩ =>
        absurd hv (replaceLoaded_ne_opcode_not_found _ _ _ _ _ _ _), fun h => absurd h hno⟩,
      fun values hv => absurd hv (replaceLoaded_ne_opcode_not_found _ _ _ _ _ _ _)⟩


theorem truthy_of_opcode (b : BlockEntry) (op : Str) (h : b.opcode = some op) :
    b.truthy = true := by
  cases b with
  | str t => simp [BlockEntry.opcode] at h
  | block i => rfl

/-- Membership in the filter of lines 249-250. -/
theorem mem_typeChangedBlocks (ops : List Str) (oldBlocks incoming : List BlockEntry)
    (a : BlockEntry) :
    a ∈ typeChangedBlocks ops oldBlocks incoming ↔
      a ∈ oldBlocks ∧ ∃ op, a.opcode = some op ∧ op ∈ ops ∧
        ∃ b ∈ incoming, b.opcode = some op ∧ a.blockType ≠ b.blockType := by
  unfold typeChangedBlocks
  rw [List.mem_filter]
  constructor
  · rintro ⟨ha, hf⟩
    refine ⟨ha, ?_⟩
    split at hf
    · next b hb =>
      have hp := List.find?_some hb
      have hm := List.mem_of_find?_eq_some hb
      cases hop : a.opcode with
      | none => simp [hop] at hp
      | some op =>
        simp only [hop, Bool.and_eq_true, decide_eq_true_eq] at hp
        exact ⟨op, rfl, hp.1.1, b, hm, hp.1.2.symm, hp.2⟩
    · simp at hf
  · rintro ⟨ha, op, hop, hmem, b, hb, hbop, hne⟩
    refine ⟨ha, ?_⟩
    split
    · next b2 hb2 =>
      have hp := List.find?_some hb2
      simp only [hop, Bool.and_eq_true, decide_eq_true_eq] at hp
      exact truthy_of_opcode b2 op hp.1.2.symm
    · next hnone =>
      rw [List.find?_eq_none] at hnone
      have := hnone b hb
      simp [hop, hmem, hbop, hne] at this

/-- The payload of BLOCK_TYPE_CHANGED: the in-use opcodes with different block types. -/
theorem mem_typeChanged_values (ops : List Str) (oldBlocks incoming : List BlockEntry)
    (v : Option Str) :
    v ∈ (typeChangedBlocks ops oldBlocks incoming).map (fun b => b.opcode) ↔
      ∃ op, v = some op ∧ op ∈ ops ∧ TypeDiffers oldBlocks incoming op := by
  rw [List.mem_map]
  constructor
  · rintro ⟨a, ha, rfl⟩
    obtain ⟨hao, op, hop, hmem, b, hb, hbop, hne⟩ := (mem_typeChangedBlocks _ _ _ _).mp ha
    exact ⟨op, hop, hmem, a, hao, b, hb, hop, hbop, hne⟩
  · rintro ⟨op, rfl, hmem, a, hao, b, hb, hop, hbop, hne⟩
    exact ⟨a, (mem_typeChangedBlocks _ _ _ _).mpr ⟨hao, op, hop, hmem, b, hb, hbop, hne⟩, hop⟩

theorem registerExtension_replace_noblocks (s : State) (extensionId name : Str)
    (extension : Extension)
    (hreg : Dict.get s._loadedExtensions extensionId = some name) (hname : name ≠ [])
    (hblocks : extension.toInstance.getInfo.blocks = none) :
    registerExtension s extensionId extension true =
      ⟨(instantiate s extension).1, .thrown .typeError⟩ := by
  have ht : truthyOpt (some name) = true := (truthyOpt_some_iff name).mpr hname
  unfold registerExtension
  simp only [hreg, ht, Bool.not_true, Bool.and_false, Bool.false_eq_true, if_false,
    Bool.and_self, if_true, instantiate_snd, hblocks]

theorem registerExtension_replace_eq (s : State) (extensionId name : Str)
    (extension : Extension) (incoming : List BlockEntry)
    (hreg : Dict.get s._loadedExtensions extensionId = some name) (hname : name ≠ [])
    (hblocks : extension.toInstance.getInfo.blocks = some incoming)
    (hmiss : ∀ op, InUse s extensionId op → Declares incoming op) :
    registerExtension s extensionId extension true =
      replaceLoaded (instantiate s extension).1 extensionId name extension.toInstance incoming
        (opsInUse s.targets extensionId) := by
  have ht : truthyOpt (some name) = true := (truthyOpt_some_iff name).mpr hname
  have hd : ¬ (difference ((opsInUse s.targets extensionId).map some)
        (setOf (incoming.map fun b => b.opcode))).length > 0 := by
    intro hd
    obtain ⟨v, hv⟩ := (length_pos_iff_exists_mem _).mp hd
    obtain ⟨op, _, huse, hnot⟩ := (mem_missing_iff s extensionId incoming v).mp hv
    exact hnot (hmiss op huse)
  unfold registerExtension
  simp only [hreg, ht, Bool.not_true, Bool.and_false, Bool.false_eq_true, if_false,
    Bool.and_self, if_true, instantiate_snd, hblocks, instantiate_targets, if_neg hd,
    Option.getD_some]

theorem replaceLoaded_of_local (s1 : State) (extensionId serviceName : Str)
    (inst old : ExtensionInstance) (incoming oldBlocks : List BlockEntry) (ops : List Str)
    (hs : Dict.get s1.services serviceName = some (.localObject old))
    (hb : old.getInfo.blocks = some oldBlocks) :
    replaceLoaded s1 extensionId serviceName inst incoming ops =
      if (typeChangedBlocks ops oldBlocks incoming).length > 0 then
        ⟨s1, .thrown (.cause .BLOCK_TYPE_CHANGED
          ((typeChangedBlocks ops oldBlocks incoming).map fun b => b.opcode))⟩
      else
        (setLoadedExtension (setServiceSync s1 serviceName inst) extensionId
            serviceName).andThen fun s3 _ =>
          ⟨refreshBlocks s3 extensionId, .returned (some extensionId)⟩ := by
  unfold replaceLoaded callSyncGetInfo
  simp only [hs, hb]

theorem replaceLoaded_thrown_block_type_changed (s1 : State) (extensionId serviceName : Str)
    (inst : ExtensionInstance) (incoming : List BlockEntry) (ops : List Str)
    (values : List (Option Str))
    (h : (replaceLoaded s1 extensionId serviceName inst incoming ops).result =
      .thrown (.cause .BLOCK_TYPE_CHANGED values)) :
    ∃ old oldBlocks, Dict.get s1.services serviceName = some (.localObject old) ∧
      old.getInfo.blocks = some oldBlocks ∧
      (typeChangedBlocks ops oldBlocks incoming).length > 0 ∧
      values = (typeChangedBlocks ops oldBlocks incoming).map (fun b => b.opcode) ∧
      (replaceLoaded s1 extensionId serviceName inst incoming ops).state = s1 := by
  cases hs : Dict.get s1.services serviceName with
  | none =>
    unfold replaceLoaded callSyncGetInfo at h
    simp [hs] at h
  | some svc =>
    cases svc with
    | remoteWorker w =>
      unfold replaceLoaded callSyncGetInfo at h
      simp [hs] at h
    | localObject old =>
      cases hb : old.getInfo.blocks with
      | none =>
        unfold replaceLoaded callSyncGetInfo at h
        simp [hs, hb] at h
      | some oldBlocks =>
        rw [replaceLoaded_of_local s1 extensionId serviceName inst old incoming oldBlocks ops
          hs hb] at h ⊢
        by_cases hl : (typeChangedBlocks ops oldBlocks incoming).length > 0
        · rw [if_pos hl] at h ⊢
          simp only [Completion.thrown.injEq, Err.cause.injEq, true_and] at h
          exact ⟨old, oldBlocks, rfl, hb, hl, h.symm, rfl⟩
        · rw [if_neg hl] at h
          simp [Outcome.andThen, setLoadedExtension_result] at h

theorem exists_typeChanged_iff (s : State) (extensionId serviceName : Str)
    (candidate old : ExtensionInstance) (oldBlocks incoming : List BlockEntry)
    (hs : Dict.get s.services serviceName = some (.localObject old))
    (hb : old.getInfo.blocks = some oldBlocks)
    (hc : candidate.getInfo.blocks = some incoming) (op : Str) :
    TypeChanged s extensionId serviceName candidate op ↔
      op ∈ opsInUse s.targets extensionId ∧ TypeDiffers oldBlocks incoming op := by
  unfold TypeChanged
  rw [inUse_iff]
  constructor
  · rintro ⟨hu, old2, ob2, nb2, h1, h2, h3, h4⟩
    rw [hs] at h1
    simp only [Option.some.injEq, Service.localObject.injEq] at h1
    subst h1
    rw [hb] at h2
    rw [hc] at h3
    simp only [Option.some.injEq] at h2 h3
    subst h2 h3
    exact ⟨hu, h4⟩
  · rintro ⟨hu, h4⟩
    exact ⟨hu, old, oldBlocks, incoming, hs, hb, hc, h4⟩

/-- Claim C2: for an extension id with a registration, when the candidate declares
every opcode in use, `registerExtension(id, candidate, true)` throws the cause
BLOCK_TYPE_CHANGED exactly when some opcode that is in use and declared both by the
old descriptor (the one of the instance bound to the service name) and by the
candidate's has different block types in the two; the values of the cause are exactly
those opcodes; and the registry and the services are then what they were. -/
theorem registerExtension_replace_block_type_changed (s : State) (extensionId name : Str)
    (extension : Extension)
    (hregistered : Registered s extensionId name)
    (hmiss : ∀ op, InUse s extensionId op → DeclaredBy extension.toInstance op) :
    ((∃ values, (registerExtension s extensionId extension true).result =
        .thrown (.cause .BLOCK_TYPE_CHANGED values)) ↔
      ∃ op, TypeChanged s extensionId name extension.toInstance op) ∧
    ∀ values, (registerExtension s extensionId extension true).result =
        .thrown (.cause .BLOCK_TYPE_CHANGED values) →
      (∀ v, v ∈ values ↔
        ∃ op, v = some op ∧ TypeChanged s extensionId name extension.toInstance op) ∧
      (registerExtension s extensionId extension true).state._loadedExtensions =
        s._loadedExtensions ∧
      (registerExtension s extensionId extension true).state.services = s.services ∧
      (registerExtension s extensionId extension true).state.sameData s := by
  obtain ⟨hreg, hname⟩ := hregistered
  cases hblocks : extension.toInstance.getInfo.blocks with
  | none =>
    rw [registerExtension_replace_noblocks s extensionId name extension hreg hname hblocks]
    refine ⟨⟨fun ⟨values, hv⟩ => by simp at hv, ?_⟩, fun values hv => by simp at hv⟩
    rintro ⟨op, _, old, ob, nb, _, _, h3, _⟩
    rw [hblocks] at h3
    simp at h3
  | some incoming =>
    have hmiss2 : ∀ op, InUse s extensionId op → Declares incoming op := by
      intro op hu
      obtain ⟨blocks, hb, hd⟩ := hmiss op hu
      rw [hblocks] at hb
      simp only [Option.some.injEq] at hb
      subst hb
      exact hd
    rw [registerExtension_replace_eq s extensionId name extension incoming hreg hname hblocks
      hmiss2]
    have key : ∀ values, (replaceLoaded (instantiate s extension).1 extensionId name
        extension.toInstance incoming (opsInUse s.targets extensionId)).result =
        .thrown (.cause .BLOCK_TYPE_CHANGED values) →
        (∀ v, v ∈ values ↔
          ∃ op, v = some op ∧ TypeChanged s extensionId name extension.toInstance op) ∧
        (∃ op, TypeChanged s extensionId name extension.toInstance op) ∧
        (replaceLoaded (instantiate s extension).1 extensionId name
          extension.toInstance incoming (opsInUse s.targets extensionId)).state =
          (instantiate s extension).1 := by
      intro values hv
      obtain ⟨old, ob, hs, hb, hl, hval, hst⟩ :=
        replaceLoaded_thrown_block_type_changed _ _ _ _ _ _ _ hv
      rw [instantiate_services] at hs
      have hmem : ∀ v, v ∈ values ↔
          ∃ op, v = some op ∧ TypeChanged s extensionId name extension.toInstance op := by
        intro v
        rw [hval, mem_typeChanged_values]
        constructor
        · rintro ⟨op, rfl, h1, h2⟩
          exact ⟨op, rfl, (exists_typeChanged_iff s extensionId name _ old ob incoming hs hb
            hblocks op).mpr ⟨h1, h2⟩⟩
        · rintro ⟨op, rfl, h⟩
          exact ⟨op, rfl, (exists_typeChanged_iff s extensionId name _ old ob incoming hs hb
            hblocks op).mp h⟩
      refine ⟨hmem, ?_, hst⟩
      obtain ⟨v, hvm⟩ := (length_pos_iff_exists_mem _).mp
        (by rw [hval, List.length_map]; exact hl : values.length > 0)
      obtain ⟨op, _, h⟩ := (hmem v).mp hvm
      exact ⟨op, h⟩
    refine ⟨⟨fun ⟨values, hv⟩ => (key values hv).2.1, ?_⟩, ?_⟩
    · rintro ⟨op, hu, old, ob, nb, h1, h2, h3, h4⟩
      rw [hblocks] at h3
      simp only [Option.some.injEq] at h3
      subst h3
      have hs : Dict.get (instantiate s extension).1.services name = some (.localObject old) := by
        rw [instantiate_services]; exact h1
      rw [replaceLoaded_of_local _ extensionId name _ old incoming ob _ hs h2]
      have hl : (typeChangedBlocks (opsInUse s.targets extensionId) ob incoming).length > 0 := by
        rw [length_pos_iff_exists_mem]
        have : some op ∈ (typeChangedBlocks (opsInUse s.targets extensionId) ob incoming).map
            (fun b => b.opcode) :=
          (mem_typeChanged_values _ _ _ _).mpr ⟨op, rfl, (inUse_iff s extensionId op).mp hu, h4⟩
        obtain ⟨a, ha, _⟩ := List.mem_map.mp this
        exact ⟨a, ha⟩
      rw [if_pos hl]
      exact ⟨_, rfl⟩
    · intro values hv
      obtain ⟨hmem, _, hst⟩ := key values hv
      refine ⟨hmem, ?_, ?_, ?_⟩
      · rw [hst]; exact instantiate_loaded s extension
      · rw [hst]; exact instantiate_services s extension
      · rw [hst]; exact instantiate_sameData s extension

/-- The state `setLoadedExtension` leaves: the registry has the new entry, the `replaceable`
flags of the catalog may have changed, and the log has grown. -/
theorem setLoadedExtension_state (s : State) (extensionID value : Str) :
    ∃ custom official added, (setLoadedExtension s extensionID value).state =
      { s with
        _loadedExtensions := Dict.set s._loadedExtensions extensionID value,
        _customExtensionInfo := custom,
        _officialExtensionInfo := official,
        effects := s.effects ++ added } := by
  unfold setLoadedExtension getExtensionInfoById saveWildExtensionsURL Outcome.andThen
    Dict.read
  cases h1 : Dict.get s._customExtensionInfo extensionID with
  | some info =>
    by_cases hu : truthyOpt info.url = true
    · by_cases hm : info.url.getD [] ∈ s.gandiAssetURLs
      · simp only [h1, hu, hm, State.log, if_true]
        exact ⟨_, _, _, rfl⟩
      · simp only [h1, hu, hm, State.log, if_true, if_false]
        exact ⟨_, _, _, rfl⟩
    · simp only [h1, hu]
      exact ⟨s._customExtensionInfo, s._officialExtensionInfo, [], by simp⟩
  | none =>
    by_cases hp : extensionID ∈ objectPrototypeMembers
    · simp only [h1, hp, if_true]
      exact ⟨s._customExtensionInfo, s._officialExtensionInfo, [], by simp⟩
    · cases h2 : Dict.get s._officialExtensionInfo extensionID with
      | some info =>
        by_cases hu : truthyOpt info.url = true
        · by_cases hm : info.url.getD [] ∈ s.gandiAssetURLs
          · simp only [h1, h2, hp, hu, hm, State.log, if_true, if_false]
            exact ⟨_, _, _, rfl⟩
          · simp only [h1, h2, hp, hu, hm, State.log, if_true, if_false]
            exact ⟨_, _, _, rfl⟩
        · simp only [h1, h2, hp, hu, if_false]
          exact ⟨s._customExtensionInfo, s._officialExtensionInfo, [], by simp⟩
      | none =>
        simp only [h1, h2, hp, if_false]
        exact ⟨s._customExtensionInfo, s._officialExtensionInfo, [], by simp⟩

theorem setLoadedExtension_loaded (s : State) (extensionID value : Str) :
    (setLoadedExtension s extensionID value).state._loadedExtensions =
      Dict.set s._loadedExtensions extensionID value := by
  obtain ⟨c, o, a, h⟩ := setLoadedExtension_state s extensionID value
  rw [h]

theorem setLoadedExtension_services (s : State) (extensionID value : Str) :
    (setLoadedExtension s extensionID value).state.services = s.services := by
  obtain ⟨c, o, a, h⟩ := setLoadedExtension_state s extensionID value
  rw [h]

theorem setLoadedExtension_effects (s : State) (extensionID value : Str) :
    ∃ added, (setLoadedExtension s extensionID value).state.effects = s.effects ++ added := by
  obtain ⟨c, o, a, h⟩ := setLoadedExtension_state s extensionID value
  exact ⟨a, by rw [h]⟩

theorem instantiate_effects (s : State) (e : Extension) :
    ∃ added, (instantiate s e).1.effects = s.effects ++ added := by
  unfold instantiate
  split
  · exact ⟨_, rfl⟩
  · exact ⟨[], by simp⟩

theorem refreshTargets_congr (a b : State) (t : Str)
    (h : a._loadedExtensions = b._loadedExtensions) : refreshTargets a t = refreshTargets b t := by
  unfold refreshTargets
  rw [h]

theorem mem_values_of_get {β : Type} (m : Dict Str β) (k : Str) (v : β)
    (h : Dict.get m k = some v) : v ∈ Dict.values m := by
  induction m with
  | nil => simp [Dict.get] at h
  | cons e m ih =>
    rw [Dict.get_cons] at h
    unfold Dict.values at ih ⊢
    by_cases h1 : e.1 = k
    · simp only [h1, if_true, Option.some.injEq] at h
      rw [List.map_cons, h]
      exact List.mem_cons_self _ _
    · simp only [h1, if_false] at h
      rw [List.map_cons]
      exact List.mem_cons_of_mem _ (ih h)

theorem refreshTargets_ne_nil (s : State) (extensionId name : Str)
    (hreg : Dict.get s._loadedExtensions extensionId = some name) :
    refreshTargets s extensionId ≠ [] := by
  unfold refreshTargets
  have := mem_values_of_get _ _ _ hreg
  dsimp only
  split
  · simp
  · exact List.ne_nil_of_mem this

theorem mem_refreshTargets (s : State) (extensionId name : Str)
    (hreg : Dict.get s._loadedExtensions extensionId = some name)
    (hid : extensionId ∉ Dict.values s._loadedExtensions) :
    name ∈ refreshTargets s extensionId := by
  unfold refreshTargets
  have hnone : (Dict.values s._loadedExtensions).find? (fun n => decide (n = extensionId)) = none := by
    rw [List.find?_eq_none]
    intro x hx
    simp only [decide_eq_true_eq]
    intro hxe
    exact hid (hxe ▸ hx)
  simp only [hnone, truthyOpt, Bool.and_false, Bool.false_eq_true, if_false]
  exact mem_values_of_get _ _ _ hreg

/-- Claim C3, amended: for an extension id registered under a service name that is
bound to an in-process instance, when both descriptors list their blocks, every opcode
in use is declared by the candidate and no opcode in use has different block types in
the two descriptors, `registerExtension(id, candidate, true)` returns the id, the
service name is bound to the candidate, every other service is as before, the registry
is unchanged (so the id still maps to the service name), and the log ends with a
non-empty run of refresh calls, which covers that service name unless the id is itself
a registered service name. -/
theorem registerExtension_replace_success (s : State) (extensionId name : Str)
    (extension : Extension) (old : ExtensionInstance) (oldBlocks incoming : List BlockEntry)
    (hregistered : Registered s extensionId name)
    (hsvc : Dict.get s.services name = some (.localObject old))
    (hold : old.getInfo.blocks = some oldBlocks)
    (hcand : extension.toInstance.getInfo.blocks = some incoming)
    (hmiss : ∀ op, InUse s extensionId op → Declares incoming op)
    (htype : ∀ op, InUse s extensionId op → ¬ TypeDiffers oldBlocks incoming op) :
    (registerExtension s extensionId extension true).result = .returned (some extensionId) ∧
    Dict.get (registerExtension s extensionId extension true).state.services name =
      some (.localObject extension.toInstance) ∧
    (∀ n, n ≠ name →
      Dict.get (registerExtension s extensionId extension true).state.services n =
        Dict.get s.services n) ∧
    Dict.get (registerExtension s extensionId extension true).state._loadedExtensions
      extensionId = some name ∧
    (registerExtension s extensionId extension true).state._loadedExtensions =
      s._loadedExtensions ∧
    refreshTargets s extensionId ≠ [] ∧
    (∃ before, (registerExtension s extensionId extension true).state.effects =
      s.effects ++ before ++ (refreshTargets s extensionId).map .refreshExtension) ∧
    (extensionId ∉ Dict.values s._loadedExtensions → name ∈ refreshTargets s extensionId) := by
  obtain ⟨hreg, hname⟩ := hregistered
  have hs1 : Dict.get (instantiate s extension).1.services name = some (.localObject old) := by
    rw [instantiate_services]; exact hsvc
  have hl : ¬ (typeChangedBlocks (opsInUse s.targets extensionId) oldBlocks incoming).length > 0 := by
    intro hl
    obtain ⟨a, ha⟩ := (length_pos_iff_exists_mem _).mp hl
    obtain ⟨hao, op, hop, hmem, b, hb, hbop, hne⟩ := (mem_typeChangedBlocks _ _ _ _).mp ha
    exact htype op ((inUse_iff s extensionId op).mpr hmem) ⟨a, hao, b, hb, hop, hbop, hne⟩
  rw [registerExtension_replace_eq s extensionId name extension incoming hreg hname hcand hmiss,
    replaceLoaded_of_local _ extensionId name _ old incoming oldBlocks _ hs1 hold, if_neg hl]
  have hres := setLoadedExtension_result
    (setServiceSync (instantiate s extension).1 name extension.toInstance) extensionId name
  have hload := setLoadedExtension_loaded
    (setServiceSync (instantiate s extension).1 name extension.toInstance) extensionId name
  have hserv := setLoadedExtension_services
    (setServiceSync (instantiate s extension).1 name extension.toInstance) extensionId name
  obtain ⟨added, heff⟩ := setLoadedExtension_effects
    (setServiceSync (instantiate s extension).1 name extension.toInstance) extensionId name
  obtain ⟨added0, heff0⟩ := instantiate_effects s extension
  have hload2 : (setLoadedExtension
      (setServiceSync (instantiate s extension).1 name extension.toInstance) extensionId
      name).state._loadedExtensions = s._loadedExtensions := by
    rw [hload]
    show Dict.set (instantiate s extension).1._loadedExtensions extensionId name = _
    rw [instantiate_loaded]
    exact Dict.set_eq_self _ _ _ hreg
  have hserv2 : (setLoadedExtension
      (setServiceSync (instantiate s extension).1 name extension.toInstance) extensionId
      name).state.services = Dict.set s.services name (.localObject extension.toInstance) := by
    rw [hserv]
    show Dict.set (instantiate s extension).1.services name _ = _
    rw [instantiate_services]
  simp only [Outcome.andThen, hres]
  refine ⟨trivial, ?_, ?_, ?_, ?_, refreshTargets_ne_nil s extensionId name hreg, ?_,
    mem_refreshTargets s extensionId name hreg⟩
  · show Dict.get (setLoadedExtension _ extensionId name).state.services name = _
    rw [hserv2, Dict.get_set_self]
  · intro n hn
    show Dict.get (setLoadedExtension _ extensionId name).state.services n = _
    rw [hserv2, Dict.get_set_of_ne _ _ _ _ hn]
  · show Dict.get (setLoadedExtension _ extensionId name).state._loadedExtensions _ = _
    rw [hload2, hreg]
  · exact hload2
  · refine ⟨added0 ++ added, ?_⟩
    show (setLoadedExtension _ extensionId name).state.effects ++
      (refreshTargets (setLoadedExtension _ extensionId name).state extensionId).map _ = _
    rw [refreshTargets_congr _ s extensionId hload2, heff]
    show ((instantiate s extension).1.effects ++ added) ++ _ = _
    rw [heff0]
    simp [List.append_assoc]

/-- Claim C5: for an extension id that already has a registration,
`registerExtension(id, extension, false)` returns no id and changes nothing but the
log, which gains one warning: no instance is constructed, no service is bound, the
sequence counter and the registry are as before. -/
theorem registerExtension_duplicate_noop (s : State) (extensionId name : Str)
    (extension : Extension)
    (hregistered : Registered s extensionId name) :
    (registerExtension s extensionId extension false).result = .returned none ∧
    (registerExtension s extensionId extension false).state =
      { s with effects := s.effects ++
        [.warn ("Rejecting attempt to load a second extension with ID ".toList ++
          extensionId)] } := by
  obtain ⟨hreg, hname⟩ := hregistered
  have ht : truthyOpt (some name) = true := (truthyOpt_some_iff name).mpr hname
  unfold registerExtension
  simp [hreg, ht, State.log]

/-! ## Fresh registration -/

theorem _prepareExtensionInfo_ok (s : State) (serviceName : Str) (info : ExtensionInfo)
    (h : hasInvalidIdChar info.id = false) :
    ∃ prepared, (_prepareExtensionInfo s serviceName info).result = .returned prepared := by
  unfold _prepareExtensionInfo
  simp [h]

/-- What `_registerInternalExtension` does for an instance with a valid descriptor id. -/
theorem _registerInternalExtension_valid (s : State) (inst : ExtensionInstance)
    (h : hasInvalidIdChar inst.getInfo.id = false) :
    ∃ added, _registerInternalExtension s inst =
      ⟨{ s with
          nextExtensionWorker := increment s.nextExtensionWorker,
          services := Dict.set s.services
            (internalServiceName s.nextExtensionWorker inst.getInfo.id) (.localObject inst),
          effects := s.effects ++ added },
        .returned (internalServiceName s.nextExtensionWorker inst.getInfo.id)⟩ := by
  obtain ⟨prepared, hp⟩ := _prepareExtensionInfo_ok
    (setServiceSync { s with nextExtensionWorker := increment s.nextExtensionWorker }
      (internalServiceName s.nextExtensionWorker inst.getInfo.id) inst)
    (internalServiceName s.nextExtensionWorker inst.getInfo.id) inst.getInfo h
  refine ⟨(_prepareExtensionInfo
      (setServiceSync { s with nextExtensionWorker := increment s.nextExtensionWorker }
        (internalServiceName s.nextExtensionWorker inst.getInfo.id) inst)
      (internalServiceName s.nextExtensionWorker inst.getInfo.id) inst.getInfo).logs ++
    [.registerExtensionPrimitives (internalServiceName s.nextExtensionWorker inst.getInfo.id)
      prepared], ?_⟩
  unfold _registerInternalExtension registerExtensionServiceSync callSyncGetInfo
    _registerExtensionInfo
  simp only [setServiceSync] at hp ⊢
  simp [Dict.get_set_self, hp, Outcome.andThen, State.log]

/-- Claim C6: for an id without registration and an extension whose descriptor id is
valid, `registerExtension(id, extension)` returns the id; afterwards the id is loaded,
the registry maps it to `extension_<n>_<descriptor id>` with `n` the sequence counter
before the call, that service name is bound to the instance, the counter has gone
through its `++` (which adds one as long as the counter is below 2^53), and every other
registration is as before. -/
theorem registerExtension_fresh (s : State) (extensionId : Str) (extension : Extension)
    (shouldReplace : Bool)
    (hnew : Dict.get s._loadedExtensions extensionId = none)
    (hvalid : hasInvalidIdChar extension.toInstance.getInfo.id = false) :
    (registerExtension s extensionId extension shouldReplace).result =
      .returned (some extensionId) ∧
    isExtensionLoaded (registerExtension s extensionId extension shouldReplace).state
      extensionId = true ∧
    Dict.get (registerExtension s extensionId extension shouldReplace).state._loadedExtensions
      extensionId =
      some (internalServiceName s.nextExtensionWorker extension.toInstance.getInfo.id) ∧
    Dict.get (registerExtension s extensionId extension shouldReplace).state.services
      (internalServiceName s.nextExtensionWorker extension.toInstance.getInfo.id) =
      some (.localObject extension.toInstance) ∧
    (registerExtension s extensionId extension shouldReplace).state.nextExtensionWorker =
      increment s.nextExtensionWorker ∧
    (s.nextExtensionWorker < 2 ^ 53 →
      (registerExtension s extensionId extension shouldReplace).state.nextExtensionWorker =
        s.nextExtensionWorker + 1) ∧
    (∀ other, other ≠ extensionId →
      Dict.get (registerExtension s extensionId extension shouldReplace).state._loadedExtensions
        other = Dict.get s._loadedExtensions other) := by
  have hn : (instantiate s extension).1.nextExtensionWorker = s.nextExtensionWorker := by
    unfold instantiate; split <;> rfl
  unfold registerExtension
  simp only [hnew, truthyOpt, Bool.false_and, Bool.false_eq_true, if_false, instantiate_snd]
  obtain ⟨added, hadded⟩ := _registerInternalExtension_valid (instantiate s extension).1
    extension.toInstance hvalid
  rw [hadded]
  simp only [Outcome.andThen, setLoadedExtension_result]
  rw [hn]
  have hcounter : (setLoadedExtension
      { (instantiate s extension).1 with
        nextExtensionWorker := increment s.nextExtensionWorker,
        services := Dict.set (instantiate s extension).1.services
          (internalServiceName s.nextExtensionWorker extension.toInstance.getInfo.id)
          (.localObject extension.toInstance),
        effects := (instantiate s extension).1.effects ++ added }
      extensionId (internalServiceName s.nextExtensionWorker
        extension.toInstance.getInfo.id)).state.nextExtensionWorker =
      increment s.nextExtensionWorker := by
    obtain ⟨c, o, a, h⟩ := setLoadedExtension_state
      { (instantiate s extension).1 with
        nextExtensionWorker := increment s.nextExtensionWorker,
        services := Dict.set (instantiate s extension).1.services
          (internalServiceName s.nextExtensionWorker extension.toInstance.getInfo.id)
          (.localObject extension.toInstance),
        effects := (instantiate s extension).1.effects ++ added }
      extensionId (internalServiceName s.nextExtensionWorker extension.toInstance.getInfo.id)
    rw [h]
  refine ⟨trivial, ?_, ?_, ?_, ?_, ?_, ?_⟩
  · simp only [isExtensionLoaded, Dict.has, State.log, setLoadedExtension_loaded]
    rw [Dict.get_set_self]
    rfl
  · simp only [State.log, setLoadedExtension_loaded]
    rw [Dict.get_set_self]
  · simp only [State.log, setLoadedExtension_services]
    rw [instantiate_services, Dict.get_set_self]
  · simp only [State.log]
    exact hcounter
  · intro hlt
    simp only [State.log]
    rw [hcounter, increment_of_lt _ hlt]
  · intro other hne
    simp only [State.log, setLoadedExtension_loaded]
    rw [Dict.get_set_of_ne _ _ _ _ hne, instantiate_loaded]

/-! ## Deletion -/

/-- The loop over the monitors changes the monitor state and the log only. -/
theorem deleteMonitors_state (s : State) (extensionId : Str) :
    ∃ monitors added, deleteMonitors s extensionId =
      { s with monitors := monitors, effects := s.effects ++ added } := by
  unfold deleteMonitors
  generalize (s.monitors.filter fun monitorData =>
    startsWith monitorData.opcode (extensionId ++ ['_'])) = doomed
  suffices h : ∀ (st : State), (∃ monitors added, st =
      { s with monitors := monitors, effects := s.effects ++ added }) →
      ∃ monitors added, doomed.foldl (fun st monitorData =>
        { st with
          monitors := st.monitors.filter (fun m => decide (m.id ≠ monitorData.id)),
          effects := st.effects ++ [.deleteMonitorBlock monitorData.id] }) st =
        { s with monitors := monitors, effects := s.effects ++ added } from
    h s ⟨s.monitors, [], by simp⟩
  induction doomed with
  | nil => intro st h; exact h
  | cons m rest ih =>
    intro st h
    obtain ⟨mons, added, rfl⟩ := h
    exact ih _ ⟨mons.filter (fun x => decide (x.id ≠ m.id)),
      added ++ [.deleteMonitorBlock m.id], by simp [List.append_assoc]⟩

theorem opsInUse_eq_nil_iff (s : State) (extensionId : Str) :
    ¬ (opsInUse s.targets extensionId).length > 0 ↔ ¬ ∃ op, InUse s extensionId op := by
  rw [length_pos_iff_exists_mem]
  constructor
  · rintro h ⟨op, hop⟩
    exact h ⟨op, (inUse_iff s extensionId op).mp hop⟩
  · rintro h ⟨op, hop⟩
    exact h ⟨op, (inUse_iff s extensionId op).mpr hop⟩

/-- What `deleteExtensionById` does when no opcode of the extension is in use. -/
theorem deleteExtensionById_unused (s : State) (extensionId : Str)
    (h : ¬ ∃ op, InUse s extensionId op) :
    ∃ monitors added, deleteExtensionById s extensionId =
      ⟨{ s with
          services := Dict.delete s.services
            ((Dict.get s._loadedExtensions extensionId).getD "undefined".toList),
          _loadedExtensions := Dict.delete s._loadedExtensions extensionId,
          _customExtensionInfo := Dict.delete s._customExtensionInfo extensionId,
          customExtension := Dict.delete s.customExtension extensionId,
          monitors := monitors,
          effects := s.effects ++ added }, .returned ()⟩ := by
  have hl := (opsInUse_eq_nil_iff s extensionId).mpr h
  unfold deleteExtensionById
  simp only [if_neg hl]
  obtain ⟨mons, added, hm⟩ := deleteMonitors_state
    (({ s with
        services := Dict.delete s.services
          ((Dict.get s._loadedExtensions extensionId).getD "undefined".toList),
        _loadedExtensions := Dict.delete s._loadedExtensions extensionId,
        _customExtensionInfo := Dict.delete s._customExtensionInfo extensionId,
        customExtension := Dict.delete s.customExtension extensionId } : State).log
      (.deleteWildExtension extensionId) |>.log (.removeExtensionPrimitives extensionId))
    extensionId
  refine ⟨mons, [.deleteWildExtension extensionId, .removeExtensionPrimitives extensionId] ++
    added ++ [.emitProjectChanged], ?_⟩
  rw [hm]
  simp [State.log, List.append_assoc]

/-- What `deleteExtensionById` does when some opcode of the extension is in use. -/
theorem deleteExtensionById_used (s : State) (extensionId : Str)
    (h : ∃ op, InUse s extensionId op) :
    deleteExtensionById s extensionId =
      ⟨s, .thrown (.cause .OPCODE_IN_USE ((opsInUse s.targets extensionId).map some))⟩ := by
  have hl : (opsInUse s.targets extensionId).length > 0 := by
    by_contra hl
    exact (opsInUse_eq_nil_iff s extensionId).mp hl h
  unfold deleteExtensionById
  simp only [if_pos hl]

/-- Claim C4: `deleteExtensionById(id)` throws the cause OPCODE_IN_USE exactly when some
block of some target has an opcode `<id>_<op>`; the values of the cause are then exactly
the opcodes in use and the state (registry, catalog, services) is unchanged; otherwise
it returns, the id is no longer loaded, the service name it was registered under is
unbound, and every other registration is as before. -/
theorem deleteExtensionById_spec (s : State) (extensionId : Str) :
    ((∃ values, (deleteExtensionById s extensionId).result =
        .thrown (.cause .OPCODE_IN_USE values)) ↔ ∃ op, InUse s extensionId op) ∧
    (∀ values, (deleteExtensionById s extensionId).result =
        .thrown (.cause .OPCODE_IN_USE values) →
      (∀ v, v ∈ values ↔ ∃ op, v = some op ∧ InUse s extensionId op) ∧
      (deleteExtensionById s extensionId).state = s) ∧
    ((¬ ∃ op, InUse s extensionId op) →
      (deleteExtensionById s extensionId).result = .returned () ∧
      isExtensionLoaded (deleteExtensionById s extensionId).state extensionId = false ∧
      (∀ name, Dict.get s._loadedExtensions extensionId = some name →
        Dict.get (deleteExtensionById s extensionId).state.services name = none) ∧
      (∀ other, other ≠ extensionId →
        Dict.get (deleteExtensionById s extensionId).state._loadedExtensions other =
          Dict.get s._loadedExtensions other)) := by
  by_cases h : ∃ op, InUse s extensionId op
  · rw [deleteExtensionById_used s extensionId h]
    refine ⟨⟨fun _ => h, fun _ => ⟨_, rfl⟩⟩, ?_, fun hn => absurd h hn⟩
    intro values hv
    simp only [Completion.thrown.injEq, Err.cause.injEq, true_and] at hv
    subst hv
    refine ⟨fun v => ?_, rfl⟩
    rw [List.mem_map]
    constructor
    · rintro ⟨op, hop, rfl⟩
      exact ⟨op, rfl, (inUse_iff s extensionId op).mpr hop⟩
    · rintro ⟨op, rfl, hop⟩
      exact ⟨op, (inUse_iff s extensionId op).mp hop, rfl⟩
  · obtain ⟨mons, added, hd⟩ := deleteExtensionById_unused s extensionId h
    rw [hd]
    refine ⟨⟨fun ⟨values, hv⟩ => by simp at hv, fun hu => absurd hu h⟩,
      fun values hv => by simp at hv, fun _ => ⟨rfl, ?_, ?_, ?_⟩⟩
    · simp [isExtensionLoaded, Dict.has, Dict.get_delete_self]
    · intro name hname
      simp [hname, Dict.get_delete_self]
    · intro other hne
      exact Dict.get_delete_of_ne _ _ _ hne


/-! ## Replacement under another id -/

theorem deleteExtensionById_cases (s : State) (extensionId : Str) :
    ((deleteExtensionById s extensionId).result = .returned ()) ∨
    ((deleteExtensionById s extensionId).result =
        .thrown (.cause .OPCODE_IN_USE ((opsInUse s.targets extensionId).map some)) ∧
      (deleteExtensionById s extensionId).state = s) := by
  by_cases h : ∃ op, InUse s extensionId op
  · right
    rw [deleteExtensionById_used s extensionId h]
    exact ⟨rfl, rfl⟩
  · left
    obtain ⟨_, _, hd⟩ := deleteExtensionById_unused s extensionId h
    rw [hd]

theorem find_id_eq (infos : List CategoryInfo) (id : Str) (c : CategoryInfo)
    (h : infos.find? (fun block => decide (block.id = id)) = some c) : c.id = id := by
  have := List.find?_some h
  simpa using this

/-- Claim C7, amended: when `replaceExtensionWithId(newId, oldId)` throws the cause
BLOCK_TYPE_CHANGED, or a TypeError because the block info of an id is absent, the state
is unchanged.  When it throws the cause OPCODE_NOT_FOUND, `deleteExtensionById(newId)`
has run to completion and the state is the one it left: the opcodes of all blocks are
as before and so is every registration but that of `newId`, which is gone together with
the binding of its service name and its record in the custom catalog. -/
theorem replaceExtensionWithId_failure (s : State) (newId oldId : Str) :
    (∀ values, (replaceExtensionWithId s newId oldId).result =
        .thrown (.cause .BLOCK_TYPE_CHANGED values) →
      (replaceExtensionWithId s newId oldId).state = s) ∧
    ((replaceExtensionWithId s newId oldId).result = .thrown .typeError →
      (replaceExtensionWithId s newId oldId).state = s) ∧
    (∀ values, (replaceExtensionWithId s newId oldId).result =
        .thrown (.cause .OPCODE_NOT_FOUND values) →
      (deleteExtensionById s newId).result = .returned () ∧
      (replaceExtensionWithId s newId oldId).state = (deleteExtensionById s newId).state ∧
      (replaceExtensionWithId s newId oldId).state.targets = s.targets ∧
      isExtensionLoaded (replaceExtensionWithId s newId oldId).state newId = false ∧
      (∀ other, other ≠ newId →
        Dict.get (replaceExtensionWithId s newId oldId).state._loadedExtensions other =
          Dict.get s._loadedExtensions other) ∧
      (∀ name, Dict.get s._loadedExtensions newId = some name →
        Dict.get (replaceExtensionWithId s newId oldId).state.services name = none) ∧
      Dict.get (replaceExtensionWithId s newId oldId).state._customExtensionInfo newId =
        none) := by
  unfold replaceExtensionWithId
  cases hnew : s._blockInfo.find? (fun block => decide (block.id = newId)) with
  | none => simp
  | some incomingExt =>
    have hid := find_id_eq _ _ _ hnew
    cases hold : s._blockInfo.find? (fun block => decide (block.id = oldId)) with
    | none => simp
    | some oldExt =>
      have hoid := find_id_eq _ _ _ hold
      simp only [hid, hoid]
      split
      · -- the incoming extension misses opcodes that are in use
        rcases deleteExtensionById_cases s newId with hret | ⟨hthrow, hst⟩
        · have hunused : ¬ ∃ op, InUse s newId op := by
            intro hu
            rw [deleteExtensionById_used s newId hu] at hret
            simp at hret
          obtain ⟨mons, added, hd⟩ := deleteExtensionById_unused s newId hunused
          simp only [Outcome.andThen, hret]
          refine ⟨fun values hv => by simp at hv, fun hv => by simp at hv,
            fun values _ => ⟨trivial, trivial, ?_, ?_, ?_, ?_, ?_⟩⟩
          · rw [hd]
          · rw [hd]
            simp [isExtensionLoaded, Dict.has, Dict.get_delete_self]
          · intro other hne
            rw [hd]
            exact Dict.get_delete_of_ne _ _ _ hne
          · intro name hname
            rw [hd]
            simp [hname, Dict.get_delete_self]
          · rw [hd]
            exact Dict.get_delete_self _ _
        · simp only [Outcome.andThen, hthrow]
          refine ⟨fun values hv => by simp at hv, fun hv => by simp at hv,
            fun values hv => by simp at hv⟩
      · split
        · refine ⟨fun values _ => rfl, fun hv => by simp at hv, fun values hv => by simp at hv⟩
        · rcases deleteExtensionById_cases
            (({ s with targets := renameOpcodes oldId newId s.targets } : State).log
              .resetAllCaches) oldId with hret | ⟨hthrow, _⟩
          · rw [hret]
            refine ⟨fun values hv => by simp at hv, fun hv => by simp at hv,
              fun values hv => by simp at hv⟩
          · rw [hthrow]
            refine ⟨fun values hv => by simp at hv, fun hv => by simp at hv,
              fun values hv => by simp at hv⟩


theorem startsWith_eq_false_iff (s p : Str) : startsWith s p = false ↔ ¬ ∃ t, s = p ++ t := by
  rw [← startsWith_iff]
  cases startsWith s p <;> simp

theorem renameOpcode_of_prefixed (oldId newId : Str) (b : Block) (op : Str)
    (h : b.opcode = oldId ++ ['_'] ++ op) :
    renameOpcode oldId newId b = { b with opcode := newId ++ ['_'] ++ op } := by
  unfold renameOpcode
  have hs : startsWith b.opcode (oldId ++ ['_']) = true := (startsWith_iff _ _).mpr ⟨op, h⟩
  rw [if_pos hs, h, substring_append]

theorem renameOpcode_of_not_prefixed (oldId newId : Str) (b : Block)
    (h : startsWith b.opcode (oldId ++ ['_']) = false) : renameOpcode oldId newId b = b := by
  unfold renameOpcode
  simp [h]

/-- After the renaming no opcode starts with the old id and an underscore, provided no
renamed opcode does. -/
theorem renameOpcodes_clean (s : State) (newId oldId : Str)
    (hfree : ∀ op, InUse s oldId op → startsWith (newId ++ ['_'] ++ op) (oldId ++ ['_']) = false) :
    ∀ t ∈ renameOpcodes oldId newId s.targets, ∀ b ∈ t._blocks,
      startsWith b.opcode (oldId ++ ['_']) = false := by
  intro t ht b hb
  unfold renameOpcodes at ht
  obtain ⟨t0, ht0, rfl⟩ := List.mem_map.mp ht
  obtain ⟨b0, hb0, rfl⟩ := List.mem_map.mp hb
  by_cases hp : startsWith b0.opcode (oldId ++ ['_']) = true
  · obtain ⟨op, hop⟩ := (startsWith_iff _ _).mp hp
    rw [renameOpcode_of_prefixed oldId newId b0 op hop]
    exact hfree op ⟨t0, ht0, b0, hb0, hop⟩
  · have hp2 : startsWith b0.opcode (oldId ++ ['_']) = false := by
      cases h : startsWith b0.opcode (oldId ++ ['_'])
      · rfl
      · exact absurd h hp
    rw [renameOpcode_of_not_prefixed oldId newId b0 hp2]
    exact hp2

theorem mem_typeChangedConverted (oldBlocks incoming : List ConvertedBlockInfo)
    (a : ConvertedBlockInfo) :
    a ∈ typeChangedConverted oldBlocks incoming ↔
      a ∈ oldBlocks ∧ ∃ b ∈ incoming, a.info.truthy = true ∧ b.info.truthy = true ∧
        a.info.opcode = b.info.opcode ∧ a.info.blockType ≠ b.info.blockType := by
  unfold typeChangedConverted
  rw [List.mem_filter, List.find?_isSome]
  constructor
  · rintro ⟨ha, b, hb, hp⟩
    refine ⟨ha, b, hb, ?_⟩
    by_cases ht : (a.info.truthy && b.info.truthy) = true
    · simp only [ht, if_true, Bool.and_eq_true, decide_eq_true_eq] at hp
      simp only [Bool.and_eq_true] at ht
      exact ⟨ht.1, ht.2, hp.1, hp.2⟩
    · simp [ht] at hp
  · rintro ⟨ha, b, hb, h1, h2, h3, h4⟩
    exact ⟨ha, b, hb, by simp [h1, h2, h3, h4]⟩

theorem mem_incomingOpsSet (blocks : List ConvertedBlockInfo) (op : Str) :
    some op ∈ setOf ((blocks.map fun b => b.info.opcode).filter truthyOpt) ↔
      ∃ b ∈ blocks, b.info.opcode = some op ∧ op ≠ [] := by
  rw [mem_setOf, List.mem_filter, List.mem_map, truthyOpt_some_iff]
  constructor
  · rintro ⟨⟨b, hb, hop⟩, hne⟩
    exact ⟨b, hb, hop, hne⟩
  · rintro ⟨b, hb, hop, hne⟩
    exact ⟨⟨b, hb, hop⟩, hne⟩

/-- Claim C8, amended: for ids `newId` and `oldId` whose block info is present, when
every opcode in use of `oldId` is declared by `newId` with a non-empty opcode, no entry
of the old block info and entry of the new one with the same opcode field differ in
block type, and no opcode `<newId>_<op>` of an opcode `op` in use itself starts with
`<oldId>_`, `replaceExtensionWithId(newId, oldId)` returns; afterwards every block
whose opcode was `<oldId>_<op>` has opcode `<newId>_<op>`, every other block is
unchanged, no block opcode starts with `<oldId>_`, and `oldId` is not loaded. -/
theorem replaceExtensionWithId_success (s : State) (newId oldId : Str)
    (incomingExt oldExt : CategoryInfo)
    (hnew : s._blockInfo.find? (fun block => decide (block.id = newId)) = some incomingExt)
    (hold : s._blockInfo.find? (fun block => decide (block.id = oldId)) = some oldExt)
    (hmiss : ∀ op, InUse s oldId op →
      ∃ b ∈ incomingExt.blocks, b.info.opcode = some op ∧ op ≠ [])
    (htype : ∀ a ∈ oldExt.blocks, ∀ b ∈ incomingExt.blocks,
      a.info.truthy = true → b.info.truthy = true → a.info.opcode = b.info.opcode →
        a.info.blockType = b.info.blockType)
    (hfree : ∀ op, InUse s oldId op →
      startsWith (newId ++ ['_'] ++ op) (oldId ++ ['_']) = false) :
    (replaceExtensionWithId s newId oldId).result = .returned () ∧
    (∃ f : Block → Block,
      (∀ b op, b.opcode = oldId ++ ['_'] ++ op →
        f b = { b with opcode := newId ++ ['_'] ++ op }) ∧
      (∀ b, startsWith b.opcode (oldId ++ ['_']) = false → f b = b) ∧
      (replaceExtensionWithId s newId oldId).state.targets =
        s.targets.map fun t => { t with _blocks := t._blocks.map f }) ∧
    (∀ t ∈ (replaceExtensionWithId s newId oldId).state.targets, ∀ b ∈ t._blocks,
      startsWith b.opcode (oldId ++ ['_']) = false) ∧
    isExtensionLoaded (replaceExtensionWithId s newId oldId).state oldId = false := by
  have hid := find_id_eq _ _ _ hnew
  have hoid := find_id_eq _ _ _ hold
  have hd : ¬ (difference ((opsInUse s.targets oldId).map some)
      (setOf ((incomingExt.blocks.map fun b => b.info.opcode).filter truthyOpt))).length > 0 := by
    intro hd
    obtain ⟨v, hv⟩ := (length_pos_iff_exists_mem _).mp hd
    rw [mem_difference, List.mem_map] at hv
    obtain ⟨⟨op, hop, rfl⟩, hnot⟩ := hv
    exact hnot ((mem_incomingOpsSet _ op).mpr (hmiss op ((inUse_iff s oldId op).mpr hop)))
  have hc : ¬ (typeChangedConverted oldExt.blocks incomingExt.blocks).length > 0 := by
    intro hc
    obtain ⟨a, ha⟩ := (length_pos_iff_exists_mem _).mp hc
    obtain ⟨hao, b, hb, h1, h2, h3, h4⟩ := (mem_typeChangedConverted _ _ _).mp ha
    exact h4 (htype a hao b hb h1 h2 h3)
  have hclean := renameOpcodes_clean s newId oldId hfree
  have hunused : ¬ ∃ op, InUse
      (({ s with targets := renameOpcodes oldId newId s.targets } : State).log
        .resetAllCaches) oldId op := by
    rintro ⟨op, t, ht, b, hb, hop⟩
    have := hclean t ht b hb
    rw [startsWith_eq_false_iff] at this
    exact this ⟨op, hop⟩
  obtain ⟨mons, added, hdel⟩ := deleteExtensionById_unused _ oldId hunused
  unfold replaceExtensionWithId
  simp only [hnew, hold, hid, hoid, if_neg hd, if_neg hc]
  rw [hdel]
  refine ⟨rfl, ⟨renameOpcode oldId newId, renameOpcode_of_prefixed oldId newId,
    renameOpcode_of_not_prefixed oldId newId, rfl⟩, hclean, ?_⟩
  simp [isExtensionLoaded, Dict.has, Dict.get_delete_self, State.log]


/-! ## Extension workers -/

theorem loadAll_cons (s : State) (u : Str) (us : List Str) :
    loadAll s (u :: us) = loadAll (loadExtensionURLInWorker s u).state us := rfl

/-- The queue after a run of load requests. -/
theorem loadAll_state (urls : List Str) (s : State) :
    (loadAll s urls).pendingExtensions = s.pendingExtensions ++ requestsFrom s.nextRequest urls ∧
    (loadAll s urls).nextExtensionWorker = s.nextExtensionWorker ∧
    (loadAll s urls).pendingWorkers = s.pendingWorkers := by
  induction urls generalizing s with
  | nil => simp [loadAll, requestsFrom]
  | cons u us ih =>
    rw [loadAll_cons]
    obtain ⟨h1, h2, h3⟩ := ih (loadExtensionURLInWorker s u).state
    rw [h1, h2, h3]
    simp [loadExtensionURLInWorker, State.log, requestsFrom]

theorem allocateWorker_cons (s : State) (w : PendingExtensionWorker)
    (q : List PendingExtensionWorker) (h : s.pendingExtensions = w :: q) :
    allocateWorker s =
      ⟨{ s with
          nextExtensionWorker := increment s.nextExtensionWorker,
          pendingExtensions := q,
          pendingWorkers := Dict.set s.pendingWorkers s.nextExtensionWorker (some w),
          workerURLs := Dict.set s.workerURLs s.nextExtensionWorker w.extensionURL },
        .returned (s.nextExtensionWorker, w.extensionURL)⟩ := by
  unfold allocateWorker
  simp [h]

/-- Allocation never touches the slot of a worker id below the counter. -/
theorem allocateWorkers_slot_below (k : Nat) (s : State) (id : Nat)
    (h : id < s.nextExtensionWorker) :
    Dict.get (allocateWorkers s k).1.pendingWorkers id = Dict.get s.pendingWorkers id := by
  induction k generalizing s with
  | zero => rfl
  | succ k ih =>
    show Dict.get (allocateWorkers (allocateWorker s).state k).1.pendingWorkers id = _
    have hn : (allocateWorker s).state.nextExtensionWorker =
        increment s.nextExtensionWorker := by
      cases hq : s.pendingExtensions <;> simp [allocateWorker, hq]
    have hle := le_increment s.nextExtensionWorker
    have hp : (allocateWorker s).state.pendingWorkers =
        Dict.set s.pendingWorkers s.nextExtensionWorker s.pendingExtensions.head? := by
      cases hq : s.pendingExtensions <;> simp [allocateWorker, hq]
    rw [ih _ (by omega), hp, Dict.get_set_of_ne _ _ _ _ (by omega)]

/-- What `k` allocations do to a queue of at least `k` entries, as long as the counter
stays within the integers that `++` counts through. -/
theorem allocateWorkers_queue (k : Nat) (s : State) (hk : k ≤ s.pendingExtensions.length)
    (hb : s.nextExtensionWorker + k ≤ 2 ^ 53) :
    (allocateWorkers s k).2 = allocations s.nextExtensionWorker (s.pendingExtensions.take k) ∧
    (allocateWorkers s k).1.pendingExtensions = s.pendingExtensions.drop k ∧
    (allocateWorkers s k).1.nextExtensionWorker = s.nextExtensionWorker + k ∧
    ∀ i, i < k → Dict.get (allocateWorkers s k).1.pendingWorkers (s.nextExtensionWorker + i) =
      some (s.pendingExtensions[i]?) := by
  induction k generalizing s with
  | zero => simp [allocateWorkers, allocations]
  | succ k ih =>
    cases hq : s.pendingExtensions with
    | nil => simp [hq] at hk
    | cons w q =>
      have ha := allocateWorker_cons s w q hq
      rw [increment_of_lt _ (by omega)] at ha
      have hk2 : k ≤ (allocateWorker s).state.pendingExtensions.length := by
        rw [ha]; simp [hq] at hk; exact hk
      have hb2 : (allocateWorker s).state.nextExtensionWorker + k ≤ 2 ^ 53 := by
        rw [ha]; simp only; omega
      obtain ⟨h1, h2, h3, h4⟩ := ih (allocateWorker s).state hk2 hb2
      show (allocateWorker s).result :: (allocateWorkers (allocateWorker s).state k).2 = _ ∧
        (allocateWorkers (allocateWorker s).state k).1.pendingExtensions = _ ∧
        (allocateWorkers (allocateWorker s).state k).1.nextExtensionWorker = _ ∧
        ∀ i, i < k + 1 →
          Dict.get (allocateWorkers (allocateWorker s).state k).1.pendingWorkers _ = _
      refine ⟨?_, ?_, ?_, ?_⟩
      · rw [h1, ha]
        simp [allocations]
      · rw [h2, ha]
        simp
      · rw [h3, ha]
        simp only
        omega
      · intro i hi
        cases i with
        | zero =>
          rw [allocateWorkers_slot_below k _ _ (by rw [ha]; simp), ha]
          simp [Dict.get_set_self]
        | succ i =>
          have := h4 i (by omega)
          rw [ha] at this
          simp only at this
          rw [ha]
          simp only [List.getElem?_cons_succ]
          rw [← this]
          congr 1
          omega

theorem requestsFrom_getElem? (urls : List Str) (n i : Nat) :
    (requestsFrom n urls)[i]? = urls[i]?.map fun u => ⟨u, n + i⟩ := by
  induction urls generalizing n i with
  | nil => simp [requestsFrom]
  | cons u us ih =>
    cases i with
    | zero => simp [requestsFrom]
    | succ i =>
      simp only [requestsFrom, List.getElem?_cons_succ, ih]
      congr 1
      funext u
      congr 1
      omega

theorem requestsFrom_drop (urls : List Str) (n k : Nat) :
    (requestsFrom n urls).drop k = requestsFrom (n + k) (urls.drop k) := by
  induction urls generalizing n k with
  | nil => simp [requestsFrom]
  | cons u us ih =>
    cases k with
    | zero => simp
    | succ k =>
      simp only [requestsFrom, List.drop_succ_cons, ih]
      congr 1
      omega

theorem requestsFrom_length (urls : List Str) (n : Nat) :
    (requestsFrom n urls).length = urls.length := by
  induction urls generalizing n with
  | nil => rfl
  | cons u us ih => simp [requestsFrom, ih]

theorem allocations_getElem? (ws : List PendingExtensionWorker) (n i : Nat) :
    (allocations n ws)[i]? = ws[i]?.map fun w => .returned (n + i, w.extensionURL) := by
  induction ws generalizing n i with
  | nil => simp [allocations]
  | cons w ws ih =>
    cases i with
    | zero => simp [allocations]
    | succ i =>
      simp only [allocations, List.getElem?_cons_succ, ih]
      congr 1
      funext u
      congr 2
      omega

theorem allocations_length (ws : List PendingExtensionWorker) (n : Nat) :
    (allocations n ws).length = ws.length := by
  induction ws generalizing n with
  | nil => rfl
  | cons w ws ih => simp [allocations, ih]

/-- Claim C9, amended: starting from an empty queue, after `loadExtensionURLInWorker`
has been called for the URLs `u_1 .. u_n` in order, `k ≤ n` calls of `allocateWorker`
that leave the sequence counter at 2^53 or below all return; the `i`-th returns the URL
`u_i` with the worker id that is the sequence counter before the calls plus `i - 1` (so
the ids are new and distinct), and the slot of that worker id holds the request of
`u_i`; afterwards the queue holds exactly the requests of `u_(k+1) .. u_n` in order. -/
theorem allocateWorker_fifo (s : State) (urls : List Str) (k : Nat)
    (hq : s.pendingExtensions = []) (hk : k ≤ urls.length)
    (hb : s.nextExtensionWorker + k ≤ 2 ^ 53) :
    (allocateWorkers (loadAll s urls) k).2.length = k ∧
    (∀ i u, i < k → urls[i]? = some u →
      (allocateWorkers (loadAll s urls) k).2[i]? =
        some (.returned (s.nextExtensionWorker + i, u)) ∧
      Dict.get (allocateWorkers (loadAll s urls) k).1.pendingWorkers
        (s.nextExtensionWorker + i) = some (some ⟨u, s.nextRequest + i⟩)) ∧
    (allocateWorkers (loadAll s urls) k).1.pendingExtensions =
      requestsFrom (s.nextRequest + k) (urls.drop k) ∧
    (allocateWorkers (loadAll s urls) k).1.pendingExtensions.map (fun w => w.extensionURL) =
      urls.drop k ∧
    (allocateWorkers (loadAll s urls) k).1.nextExtensionWorker = s.nextExtensionWorker + k := by
  obtain ⟨hl1, hl2, hl3⟩ := loadAll_state urls s
  rw [hq, List.nil_append] at hl1
  have hk2 : k ≤ (loadAll s urls).pendingExtensions.length := by
    rw [hl1, requestsFrom_length]; exact hk
  obtain ⟨h1, h2, h3, h4⟩ := allocateWorkers_queue k (loadAll s urls) hk2
    (by rw [hl2]; exact hb)
  rw [hl1, hl2] at h1
  rw [hl1] at h2
  rw [hl2] at h3
  refine ⟨?_, ?_, ?_, ?_, h3⟩
  · rw [h1, allocations_length, List.length_take, requestsFrom_length]
    omega
  · intro i u hi hu
    constructor
    · rw [h1, allocations_getElem?, List.getElem?_take_of_lt hi, requestsFrom_getElem?, hu]
      rfl
    · have := h4 i hi
      rw [hl2, hl1, requestsFrom_getElem?, hu] at this
      exact this
  · rw [h2, requestsFrom_drop]
  · rw [h2, requestsFrom_drop]
    generalize s.nextRequest + k = n
    generalize urls.drop k = rest
    induction rest generalizing n with
    | nil => rfl
    | cons u us ih => simp [requestsFrom, ih]


/-! ## The claims at sample inputs -/

theorem forall_inUse_of_forall_mem (s : State) (extensionId : Str) (P : Str → Prop)
    (h : ∀ op ∈ opsInUse s.targets extensionId, P op) : ∀ op, InUse s extensionId op → P op :=
  fun op hu => h op ((inUse_iff s extensionId op).mp hu)

/-- Claim C1 at a sample input: `a` is registered, a program uses `a_x` and `a_y`, and
the candidate declares `x` only; the replacement is refused with the value `y`. -/
theorem registerExtension_replace_opcode_not_found_witness :
    Registered sampleState "a".toList "extension_0_a".toList ∧
    (registerExtension sampleState "a".toList (.obj sampleLacking) true).result =
      .thrown (.cause .OPCODE_NOT_FOUND [some "y".toList]) ∧
    (∀ v, v ∈ [some "y".toList] ↔ ∃ op, v = some op ∧ InUse sampleState "a".toList op ∧
      ¬ Declares [.block { opcode := some "x".toList, blockType := some .REPORTER }] op) ∧
    (registerExtension sampleState "a".toList (.obj sampleLacking) true).state.services =
      sampleState.services :=
  ⟨⟨by decide, by decide⟩, by decide,
    ((registerExtension_replace_opcode_not_found sampleState "a".toList "extension_0_a".toList
      (.obj sampleLacking) _ ⟨by decide, by decide⟩ rfl).2 [some "y".toList] (by decide)).1,
    ((registerExtension_replace_opcode_not_found sampleState "a".toList "extension_0_a".toList
      (.obj sampleLacking) _ ⟨by decide, by decide⟩ rfl).2 [some "y".toList] (by decide)).2.2.1⟩

/-- Claim C5 at a sample input: a second registration of `a` without replacement. -/
theorem registerExtension_duplicate_noop_witness :
    Registered sampleState "a".toList "extension_0_a".toList ∧
    (registerExtension sampleState "a".toList (.cls sampleExtended) false).result =
      .returned none ∧
    (registerExtension sampleState "a".toList (.cls sampleExtended) false).state.services =
      sampleState.services ∧
    (registerExtension sampleState "a".toList (.cls sampleExtended)
      false).state.nextExtensionWorker = 1 :=
  ⟨⟨by decide, by decide⟩,
    (registerExtension_duplicate_noop sampleState "a".toList "extension_0_a".toList
      (.cls sampleExtended) ⟨by decide, by decide⟩).1,
    by rw [(registerExtension_duplicate_noop sampleState "a".toList "extension_0_a".toList
      (.cls sampleExtended) ⟨by decide, by decide⟩).2],
    by rw [(registerExtension_duplicate_noop sampleState "a".toList "extension_0_a".toList
      (.cls sampleExtended) ⟨by decide, by decide⟩).2]; rfl⟩

/-- Claim C2 at a sample input: the candidate turns the reporter `x`, which is in use,
into a command; the replacement is refused with the value `x`. -/
theorem registerExtension_replace_block_type_changed_witness :
    Registered sampleState "a".toList "extension_0_a".toList ∧
    (∀ op, InUse sampleState "a".toList op → DeclaredBy sampleRetyped op) ∧
    (registerExtension sampleState "a".toList (.obj sampleRetyped) true).result =
      .thrown (.cause .BLOCK_TYPE_CHANGED [some "x".toList]) ∧
    (∀ v, v ∈ [some "x".toList] ↔ ∃ op, v = some op ∧
      TypeChanged sampleState "a".toList "extension_0_a".toList sampleRetyped op) ∧
    (registerExtension sampleState "a".toList (.obj sampleRetyped) true).state.services =
      sampleState.services :=
  have hmiss : ∀ op, InUse sampleState "a".toList op → DeclaredBy sampleRetyped op :=
    forall_inUse_of_forall_mem sampleState "a".toList _
      (fun op hop => ⟨_, rfl, (by decide : ∀ op ∈ opsInUse sampleState.targets "a".toList,
        ∃ b ∈ [BlockEntry.block { opcode := some "x".toList, blockType := some .COMMAND },
          BlockEntry.block { opcode := some "y".toList, blockType := some .COMMAND }],
          b.opcode = some op) op hop⟩)
  ⟨⟨by decide, by decide⟩, hmiss, by decide,
    ((registerExtension_replace_block_type_changed sampleState "a".toList
      "extension_0_a".toList (.obj sampleRetyped) ⟨by decide, by decide⟩ hmiss).2
      [some "x".toList] (by decide)).1,
    ((registerExtension_replace_block_type_changed sampleState "a".toList
      "extension_0_a".toList (.obj sampleRetyped) ⟨by decide, by decide⟩ hmiss).2
      [some "x".toList] (by decide)).2.2.1⟩

/-- Claim C3 at a sample input: the candidate keeps `x` and `y` and adds `z`. -/
theorem registerExtension_replace_success_witness :
    Registered sampleState "a".toList "extension_0_a".toList ∧
    Dict.get sampleState.services "extension_0_a".toList = some (.localObject sampleOld) ∧
    (registerExtension sampleState "a".toList (.obj sampleExtended) true).result =
      .returned (some "a".toList) ∧
    Dict.get (registerExtension sampleState "a".toList (.obj sampleExtended) true).state.services
      "extension_0_a".toList = some (.localObject sampleExtended) ∧
    refreshTargets sampleState "a".toList = ["extension_0_a".toList] :=
  have h := registerExtension_replace_success sampleState "a".toList "extension_0_a".toList
    (.obj sampleExtended) sampleOld _ _ ⟨by decide, by decide⟩ (by decide) rfl rfl
    (forall_inUse_of_forall_mem sampleState "a".toList _
      (by decide : ∀ op ∈ opsInUse sampleState.targets "a".toList,
        ∃ b ∈ [BlockEntry.block { opcode := some "x".toList, blockType := some .REPORTER },
          BlockEntry.block { opcode := some "y".toList, blockType := some .COMMAND },
          BlockEntry.block { opcode := some "z".toList, blockType := some .BOOLEAN }],
          b.opcode = some op))
    (forall_inUse_of_forall_mem sampleState "a".toList _
      (by
        intro op hop
        have hc : op = "x".toList ∨ op = "y".toList :=
          (by decide : ∀ op ∈ opsInUse sampleState.targets "a".toList,
            op = "x".toList ∨ op = "y".toList) op hop
        rcases hc with rfl | rfl <;> (unfold TypeDiffers; decide)))
  ⟨⟨by decide, by decide⟩, by decide, h.1, h.2.1, by decide⟩

/-- Claim C3 as stated fails: a registration hosted by a worker cannot be replaced,
although no opcode is in use, because the synchronous call for the old descriptor
fails. -/
theorem registerExtension_replace_remote_fails :
    Registered sampleRemote "a".toList "worker_0_a".toList ∧
    (∀ op, ¬ InUse sampleRemote "a".toList op) ∧
    (registerExtension sampleRemote "a".toList (.obj sampleExtended) true).result =
      .thrown .dispatchError ∧
    (registerExtension sampleRemote "a".toList (.obj sampleExtended) true).result ≠
      .returned (some "a".toList) :=
  ⟨⟨by decide, by decide⟩, fun op ⟨t, ht, _⟩ => by simp [sampleRemote, State.initial] at ht,
    by decide, by decide⟩

/-- Claim C6 at a sample input: a class with descriptor id `pen-2.0` is registered
under the new id `b` while the counter stands at 1. -/
theorem registerExtension_fresh_witness :
    Dict.get sampleState._loadedExtensions "b".toList = none ∧
    hasInvalidIdChar "pen-2.0".toList = false ∧
    (registerExtension sampleState "b".toList
      (.cls { ident := 7, getInfo := { id := "pen-2.0".toList, blocks := none } })
      false).result = .returned (some "b".toList) ∧
    Dict.get (registerExtension sampleState "b".toList
      (.cls { ident := 7, getInfo := { id := "pen-2.0".toList, blocks := none } })
      false).state._loadedExtensions "b".toList = some "extension_1_pen-2.0".toList ∧
    Dict.get (registerExtension sampleState "b".toList
      (.cls { ident := 7, getInfo := { id := "pen-2.0".toList, blocks := none } })
      false).state._loadedExtensions "a".toList = some "extension_0_a".toList :=
  have h := registerExtension_fresh sampleState "b".toList
    (.cls { ident := 7, getInfo := { id := "pen-2.0".toList, blocks := none } }) false
    (by decide) (by decide)
  ⟨by decide, by decide, h.1, h.2.2.1, by decide⟩

/-- Claim C7 as stated fails: when the incoming extension misses an opcode in use,
`replaceExtensionWithId` fails, and the incoming extension, registered before the call,
is registered no more and its service is unbound. -/
theorem replaceExtensionWithId_revert_deletes_incoming :
    (replaceExtensionWithId sampleUncovered "n".toList "o".toList).result =
      .thrown (.cause .OPCODE_NOT_FOUND [some "x".toList]) ∧
    isExtensionLoaded sampleUncovered "n".toList = true ∧
    isExtensionLoaded (replaceExtensionWithId sampleUncovered "n".toList "o".toList).state
      "n".toList = false ∧
    Dict.get sampleUncovered.services "extension_1_n".toList =
      some (.localObject (sampleBare 1 "n".toList)) ∧
    Dict.get (replaceExtensionWithId sampleUncovered "n".toList "o".toList).state.services
      "extension_1_n".toList = none := by
  decide

/-- Claim C8 at a sample input: `o` is replaced by `n`, and the block `o_x` becomes
`n_x`. -/
theorem replaceExtensionWithId_success_witness :
    (∀ op, InUse sampleFork "o".toList op →
      startsWith ("n".toList ++ ['_'] ++ op) ("o".toList ++ ['_']) = false) ∧
    (replaceExtensionWithId sampleFork "n".toList "o".toList).result = .returned () ∧
    (replaceExtensionWithId sampleFork "n".toList "o".toList).state.targets =
      [{ _blocks := [{ id := "b1".toList, opcode := "n_x".toList }] }] ∧
    isExtensionLoaded (replaceExtensionWithId sampleFork "n".toList "o".toList).state
      "o".toList = false :=
  have hfree : ∀ op, InUse sampleFork "o".toList op →
      startsWith ("n".toList ++ ['_'] ++ op) ("o".toList ++ ['_']) = false :=
    forall_inUse_of_forall_mem sampleFork "o".toList _ (by decide)
  have h := replaceExtensionWithId_success sampleFork "n".toList "o".toList
    (sampleCategory "n".toList) (sampleCategory "o".toList) (by decide) (by decide)
    (forall_inUse_of_forall_mem sampleFork "o".toList _ (by decide)) (by decide) hfree
  ⟨hfree, h.1, by decide, h.2.2.2⟩

/-- Claim C8 as stated fails: when the new id is the old id followed by an underscore
and more, the renamed opcodes still start with the old id and an underscore; the
blocks are renamed, but the deletion of the old extension is refused. -/
theorem replaceExtensionWithId_prefixed_fails :
    "a_b".toList ≠ "a".toList ∧
    samplePrefixed._blockInfo.find? (fun block => decide (block.id = "a_b".toList)) =
      some (sampleCategory "a_b".toList) ∧
    samplePrefixed._blockInfo.find? (fun block => decide (block.id = "a".toList)) =
      some (sampleCategory "a".toList) ∧
    (∀ op, InUse samplePrefixed "a".toList op →
      ∃ b ∈ (sampleCategory "a_b".toList).blocks, b.info.opcode = some op) ∧
    (∀ a ∈ (sampleCategory "a".toList).blocks, ∀ b ∈ (sampleCategory "a_b".toList).blocks,
      a.info.opcode = b.info.opcode → a.info.blockType = b.info.blockType) ∧
    (replaceExtensionWithId samplePrefixed "a_b".toList "a".toList).result =
      .thrown (.cause .OPCODE_IN_USE [some "b_x".toList]) ∧
    (replaceExtensionWithId samplePrefixed "a_b".toList "a".toList).state.targets =
      [{ _blocks := [{ id := "b1".toList, opcode := "a_b_x".toList }] }] ∧
    isExtensionLoaded (replaceExtensionWithId samplePrefixed "a_b".toList "a".toList).state
      "a".toList = true :=
  ⟨by decide, by decide, by decide,
    forall_inUse_of_forall_mem samplePrefixed "a".toList _ (by decide), by decide, by decide,
    by decide, by decide⟩

/-- The amended claim C9 at a sample input: three requests, two allocations. -/
theorem allocateWorker_fifo_witness :
    State.initial.pendingExtensions = [] ∧
    State.initial.nextExtensionWorker + 2 ≤ 2 ^ 53 ∧
    (allocateWorkers (loadAll State.initial ["u1".toList, "u2".toList, "u3".toList]) 2).2 =
      [.returned (0, "u1".toList), .returned (1, "u2".toList)] ∧
    (allocateWorkers (loadAll State.initial
      ["u1".toList, "u2".toList, "u3".toList]) 2).1.pendingExtensions.map
        (fun w => w.extensionURL) = ["u3".toList] :=
  ⟨rfl, by decide, by decide,
    (allocateWorker_fifo State.initial ["u1".toList, "u2".toList, "u3".toList] 2 rfl
      (by decide) (by decide)).2.2.2.1⟩

/-- Against claim C9 as it stands: when the sequence counter stands at 2^53, its `++` leaves
it there; the allocations for the requests of `u1` and `u2` both return the worker id
2^53, and the slot of that id, which held the request of `u1` after the first call,
holds the request of `u2` after the second. -/
theorem allocateWorker_repeats_id :
    sampleExhausted.pendingExtensions = [] ∧
    sampleExhausted.nextExtensionWorker = 2 ^ 53 ∧
    (allocateWorkers (loadAll sampleExhausted ["u1".toList, "u2".toList]) 2).2 =
      [.returned (2 ^ 53, "u1".toList), .returned (2 ^ 53, "u2".toList)] ∧
    Dict.get (allocateWorkers (loadAll sampleExhausted
      ["u1".toList, "u2".toList]) 1).1.pendingWorkers (2 ^ 53) =
      some (some { extensionURL := "u1".toList, request := 0 }) ∧
    Dict.get (allocateWorkers (loadAll sampleExhausted
      ["u1".toList, "u2".toList]) 2).1.pendingWorkers (2 ^ 53) =
      some (some { extensionURL := "u2".toList, request := 1 }) ∧
    (allocateWorkers (loadAll sampleExhausted
      ["u1".toList, "u2".toList]) 2).1.nextExtensionWorker = 2 ^ 53 := by
  decide

/-- Claim C10 at the failing input: after the worker of the request for `u1` could not
be created, the request is rejected but stays in the queue, and the worker created for
the later request for `u2` is handed `u1`. -/
theorem allocateWorker_after_failed_creation :
    Effect.reject 0 ∈ (workerCreationFailed
      (loadExtensionURLInWorker State.initial "u1".toList).state "u1".toList 0).effects ∧
    (workerCreationFailed (loadExtensionURLInWorker State.initial "u1".toList).state
      "u1".toList 0).pendingExtensions = [{ extensionURL := "u1".toList, request := 0 }] ∧
    sampleFailedLoad.pendingExtensions =
      [{ extensionURL := "u1".toList, request := 0 },
        { extensionURL := "u2".toList, request := 1 }] ∧
    (allocateWorker sampleFailedLoad).result = .returned (0, "u1".toList) ∧
    Dict.get (allocateWorker sampleFailedLoad).state.pendingWorkers 0 =
      some (some { extensionURL := "u1".toList, request := 0 }) := by
  decide

/-! ## Worker initialisation and the load counter -/

/-- Settling a promise changes the log only. -/
theorem settle_fields (s : State) (request : Nat) (call : Effect) :
    (settle s request call).loadingAsyncExtensions = s.loadingAsyncExtensions ∧
    (settle s request call).asyncExtensionsLoadedCallbacks = s.asyncExtensionsLoadedCallbacks ∧
    (settle s request call)._gandiExternalExtensionServicesLoaded =
      s._gandiExternalExtensionServicesLoaded ∧
    (settle s request call).pendingWorkers = s.pendingWorkers := by
  unfold settle
  split <;> simp [State.log]

/-- After the call of `resolve` or of `reject` the promise is settled. -/
theorem settle_settled (s : State) (request : Nat) :
    (settle s request (.resolve request)).settled request = true ∧
    (settle s request (.reject request)).settled request = true := by
  unfold settle
  constructor <;> split <;> simp_all [State.log, State.settled]

/-- The calls that settling a promise adds to the log. -/
theorem settle_effects (s : State) (request : Nat) (call : Effect) :
    (settle s request call).effects =
      if s.settled request then s.effects
      else s.effects ++ [call, .emit (.EXTENSION_DATA_LOADING false)] := by
  unfold settle
  split <;> simp [State.log]

/-- Settling the promise of a load request releases no waiter. -/
theorem settle_added (s : State) (request : Nat) (call : Effect)
    (hcall : ∀ w, call ≠ .resolveWaiter w) :
    ∃ added, (settle s request call).effects = s.effects ++ added ∧
      ∀ w, Effect.resolveWaiter w ∉ added := by
  unfold settle
  split
  · exact ⟨[], by simp, by simp⟩
  · refine ⟨[call, .emit (.EXTENSION_DATA_LOADING false)], by simp [State.log], ?_⟩
    intro w hw
    simp at hw
    exact hcall w hw.symm

/-- Claim C11, amended: for a worker id whose slot holds a request, `onWorkerInit(id, e)`
returns, removes the slot of that id and leaves every other slot and the list of waiters
as they are, and the promise of the request is settled afterwards.  With an error the
load counter becomes 0 and the promise, unless it was settled before, is rejected;
without an error the load counter keeps its value and the promise, unless it was settled
before, is resolved.  It is `_finishedLoadingExtensionScript` that lowers the counter by
one, and it resolves every waiter and empties their list when the new value is zero, and
leaves waiters and log alone otherwise. -/
theorem onWorkerInit_spec (s : State) (id : Nat) (e : Bool)
    (workerInfo : PendingExtensionWorker)
    (hslot : Dict.get s.pendingWorkers id = some (some workerInfo)) :
    (onWorkerInit s id e).result = .returned () ∧
    Dict.get (onWorkerInit s id e).state.pendingWorkers id = none ∧
    (∀ other, other ≠ id →
      Dict.get (onWorkerInit s id e).state.pendingWorkers other =
        Dict.get s.pendingWorkers other) ∧
    (onWorkerInit s id e).state.asyncExtensionsLoadedCallbacks =
      s.asyncExtensionsLoadedCallbacks ∧
    (onWorkerInit s id e).state.settled workerInfo.request = true ∧
    (e = true →
      (onWorkerInit s id e).state.loadingAsyncExtensions = 0 ∧
      (onWorkerInit s id e).state.effects =
        if s.settled workerInfo.request then s.effects
        else s.effects ++
          [.reject workerInfo.request, .emit (.EXTENSION_DATA_LOADING false)]) ∧
    (e = false →
      (onWorkerInit s id e).state.loadingAsyncExtensions = s.loadingAsyncExtensions ∧
      (onWorkerInit s id e).state.effects =
        if s.settled workerInfo.request then s.effects
        else s.effects ++
          [.resolve workerInfo.request, .emit (.EXTENSION_DATA_LOADING false)]) ∧
    (_finishedLoadingExtensionScript s).loadingAsyncExtensions =
      s.loadingAsyncExtensions - 1 ∧
    (s.loadingAsyncExtensions - 1 = 0 →
      (_finishedLoadingExtensionScript s).asyncExtensionsLoadedCallbacks = [] ∧
      (_finishedLoadingExtensionScript s).effects =
        s.effects ++ s.asyncExtensionsLoadedCallbacks.map .resolveWaiter) ∧
    (s.loadingAsyncExtensions - 1 ≠ 0 →
      (_finishedLoadingExtensionScript s).asyncExtensionsLoadedCallbacks =
        s.asyncExtensionsLoadedCallbacks ∧
      (_finishedLoadingExtensionScript s).effects = s.effects) := by
  cases e
  · simp only [onWorkerInit, hslot, Bool.false_eq_true, if_false]
    refine ⟨trivial, ?_, ?_, ?_, ?_, ?_, ?_, ?_, ?_, ?_⟩
    · rw [(settle_fields _ _ _).2.2.2]; exact Dict.get_delete_self _ _
    · intro other hne
      rw [(settle_fields _ _ _).2.2.2]; exact Dict.get_delete_of_ne _ _ _ hne
    · rw [(settle_fields _ _ _).2.1]
    · exact (settle_settled _ _).1
    · intro h; cases h
    · intro _
      rw [(settle_fields _ _ _).1, settle_effects]
      exact ⟨rfl, rfl⟩
    · simp [_finishedLoadingExtensionScript]; split <;> rfl
    · intro h; simp [_finishedLoadingExtensionScript, h]
    · intro h; simp [_finishedLoadingExtensionScript, h]
  · simp only [onWorkerInit, hslot, if_true]
    refine ⟨trivial, ?_, ?_, ?_, ?_, ?_, ?_, ?_, ?_, ?_⟩
    · rw [(settle_fields _ _ _).2.2.2]; exact Dict.get_delete_self _ _
    · intro other hne
      rw [(settle_fields _ _ _).2.2.2]; exact Dict.get_delete_of_ne _ _ _ hne
    · rw [(settle_fields _ _ _).2.1]
    · exact (settle_settled _ _).2
    · intro _
      rw [(settle_fields _ _ _).1, settle_effects]
      exact ⟨rfl, rfl⟩
    · intro h; cases h
    · simp [_finishedLoadingExtensionScript]; split <;> rfl
    · intro h; simp [_finishedLoadingExtensionScript, h]
    · intro h; simp [_finishedLoadingExtensionScript, h]

/-- The amended claim C11 at a sample: with the load of `u1` allocated under worker id
0, `onWorkerInit(0)` resolves promise 0 and runs its `finally` handler. -/
theorem onWorkerInit_spec_witness :
    Dict.get sampleAllocated.pendingWorkers 0 = some (some ⟨"u1".toList, 0⟩) ∧
    (onWorkerInit sampleAllocated 0 false).state.effects =
      sampleAllocated.effects ++ [.resolve 0, .emit (.EXTENSION_DATA_LOADING false)] := by
  refine ⟨by decide, ?_⟩
  have h := (onWorkerInit_spec sampleAllocated 0 false ⟨"u1".toList, 0⟩
    (by decide)).2.2.2.2.2.2.1 rfl
  rw [h.2]
  decide

/-- Against claim C11 as it stands: one load is outstanding, so that the counter is 1,
one waiter is registered and the slot of worker 0 holds the request; `onWorkerInit(0)`
without an error returns, and afterwards the counter is still 1 and not 0, and the
waiter is still registered and was not released. -/
theorem onWorkerInit_success_keeps_counter :
    Dict.get sampleAllocated.pendingWorkers 0 = some (some ⟨"u1".toList, 0⟩) ∧
    sampleAllocated.loadingAsyncExtensions = 1 ∧
    sampleAllocated.asyncExtensionsLoadedCallbacks = [1] ∧
    (onWorkerInit sampleAllocated 0 false).result = .returned () ∧
    (onWorkerInit sampleAllocated 0 false).state.loadingAsyncExtensions = 1 ∧
    (onWorkerInit sampleAllocated 0 false).state.asyncExtensionsLoadedCallbacks = [1] ∧
    Effect.resolveWaiter 1 ∉ (onWorkerInit sampleAllocated 0 false).state.effects := by
  decide

/-- On claim C13: from the empty manager, two loads are started and their workers
allocated; worker 0 reports an error, which sets the counter to 0, and then the
registration of the extension of worker 1 completes: the load counter is -1.  It stays
-1 when worker 1 then reports its initialisation. -/
theorem loadingAsyncExtensions_negative :
    (run State.initial [.load "u1".toList, .load "u2".toList, .allocate, .allocate,
      .init 0 true]).loadingAsyncExtensions = 0 ∧
    (run State.initial [.load "u1".toList, .load "u2".toList, .allocate, .allocate,
      .init 0 true, .finished]).loadingAsyncExtensions = -1 ∧
    (run State.initial [.load "u1".toList, .load "u2".toList, .allocate, .allocate,
      .init 0 true, .finished, .init 1 false]).loadingAsyncExtensions = -1 := by
  decide

/-! ## The barrier -/


/-- A run of load requests raises the counter by their number. -/
theorem loadAll_counter (urls : List Str) (s : State) :
    (loadAll s urls).loadingAsyncExtensions = s.loadingAsyncExtensions + urls.length ∧
    (loadAll s urls)._gandiExternalExtensionServicesLoaded =
      s._gandiExternalExtensionServicesLoaded := by
  induction urls generalizing s with
  | nil => simp [loadAll]
  | cons u us ih =>
    rw [loadAll_cons]
    obtain ⟨h1, h2⟩ := ih (loadExtensionURLInWorker s u).state
    rw [h1, h2]
    simp [loadExtensionURLInWorker, State.log]
    omega

/-- Allocation leaves the counter, the waiters, the flag of the catalogs and the log as
they are. -/
theorem allocateWorker_waiters (s : State) :
    (allocateWorker s).state.loadingAsyncExtensions = s.loadingAsyncExtensions ∧
    (allocateWorker s).state.asyncExtensionsLoadedCallbacks = s.asyncExtensionsLoadedCallbacks ∧
    (allocateWorker s).state._gandiExternalExtensionServicesLoaded =
      s._gandiExternalExtensionServicesLoaded ∧
    (allocateWorker s).state.effects = s.effects := by
  cases hq : s.pendingExtensions <;> simp [allocateWorker, hq]

/-- Initialisation without error leaves the counter and the waiters as they are, and
releases no waiter. -/
theorem onWorkerInit_waiters (s : State) (id : Nat) :
    (onWorkerInit s id false).state.loadingAsyncExtensions = s.loadingAsyncExtensions ∧
    (onWorkerInit s id false).state.asyncExtensionsLoadedCallbacks =
      s.asyncExtensionsLoadedCallbacks ∧
    ∃ added, (onWorkerInit s id false).state.effects = s.effects ++ added ∧
      ∀ w, Effect.resolveWaiter w ∉ added := by
  unfold onWorkerInit
  simp only [Bool.false_eq_true, if_false]
  split
  · next info _ =>
    obtain ⟨added, h1, h2⟩ := settle_added
      { s with pendingWorkers := Dict.delete s.pendingWorkers id } info.request
      (.resolve info.request) (by intro w h; cases h)
    refine ⟨(settle_fields _ _ _).1, (settle_fields _ _ _).2.1, added, h1, h2⟩
  · exact ⟨rfl, rfl, [], by simp, by simp⟩

/-- What an event other than a completion does, when it is an allocation or an
initialisation without error. -/
theorem step_quiet (s : State) (e : Event) (he : e.isProgress = true) (hne : e ≠ .finished) :
    (step s e).loadingAsyncExtensions = s.loadingAsyncExtensions ∧
    (step s e).asyncExtensionsLoadedCallbacks = s.asyncExtensionsLoadedCallbacks ∧
    ∃ added, (step s e).effects = s.effects ++ added ∧
      ∀ w, Effect.resolveWaiter w ∉ added := by
  cases e with
  | load u => simp [Event.isProgress] at he
  | allocate =>
    obtain ⟨h1, h2, _, h4⟩ := allocateWorker_waiters s
    exact ⟨h1, h2, [], by simp [step, h4], by simp⟩
  | init id e =>
    cases e
    · exact onWorkerInit_waiters s id
    · simp [Event.isProgress] at he
  | finished => exact absurd rfl hne
  | failed => simp [Event.isProgress] at he

theorem run_cons (s : State) (e : Event) (es : List Event) :
    run s (e :: es) = run (step s e) es := rfl

theorem completions_cons (e : Event) (es : List Event) :
    completions (e :: es) = (if e = .finished then 1 else 0) + completions es := by
  unfold completions
  rw [List.countP_cons]
  by_cases h : e = .finished
  · simp [h]; omega
  · simp [h]

/-- While fewer completions have run than loads are outstanding, no waiter is released. -/
theorem run_before (es : List Event) (s : State) (hes : ∀ e ∈ es, e.isProgress = true)
    (hlt : (completions es : Int) < s.loadingAsyncExtensions) :
    (run s es).loadingAsyncExtensions = s.loadingAsyncExtensions - completions es ∧
    (run s es).asyncExtensionsLoadedCallbacks = s.asyncExtensionsLoadedCallbacks ∧
    ∃ added, (run s es).effects = s.effects ++ added ∧
      ∀ w, Effect.resolveWaiter w ∉ added := by
  induction es generalizing s with
  | nil => exact ⟨by simp [run, completions], rfl, [], by simp [run], by simp⟩
  | cons e es ih =>
    rw [run_cons]
    rw [completions_cons] at hlt ⊢
    have hes' : ∀ x ∈ es, x.isProgress = true := fun x hx => hes x (List.mem_cons_of_mem _ hx)
    by_cases hfin : e = .finished
    · subst hfin
      simp only [if_true] at hlt ⊢
      have hstep : step s .finished =
          { s with loadingAsyncExtensions := s.loadingAsyncExtensions - 1 } := by
        simp only [step, _finishedLoadingExtensionScript]
        rw [if_neg]
        push_cast at hlt
        omega
      rw [hstep]
      obtain ⟨h1, h2, added, h3, h4⟩ := ih
        { s with loadingAsyncExtensions := s.loadingAsyncExtensions - 1 } hes'
        (by simp only; push_cast at hlt; omega)
      refine ⟨?_, h2, added, h3, h4⟩
      rw [h1]
      push_cast
      omega
    · simp only [if_neg hfin] at hlt ⊢
      obtain ⟨q1, q2, a1, q3, q4⟩ := step_quiet s e (hes e (List.mem_cons_self _ _)) hfin
      obtain ⟨h1, h2, a2, h3, h4⟩ := ih (step s e) hes' (by rw [q1]; simpa using hlt)
      refine ⟨by rw [h1, q1]; simp, by rw [h2, q2], a1 ++ a2, by rw [h3, q3]; simp, ?_⟩
      intro w hw
      rcases List.mem_append.1 hw with h | h
      · exact q4 w h
      · exact h4 w h

/-- Allocations, initialisations without error and completions only add to the log,
and register no waiter. -/
theorem run_progress (es : List Event) (s : State) (hes : ∀ e ∈ es, e.isProgress = true) :
    (∃ added, (run s es).effects = s.effects ++ added) ∧
    (s.asyncExtensionsLoadedCallbacks = [] →
      (run s es).asyncExtensionsLoadedCallbacks = []) := by
  induction es generalizing s with
  | nil => exact ⟨⟨[], by simp [run]⟩, fun h => h⟩
  | cons e es ih =>
    rw [run_cons]
    have hes' : ∀ x ∈ es, x.isProgress = true := fun x hx => hes x (List.mem_cons_of_mem _ hx)
    obtain ⟨⟨a2, h3⟩, h4⟩ := ih (step s e) hes'
    by_cases hfin : e = .finished
    · subst hfin
      have hstep : (∃ a1, (step s .finished).effects = s.effects ++ a1) ∧
          (s.asyncExtensionsLoadedCallbacks = [] →
            (step s .finished).asyncExtensionsLoadedCallbacks = []) := by
        simp only [step, _finishedLoadingExtensionScript]
        split
        · exact ⟨⟨_, rfl⟩, fun _ => rfl⟩
        · exact ⟨⟨[], by simp⟩, fun h => h⟩
      obtain ⟨⟨a1, q3⟩, q4⟩ := hstep
      exact ⟨⟨a1 ++ a2, by rw [h3, q3]; simp⟩, fun h => h4 (q4 h)⟩
    · obtain ⟨_, q2, a1, q3, _⟩ := step_quiet s e (hes e (List.mem_cons_self _ _)) hfin
      exact ⟨⟨a1 ++ a2, by rw [h3, q3]; simp⟩, fun h => h4 (by rw [q2]; exact h)⟩

/-- Once as many completions have run as loads were outstanding, every waiter has been
released, and the list of waiters is empty. -/
theorem run_after (es : List Event) (s : State) (hes : ∀ e ∈ es, e.isProgress = true)
    (hpos : 0 < s.loadingAsyncExtensions)
    (hge : s.loadingAsyncExtensions ≤ (completions es : Int)) :
    (run s es).asyncExtensionsLoadedCallbacks = [] ∧
    ∃ added, (run s es).effects = s.effects ++ added ∧
      ∀ w ∈ s.asyncExtensionsLoadedCallbacks, Effect.resolveWaiter w ∈ added := by
  induction es generalizing s with
  | nil => simp [completions] at hge; omega
  | cons e es ih =>
    rw [run_cons]
    rw [completions_cons] at hge
    have hes' : ∀ x ∈ es, x.isProgress = true := fun x hx => hes x (List.mem_cons_of_mem _ hx)
    by_cases hfin : e = .finished
    · subst hfin
      simp only [if_true] at hge
      by_cases hone : s.loadingAsyncExtensions - 1 = 0
      · have hstep : step s .finished =
            { s with
              loadingAsyncExtensions := s.loadingAsyncExtensions - 1,
              effects := s.effects ++ s.asyncExtensionsLoadedCallbacks.map .resolveWaiter,
              asyncExtensionsLoadedCallbacks := [] } := by
          simp only [step, _finishedLoadingExtensionScript]
          rw [if_pos hone]
        rw [hstep]
        obtain ⟨⟨a2, h3⟩, h4⟩ := run_progress es
          { s with
            loadingAsyncExtensions := s.loadingAsyncExtensions - 1,
            effects := s.effects ++ s.asyncExtensionsLoadedCallbacks.map .resolveWaiter,
            asyncExtensionsLoadedCallbacks := [] } hes'
        refine ⟨h4 rfl, s.asyncExtensionsLoadedCallbacks.map .resolveWaiter ++ a2,
          by rw [h3]; simp, ?_⟩
        intro w hw
        exact List.mem_append_left _ (List.mem_map_of_mem _ hw)
      · have hstep : step s .finished =
            { s with loadingAsyncExtensions := s.loadingAsyncExtensions - 1 } := by
          simp only [step, _finishedLoadingExtensionScript]
          rw [if_neg hone]
        rw [hstep]
        exact ih { s with loadingAsyncExtensions := s.loadingAsyncExtensions - 1 } hes'
          (by simp only; omega) (by simp only; push_cast at hge; omega)
    · simp only [if_neg hfin] at hge
      obtain ⟨q1, q2, a1, q3, _⟩ := step_quiet s e (hes e (List.mem_cons_self _ _)) hfin
      obtain ⟨h1, a2, h3, h4⟩ := ih (step s e) hes' (by rw [q1]; exact hpos)
        (by rw [q1]; simpa using hge)
      refine ⟨h1, a1 ++ a2, by rw [h3, q3]; simp, ?_⟩
      intro w hw
      exact List.mem_append_right _ (h4 w (by rw [q2]; exact hw))

/-- Allocations, initialisations without error and completions leave the flag of the
catalogs and the count of promises as they are. -/
theorem run_flag (es : List Event) (s : State) (hes : ∀ e ∈ es, e.isProgress = true) :
    (run s es)._gandiExternalExtensionServicesLoaded =
      s._gandiExternalExtensionServicesLoaded := by
  induction es generalizing s with
  | nil => rfl
  | cons e es ih =>
    rw [run_cons, ih (step s e) fun x hx => hes x (List.mem_cons_of_mem _ hx)]
    have he := hes e (List.mem_cons_self _ _)
    cases e with
    | load u => simp [Event.isProgress] at he
    | allocate => exact (allocateWorker_waiters s).2.2.1
    | init id e =>
      cases e
      · simp only [step, onWorkerInit, Bool.false_eq_true, if_false]
        split
        · exact (settle_fields _ _ _).2.2.1
        · rfl
      · simp [Event.isProgress] at he
    | finished =>
      simp only [step, _finishedLoadingExtensionScript]
      split <;> rfl
    | failed => simp [Event.isProgress] at he

/-- With the catalogs fetched, `allAsyncExtensionsLoaded` returns at once when no load
is outstanding, and registers a new waiter otherwise. -/
theorem allAsyncExtensionsLoaded_fetched (s : State) (fetched : Bool)
    (hcatalogs : s._gandiExternalExtensionServicesLoaded = true) :
    (s.loadingAsyncExtensions = 0 → allAsyncExtensionsLoaded s fetched = ⟨s, .returned none⟩) ∧
    (s.loadingAsyncExtensions ≠ 0 → allAsyncExtensionsLoaded s fetched =
      ⟨{ s with
          nextRequest := s.nextRequest + 1,
          asyncExtensionsLoadedCallbacks := s.asyncExtensionsLoadedCallbacks ++ [s.nextRequest] },
        .returned (some s.nextRequest)⟩) := by
  constructor
  · intro h
    simp [allAsyncExtensionsLoaded, hcatalogs, Outcome.andThen, h]
  · intro h
    simp [allAsyncExtensionsLoaded, hcatalogs, Outcome.andThen, h]

/-- Claim C12, amended: let no load be outstanding and the catalogs be fetched; then
`allAsyncExtensionsLoaded` returns at once and registers no waiter.  Let N loads be
started from there, followed by allocations, initialisations without error and fewer
than N completions of `registerExtensionService` (`_finishedLoadingExtensionScript`);
then `allAsyncExtensionsLoaded` registers a new waiter.  Whatever allocations,
initialisations without error and completions follow: as long as fewer than N
completions have run in all, the waiter is still registered and has not been released;
and once N completions have run, the waiter has been released and the list of waiters
is empty. -/
theorem allAsyncExtensionsLoaded_barrier (s0 : State) (urls : List Str)
    (before after : List Event) (fetched : Bool)
    (hidle : s0.loadingAsyncExtensions = 0)
    (hcatalogs : s0._gandiExternalExtensionServicesLoaded = true)
    (hbefore : ∀ e ∈ before, e.isProgress = true)
    (hafter : ∀ e ∈ after, e.isProgress = true)
    (hout : completions before < urls.length) :
    allAsyncExtensionsLoaded s0 fetched = ⟨s0, .returned none⟩ ∧
    (allAsyncExtensionsLoaded (run (loadAll s0 urls) before) fetched).result =
      .returned (some (run (loadAll s0 urls) before).nextRequest) ∧
    (allAsyncExtensionsLoaded (run (loadAll s0 urls) before)
        fetched).state.asyncExtensionsLoadedCallbacks =
      (run (loadAll s0 urls) before).asyncExtensionsLoadedCallbacks ++
        [(run (loadAll s0 urls) before).nextRequest] ∧
    (completions before + completions after < urls.length →
      (run (loadAll s0 urls) before).nextRequest ∈
        (run (allAsyncExtensionsLoaded (run (loadAll s0 urls) before) fetched).state
          after).asyncExtensionsLoadedCallbacks ∧
      ∃ added,
        (run (allAsyncExtensionsLoaded (run (loadAll s0 urls) before) fetched).state
          after).effects =
          (allAsyncExtensionsLoaded (run (loadAll s0 urls) before) fetched).state.effects ++
            added ∧
        Effect.resolveWaiter (run (loadAll s0 urls) before).nextRequest ∉ added) ∧
    (urls.length ≤ completions before + completions after →
      (run (allAsyncExtensionsLoaded (run (loadAll s0 urls) before) fetched).state
        after).asyncExtensionsLoadedCallbacks = [] ∧
      ∃ added,
        (run (allAsyncExtensionsLoaded (run (loadAll s0 urls) before) fetched).state
          after).effects =
          (allAsyncExtensionsLoaded (run (loadAll s0 urls) before) fetched).state.effects ++
            added ∧
        Effect.resolveWaiter (run (loadAll s0 urls) before).nextRequest ∈ added) := by
  have hN : (loadAll s0 urls).loadingAsyncExtensions = urls.length := by
    rw [(loadAll_counter urls s0).1, hidle]; simp
  have hflag : (run (loadAll s0 urls) before)._gandiExternalExtensionServicesLoaded = true := by
    rw [run_flag before _ hbefore, (loadAll_counter urls s0).2, hcatalogs]
  obtain ⟨hc, hw, -⟩ := run_before before (loadAll s0 urls) hbefore
    (by rw [hN]; exact_mod_cast hout)
  rw [hN] at hc
  have hpos : (run (loadAll s0 urls) before).loadingAsyncExtensions ≠ 0 := by
    rw [hc]; omega
  have hreg := (allAsyncExtensionsLoaded_fetched (run (loadAll s0 urls) before) fetched hflag).2
    hpos
  refine ⟨(allAsyncExtensionsLoaded_fetched s0 fetched hcatalogs).1 hidle, ?_, ?_, ?_, ?_⟩
  · rw [hreg]
  · rw [hreg]
  · intro hlt
    rw [hreg]
    obtain ⟨-, h2, added, h3, h4⟩ := run_before after
      { run (loadAll s0 urls) before with
        nextRequest := (run (loadAll s0 urls) before).nextRequest + 1,
        asyncExtensionsLoadedCallbacks :=
          (run (loadAll s0 urls) before).asyncExtensionsLoadedCallbacks ++
            [(run (loadAll s0 urls) before).nextRequest] } hafter
      (by simp only; rw [hc]; omega)
    refine ⟨?_, added, h3, h4 _⟩
    rw [h2]
    simp
  · intro hge
    rw [hreg]
    obtain ⟨h1, added, h3, h4⟩ := run_after after
      { run (loadAll s0 urls) before with
        nextRequest := (run (loadAll s0 urls) before).nextRequest + 1,
        asyncExtensionsLoadedCallbacks :=
          (run (loadAll s0 urls) before).asyncExtensionsLoadedCallbacks ++
            [(run (loadAll s0 urls) before).nextRequest] } hafter
      (by simp only; rw [hc]; omega) (by simp only; rw [hc]; omega)
    exact ⟨h1, added, h3, h4 _ (by simp)⟩

/-- The amended claim C12 at a sample: two loads, a waiter registered after the first
completion, released by the second one. -/
theorem allAsyncExtensionsLoaded_barrier_witness :
    completions [Event.allocate, .finished] < ["u1".toList, "u2".toList].length ∧
    (run (allAsyncExtensionsLoaded
        (run (loadAll sampleIdle ["u1".toList, "u2".toList]) [.allocate, .finished]) true).state
      [.allocate, .init 0 false, .finished, .init 1 false]).asyncExtensionsLoadedCallbacks =
      [] :=
  ⟨by decide,
    ((allAsyncExtensionsLoaded_barrier sampleIdle ["u1".toList, "u2".toList]
      [.allocate, .finished] [.allocate, .init 0 false, .finished, .init 1 false] true
      rfl rfl (by decide) (by decide) (by decide)).2.2.2.2 (by decide)).1⟩

/-- Against claim C12 as it stands: one load is started and a waiter is registered
(promise 1).  After the only worker has been allocated and has reported its
initialisation, all N = 1 init signals have been observed, but the waiter is still
registered and has not been released; the same holds when the worker reports an
error. -/
theorem allAsyncExtensionsLoaded_not_released_by_init :
    (allAsyncExtensionsLoaded (loadAll sampleIdle ["u1".toList]) true).result =
      .returned (some 1) ∧
    (run (allAsyncExtensionsLoaded (loadAll sampleIdle ["u1".toList]) true).state
      [.allocate, .init 0 false]).asyncExtensionsLoadedCallbacks = [1] ∧
    Effect.resolveWaiter 1 ∉
      (run (allAsyncExtensionsLoaded (loadAll sampleIdle ["u1".toList]) true).state
        [.allocate, .init 0 false]).effects ∧
    (run (allAsyncExtensionsLoaded (loadAll sampleIdle ["u1".toList]) true).state
      [.allocate, .init 0 true]).asyncExtensionsLoadedCallbacks = [1] ∧
    Effect.resolveWaiter 1 ∉
      (run (allAsyncExtensionsLoaded (loadAll sampleIdle ["u1".toList]) true).state
        [.allocate, .init 0 true]).effects := by
  decide

/-! ## Normalisation of descriptors -/

/-- The class of line 622 holds the ASCII letters and digits, the underscore, the dot and
the hyphen. -/
theorem validIdChar_iff (c : Char) : validIdChar c = true ↔ IdChar c := by
  simp only [validIdChar, IdChar, Char.isAlphanum, Char.isAlpha, Char.isUpper, Char.isLower,
    Char.isDigit, Bool.or_eq_true, Bool.and_eq_true, decide_eq_true_eq, ge_iff_le]
  have e1 : ∀ a b : Char, a ≤ b ↔ a.val ≤ b.val := fun a b => Iff.rfl
  simp only [e1]
  have : ('a' : Char).val = 97 := rfl
  have : ('z' : Char).val = 122 := rfl
  have : ('A' : Char).val = 65 := rfl
  have : ('Z' : Char).val = 90 := rfl
  have : ('0' : Char).val = 48 := rfl
  have : ('9' : Char).val = 57 := rfl
  simp only [*]
  tauto

/-- The test of line 622 finds a character outside the class. -/
theorem hasInvalidIdChar_iff (id : Str) :
    hasInvalidIdChar id = true ↔ ∃ c ∈ id, ¬ IdChar c := by
  simp only [hasInvalidIdChar, List.any_eq_true, Bool.not_eq_true', ← validIdChar_iff,
    Bool.not_eq_true]

theorem hasInvalidIdChar_eq_false (id : Str) (h : ∀ c ∈ id, IdChar c) :
    hasInvalidIdChar id = false := by
  cases hb : hasInvalidIdChar id
  · rfl
  · obtain ⟨c, hc, hn⟩ := (hasInvalidIdChar_iff id).1 hb
    exact absurd (h c hc) hn

/-- Claim C15, amended: `_prepareExtensionInfo` throws 'Invalid extension id' if and
only if the id holds a character that is not an ASCII letter, a digit, an underscore, a
dot or a hyphen; for every other id, the empty one included, it returns a descriptor. -/
theorem _prepareExtensionInfo_id (s : State) (serviceName : Str) (extensionInfo : ExtensionInfo) :
    ((_prepareExtensionInfo s serviceName extensionInfo).result = .thrown .invalidExtensionId ↔
      ∃ c ∈ extensionInfo.id, ¬ IdChar c) ∧
    ((∀ c ∈ extensionInfo.id, IdChar c) →
      ∃ prepared, (_prepareExtensionInfo s serviceName extensionInfo).result =
        .returned prepared) := by
  rw [← hasInvalidIdChar_iff]
  constructor
  · unfold _prepareExtensionInfo
    cases hb : hasInvalidIdChar extensionInfo.id <;> simp
  · intro h
    exact _prepareExtensionInfo_ok s serviceName extensionInfo (hasInvalidIdChar_eq_false _ h)

/-- Against claim C15 as it stands: the empty id, which does not match
`[A-Za-z0-9_.-]+`, is accepted; the normaliser returns a descriptor for it. -/
theorem _prepareExtensionInfo_empty_id :
    (_prepareExtensionInfo State.initial "extension_0_".toList
      { id := "".toList, blocks := none }).result =
      .returned
        ({ id := [], blocks := some [], name := some [], targetTypes := some [],
            menus := some [] } : ExtensionInfo) := by
  decide

/-- The block list is the input list with the separators as they are, every other entry
in its prepared form, and the entries whose preparation throws left out. -/
theorem prepareBlocks_eq_filterMap (s : State) (serviceName : Str) (blocks : List BlockEntry) :
    (prepareBlocks s serviceName blocks).2 = blocks.filterMap fun blockInfo =>
      if isSeparator blockInfo then some blockInfo
      else (_prepareBlockInfo s serviceName blockInfo).result.value? := by
  induction blocks with
  | nil => rfl
  | cons b rest ih =>
    unfold prepareBlocks
    simp only [List.filterMap_cons]
    by_cases hsep : isSeparator b = true
    · simp [hsep, ih]
    · simp only [hsep, Bool.false_eq_true, if_false]
      cases hres : (_prepareBlockInfo s serviceName b).result with
      | returned r => simp [Completion.value?, ih]
      | thrown e => simp [Completion.value?, ih]

/-- A property that the description does not have with the value `undefined` gets the
supplied value, or else the default. -/
theorem assigned_of_not_mem {α : Type} (undefinedProperties : List Str) (name : Str)
    (value : Option α) (fallback : α) (h : name ∉ undefinedProperties) :
    assigned undefinedProperties name value fallback = some (value.getD fallback) := by
  cases value <;> simp [assigned, h]

/-- With the service bound, preparing an entry throws exactly when the entry needs an
opcode and has none. -/
theorem _prepareBlockInfo_throws_iff (s : State) (serviceName : Str) (blockInfo : BlockEntry)
    (hbound : Dict.get s.services serviceName ≠ none) :
    (∃ e, (_prepareBlockInfo s serviceName blockInfo).result = .thrown e) ↔
      MissingOpcode blockInfo := by
  cases blockInfo with
  | str t => simp [_prepareBlockInfo, MissingOpcode, BlockEntry.blockType, BlockEntry.opcode, truthyOpt]
  | block b =>
    obtain ⟨opcode, blockType, text, func, terminal, blockAllThreads, arguments, isDynamic, xml,
      callFunc, other, undefinedProperties⟩ := b
    simp only [_prepareBlockInfo, MissingOpcode, BlockEntry.blockType, BlockEntry.opcode,
      assigned]
    cases hsvc : Dict.get s.services serviceName with
    | none => exact absurd hsvc hbound
    | some service =>
      cases service <;> cases blockType with
      | none =>
        by_cases hm : "blockType".toList ∈ undefinedProperties <;>
          cases ho : truthyOpt opcode <;> simp [_isRemoteService, hsvc, ho, hm]
      | some k => cases k <;> cases ho : truthyOpt opcode <;> simp [_isRemoteService, hsvc, ho]

/-- The descriptor that `_prepareExtensionInfo` returns for an id without invalid
character. -/
theorem _prepareExtensionInfo_valid (s : State) (serviceName : Str)
    (extensionInfo : ExtensionInfo) (h : hasInvalidIdChar extensionInfo.id = false) :
    (_prepareExtensionInfo s serviceName extensionInfo).result =
      .returned { extensionInfo with
        warningTipText :=
          if !decide (extensionInfo.id ∈ scratchExtension) && s.showCompatibilityWarning then
            if truthyOpt extensionInfo.warningTipText then extensionInfo.warningTipText
            else some s.compatibilityWarning
          else none,
        name :=
          if truthyOpt extensionInfo.name then extensionInfo.name else some extensionInfo.id,
        blocks := some (prepareBlocks s serviceName (extensionInfo.blocks.getD [])).2,
        targetTypes := some (extensionInfo.targetTypes.getD []),
        menus := some (_prepareMenuInfo s serviceName (extensionInfo.menus.getD [])) } := by
  unfold _prepareExtensionInfo
  rw [if_neg (by simp [h])]

/-- Claim C14: for a descriptor whose id has valid characters only and a service name
that is bound, `_prepareExtensionInfo` returns, and the block list of its result is the
supplied block list (the empty list if none is supplied) in the same order, with every
separator as it is, every other entry in the form that `_prepareBlockInfo` returns, and
the entries for which `_prepareBlockInfo` throws left out.  An entry that is no
separator is left out exactly when its kind is not XML, EVENT, BUTTON or LABEL and its
opcode is missing, that is absent or empty. -/
theorem _prepareExtensionInfo_blocks (s : State) (serviceName : Str)
    (extensionInfo : ExtensionInfo)
    (hvalid : ∀ c ∈ extensionInfo.id, IdChar c)
    (hbound : Dict.get s.services serviceName ≠ none) :
    ∃ prepared,
      (_prepareExtensionInfo s serviceName extensionInfo).result = .returned prepared ∧
      prepared.blocks = some ((extensionInfo.blocks.getD []).filterMap fun blockInfo =>
        if isSeparator blockInfo then some blockInfo
        else (_prepareBlockInfo s serviceName blockInfo).result.value?) ∧
      ∀ blockInfo, isSeparator blockInfo = false →
        ((_prepareBlockInfo s serviceName blockInfo).result.value? = none ↔
          MissingOpcode blockInfo) := by
  refine ⟨_, _prepareExtensionInfo_valid s serviceName extensionInfo
    (hasInvalidIdChar_eq_false _ hvalid), ?_, ?_⟩
  · exact congrArg some (prepareBlocks_eq_filterMap s serviceName _)
  · intro blockInfo _
    rw [← _prepareBlockInfo_throws_iff s serviceName blockInfo hbound]
    cases (_prepareBlockInfo s serviceName blockInfo).result <;> simp [Completion.value?]

/-- Claim C14 at a sample: of a command, a separator, a reporter without opcode, a
label and the string `oops`, the command, the separator and the label are kept. -/
theorem _prepareExtensionInfo_blocks_witness :
    ∃ prepared,
      (_prepareExtensionInfo sampleHosted "extension_0_m".toList sampleMixed.getInfo).result =
        .returned prepared ∧
      prepared.blocks = some
        [.block
            { opcode := some "x".toList, blockType := some .COMMAND,
              text := some "x".toList, func := some (.direct 7 (.name "x".toList) false),
              terminal := some false, blockAllThreads := some false, arguments := some [] },
          .str "---".toList,
          .block
            { blockType := some .LABEL, text := some "hello".toList,
              terminal := some false, blockAllThreads := some false, arguments := some [] }] := by
  obtain ⟨prepared, h1, h2, -⟩ := _prepareExtensionInfo_blocks sampleHosted
    "extension_0_m".toList sampleMixed.getInfo
    (by intro c hc; simp [sampleMixed] at hc; subst hc; unfold IdChar; decide) (by decide)
  refine ⟨prepared, h1, ?_⟩
  rw [h2]
  decide

/-- Claim C16, amended: for a block description that is not of kind XML, that has none
of blockType, terminal, blockAllThreads and arguments as a property with the value
`undefined`, and that either is of kind EVENT, BUTTON or LABEL or has a non-empty opcode
and a hosting service that is bound, `_prepareBlockInfo` returns a new block in which
blockType, terminal, blockAllThreads and arguments have the supplied value when one is
supplied and otherwise COMMAND, false, false and the empty object, text is the supplied
text when it is non-empty and otherwise the opcode, and opcode, isDynamic, xml and the
fields that the manager does not read are as supplied. -/
theorem _prepareBlockInfo_defaults (s : State) (serviceName : Str)
    (supplied : ExtensionBlockMetadata)
    (hkind : supplied.blockType ≠ some .XML)
    (hown : "blockType".toList ∉ supplied.undefinedProperties ∧
      "terminal".toList ∉ supplied.undefinedProperties ∧
      "blockAllThreads".toList ∉ supplied.undefinedProperties ∧
      "arguments".toList ∉ supplied.undefinedProperties)
    (hreturns : supplied.blockType = some .EVENT ∨ supplied.blockType = some .BUTTON ∨
      supplied.blockType = some .LABEL ∨
      (truthyOpt supplied.opcode = true ∧ Dict.get s.services serviceName ≠ none)) :
    ∃ prepared,
      (_prepareBlockInfo s serviceName (.block supplied)).result = .returned (.block prepared) ∧
      prepared.blockType = some (supplied.blockType.getD .COMMAND) ∧
      prepared.terminal = some (supplied.terminal.getD false) ∧
      prepared.blockAllThreads = some (supplied.blockAllThreads.getD false) ∧
      prepared.arguments = some (supplied.arguments.getD []) ∧
      prepared.text = (if truthyOpt supplied.text then supplied.text else supplied.opcode) ∧
      prepared.opcode = supplied.opcode ∧
      prepared.isDynamic = supplied.isDynamic ∧
      prepared.xml = supplied.xml ∧
      prepared.other = supplied.other := by
  obtain ⟨opcode, blockType, text, func, terminal, blockAllThreads, arguments, isDynamic, xml,
    callFunc, other, undefinedProperties⟩ := supplied
  simp only at hkind hreturns hown
  obtain ⟨h1, h2, h3, h4⟩ := hown
  simp only [_prepareBlockInfo, if_neg hkind, assigned_of_not_mem _ _ _ _ h1,
    assigned_of_not_mem _ _ _ _ h2, assigned_of_not_mem _ _ _ _ h3,
    assigned_of_not_mem _ _ _ _ h4]
  cases blockType with
  | none =>
    simp only [false_or, reduceCtorEq] at hreturns
    obtain ⟨ho, hb⟩ := hreturns
    cases hsvc : Dict.get s.services serviceName with
    | none => exact absurd hsvc hb
    | some service => cases service <;> simp [_isRemoteService, hsvc, ho]
  | some k =>
    cases k
    case XML => exact absurd rfl hkind
    case EVENT => simp
    case BUTTON => simp
    case LABEL => simp
    all_goals
      simp only [false_or, reduceCtorEq, Option.some.injEq] at hreturns
      obtain ⟨ho, hb⟩ := hreturns
      cases hsvc : Dict.get s.services serviceName with
      | none => exact absurd hsvc hb
      | some service => cases service <;> simp [_isRemoteService, hsvc, ho]

/-- The amended claim C16 at a sample: a block with the opcode `x` alone becomes a
command with the text `x`. -/
theorem _prepareBlockInfo_defaults_witness :
    ∃ prepared,
      (_prepareBlockInfo sampleHosted "extension_0_m".toList
        (.block { opcode := some "x".toList })).result = .returned (.block prepared) ∧
      prepared.blockType = some .COMMAND ∧ prepared.text = some "x".toList := by
  obtain ⟨prepared, h1, h2, -, -, -, h6, -⟩ := _prepareBlockInfo_defaults sampleHosted
    "extension_0_m".toList { opcode := some "x".toList } (by decide)
    ⟨by decide, by decide, by decide, by decide⟩
    (Or.inr (Or.inr (Or.inr ⟨by decide, by decide⟩)))
  exact ⟨prepared, h1, h2, h6⟩

/-- An own property with the value `undefined` takes the place of the default: for the
description `{opcode: 'x', blockType: undefined, terminal: undefined, arguments:
undefined}`, `_prepareBlockInfo` returns a block whose blockType, terminal and arguments
are `undefined`; blockAllThreads, which the description does not have, is false. -/
theorem _prepareBlockInfo_explicit_undefined :
    (_prepareBlockInfo sampleHosted "extension_0_m".toList
      (.block
        { opcode := some "x".toList,
          undefinedProperties :=
            ["blockType".toList, "terminal".toList, "arguments".toList] })).result =
      .returned (.block
        { opcode := some "x".toList, blockType := none, text := some "x".toList,
          func := some (.direct 7 (.name "x".toList) false),
          terminal := none, blockAllThreads := some false, arguments := none,
          undefinedProperties :=
            ["blockType".toList, "terminal".toList, "arguments".toList] }) := by
  decide

/-- Against claim C16 as it stands: for a reporter without opcode, which is neither a
separator nor of kind XML, `_prepareBlockInfo` returns no block: it throws 'Missing
opcode for block'. -/
theorem _prepareBlockInfo_missing_opcode_throws :
    isSeparator (.block { blockType := some .REPORTER, text := some "lost".toList }) = false ∧
    (_prepareBlockInfo sampleHosted "extension_0_m".toList
      (.block { blockType := some .REPORTER, text := some "lost".toList })).result =
      .thrown .missingOpcode := by
  decide

/-- Claim C17: for a descriptor whose id has valid characters only,
`_prepareExtensionInfo` returns a descriptor with the same id, with the supplied name
when it is present and non-empty and the id as name otherwise, with the prepared form
of the supplied blocks, or of the empty list when none are supplied, as blocks, with the
supplied targetTypes or the empty list, and with the prepared form of the supplied
menus, or of the empty mapping, as menus; the prepared forms of the empty list and of
the empty mapping are empty. -/
theorem _prepareExtensionInfo_defaults (s : State) (serviceName : Str)
    (extensionInfo : ExtensionInfo) (hvalid : ∀ c ∈ extensionInfo.id, IdChar c) :
    ∃ prepared,
      (_prepareExtensionInfo s serviceName extensionInfo).result = .returned prepared ∧
      prepared.id = extensionInfo.id ∧
      prepared.name =
        (if truthyOpt extensionInfo.name then extensionInfo.name else some extensionInfo.id) ∧
      prepared.blocks = some (prepareBlocks s serviceName (extensionInfo.blocks.getD [])).2 ∧
      prepared.targetTypes = some (extensionInfo.targetTypes.getD []) ∧
      prepared.menus = some (_prepareMenuInfo s serviceName (extensionInfo.menus.getD [])) ∧
      (prepareBlocks s serviceName []).2 = [] ∧
      _prepareMenuInfo s serviceName [] = [] := by
  exact ⟨_, _prepareExtensionInfo_valid s serviceName extensionInfo
    (hasInvalidIdChar_eq_false _ hvalid), rfl, rfl, rfl, rfl, rfl, rfl, rfl⟩

/-- Claim C17 at a sample: a descriptor with the id `m` and nothing else. -/
theorem _prepareExtensionInfo_defaults_witness :
    ∃ prepared,
      (_prepareExtensionInfo sampleHosted "extension_0_m".toList
        { id := "m".toList, blocks := none }).result = .returned prepared ∧
      prepared.name = some "m".toList ∧ prepared.blocks = some [] ∧
      prepared.targetTypes = some [] ∧ prepared.menus = some [] := by
  obtain ⟨prepared, h1, -, h3, h4, h5, h6, -⟩ := _prepareExtensionInfo_defaults sampleHosted
    "extension_0_m".toList { id := "m".toList, blocks := none }
    (by intro c hc; simp at hc; subst hc; unfold IdChar; decide)
  exact ⟨prepared, h1, h3, h4, h5, h6⟩

/-! ## Call wrappers and menus -/

/-- Claim C18: for a block of a callable kind with an opcode whose service is hosted
by a worker, `_prepareBlockInfo` returns a block whose function is the wrapper over
`dispatch.call`, which passes the answer through the coercion of lines 824-836.  The
coerced result is always a number, a string or a boolean; a result of one of these
three types is returned unchanged; coercing twice gives the same as coercing once; and
`undefined`, `null` and an object are returned as their string forms. -/
theorem _prepareBlockInfo_remote (s : State) (serviceName : Str) (worker : Nat)
    (supplied : ExtensionBlockMetadata)
    (hremote : Dict.get s.services serviceName = some (.remoteWorker worker))
    (hxml : supplied.blockType ≠ some .XML) (hevent : supplied.blockType ≠ some .EVENT)
    (hbutton : supplied.blockType ≠ some .BUTTON) (hlabel : supplied.blockType ≠ some .LABEL)
    (hopcode : truthyOpt supplied.opcode = true) :
    (∃ prepared,
      (_prepareBlockInfo s serviceName (.block supplied)).result = .returned (.block prepared) ∧
      prepared.func = some (.remote serviceName (funcNameOf supplied.func supplied.opcode)
        (decide (supplied.isDynamic = some true)))) ∧
    (∀ result : JSValue,
      (coerceResult result).typeof ∈ ["number".toList, "string".toList, "boolean".toList] ∧
      (result.typeof ∈ ["number".toList, "string".toList, "boolean".toList] →
        coerceResult result = result) ∧
      coerceResult (coerceResult result) = coerceResult result) ∧
    coerceResult .undefined = .string "undefined".toList ∧
    coerceResult .null = .string "null".toList ∧
    ∀ shown, coerceResult (.object shown) = .string shown := by
  refine ⟨?_, ?_, rfl, rfl, fun _ => rfl⟩
  · obtain ⟨opcode, blockType, text, func, terminal, blockAllThreads, arguments, isDynamic, xml,
      callFunc, other, undefinedProperties⟩ := supplied
    simp only at hxml hevent hbutton hlabel hopcode
    simp only [_prepareBlockInfo, if_neg hxml, assigned]
    cases blockType with
    | none =>
      by_cases hm : "blockType".toList ∈ undefinedProperties <;>
        simp [_isRemoteService, hremote, hopcode, hm]
    | some k =>
      cases k
      case XML => exact absurd rfl hxml
      case EVENT => exact absurd rfl hevent
      case BUTTON => exact absurd rfl hbutton
      case LABEL => exact absurd rfl hlabel
      all_goals simp [_isRemoteService, hremote, hopcode]
  · intro result
    cases result <;> simp [coerceResult, JSValue.typeof]

/-- Claim C18 at a sample: a reporter `x` of a service that a worker hosts. -/
theorem _prepareBlockInfo_remote_witness :
    ∃ prepared,
      (_prepareBlockInfo sampleWorker "worker_0_w".toList
        (.block { opcode := some "x".toList, blockType := some .REPORTER })).result =
        .returned (.block prepared) ∧
      prepared.func = some (.remote "worker_0_w".toList (.name "x".toList) false) :=
  (_prepareBlockInfo_remote sampleWorker "worker_0_w".toList 0
    { opcode := some "x".toList, blockType := some .REPORTER } (by decide) (by decide)
    (by decide) (by decide) (by decide) (by decide)).1

/-- The menu that `_prepareMenuInfo` leaves under a name is the prepared form of the one
supplied under it. -/
theorem get_prepareMenuInfo (s : State) (serviceName : Str) (menus : Dict Str MenuValue)
    (menuName : Str) :
    Dict.get (_prepareMenuInfo s serviceName menus) menuName =
      (Dict.get menus menuName).map (prepareMenu s serviceName) := by
  induction menus with
  | nil => rfl
  | cons entry rest ih =>
    obtain ⟨k, v⟩ := entry
    unfold _prepareMenuInfo at ih ⊢
    rw [List.map_cons, Dict.get_cons, Dict.get_cons, ih]
    split <;> rfl

/-- Claim C19, amended: for a short-form menu given as a literal list of items, the
normalised menu is the object whose `items` is that same list, every item as it was
supplied. -/
theorem _prepareMenuInfo_literal (s : State) (serviceName : Str) (menus : Dict Str MenuValue)
    (menuName : Str) (items : List MenuItem)
    (hshort : Dict.get menus menuName = some (.array items)) :
    Dict.get (_prepareMenuInfo s serviceName menus) menuName =
      some (.object (.array items) none) := by
  rw [get_prepareMenuInfo, hshort]
  rfl

/-- The amended claim C19 at a sample: the short-form menu `['a','b']`. -/
theorem _prepareMenuInfo_literal_witness :
    Dict.get (_prepareMenuInfo State.initial "extension_0_m".toList
      [("m".toList, .array [.string "a".toList, .string "b".toList])]) "m".toList =
      some (.object (.array [.string "a".toList, .string "b".toList]) none) :=
  _prepareMenuInfo_literal State.initial "extension_0_m".toList
    [("m".toList, .array [.string "a".toList, .string "b".toList])] "m".toList
    [.string "a".toList, .string "b".toList] (by decide)

/-- Against claim C19 as it stands: the short-form menu `['a','b']` normalises to the
items `['a','b']`, which are strings and not the pairs `[['a','a'],['b','b']]`. -/
theorem _prepareMenuInfo_keeps_strings :
    _prepareMenuInfo State.initial "extension_0_m".toList
      [("m".toList, .array [.string "a".toList, .string "b".toList])] =
      [("m".toList, .object (.array [.string "a".toList, .string "b".toList]) none)] ∧
    _prepareMenuInfo State.initial "extension_0_m".toList
      [("m".toList, .array [.string "a".toList, .string "b".toList])] ≠
      [("m".toList, .object (.array [.array (.string "a".toList) (.string "a".toList),
        .array (.string "b".toList) (.string "b".toList)]) none)] := by
  decide

/-- The call of `map` keeps the number of items. -/
theorem length_convertMenuItems (format : Message → Str) (items : List MenuItem)
    (entries : List MenuEntry) (h : convertMenuItems format items = .returned entries) :
    entries.length = items.length := by
  induction items generalizing entries with
  | nil =>
    simp only [convertMenuItems, Completion.returned.injEq] at h
    subst h
    rfl
  | cons item rest ih =>
    unfold convertMenuItems at h
    cases h1 : convertMenuItem format item with
    | thrown e => rw [h1] at h; cases h
    | returned entry =>
      cases h2 : convertMenuItems format rest with
      | thrown e => rw [h1, h2] at h; cases h
      | returned tail =>
        rw [h1, h2] at h
        simp only [Completion.returned.injEq] at h
        rw [← h, List.length_cons, List.length_cons, ih tail h2]

/-- The call of `map` throws nothing but a `TypeError`. -/
theorem convertMenuItems_ne_noMenuItems (format : Message → Str) (items : List MenuItem)
    (name : Str) : convertMenuItems format items ≠ .thrown (.noMenuItems name) := by
  induction items with
  | nil => simp [convertMenuItems]
  | cons item rest ih =>
    unfold convertMenuItems
    cases h1 : convertMenuItem format item with
    | thrown e =>
      simp only
      intro h
      cases item <;> simp [convertMenuItem] at h1
      · split at h1 <;> cases h1
      · rename_i v
        cases v <;> simp [convertMenuItem] at h1
        rw [← h1] at h
        cases h
    | returned entry =>
      simp only
      cases h2 : convertMenuItems format rest with
      | thrown e => simp only; intro h; rw [h2] at ih; exact ih h
      | returned tail => simp

/-- Claim C20, amended: for a generator method of the extension object, opening the
menu throws 'Extension menu returned no items' if and only if the generator yields no
items for the target being edited and no extra items are registered under the name of
the generator; so it does not throw that error when the generator yields an item. -/
theorem _getExtensionMenuItems_no_items (s : State) (format : Message → Str)
    (extensionObject : ExtensionInstance) (menuItemFunctionName : Str) (menuFunc : MenuGenerator)
    (hfunc : Dict.get extensionObject.menuMethods menuItemFunctionName = some menuFunc) :
    (_getExtensionMenuItems s format (some extensionObject) menuItemFunctionName =
        .thrown (.noMenuItems menuItemFunctionName) ↔
      menuFunc.call (editingTargetID s) = [] ∧
        (Dict.get s.dynamicMenuItems menuItemFunctionName).getD [] = []) ∧
    (menuFunc.call (editingTargetID s) ≠ [] →
      _getExtensionMenuItems s format (some extensionObject) menuItemFunctionName ≠
        .thrown (.noMenuItems menuItemFunctionName)) := by
  have key : _getExtensionMenuItems s format (some extensionObject) menuItemFunctionName =
        .thrown (.noMenuItems menuItemFunctionName) ↔
      menuFunc.call (editingTargetID s) = [] ∧
        (Dict.get s.dynamicMenuItems menuItemFunctionName).getD [] = [] := by
    simp only [_getExtensionMenuItems, hfunc]
    rw [← List.append_eq_nil]
    cases hc : convertMenuItems format (menuFunc.call (editingTargetID s) ++
        (Dict.get s.dynamicMenuItems menuItemFunctionName).getD []) with
    | thrown e =>
      simp only
      constructor
      · intro h
        rw [h] at hc
        exact absurd hc (convertMenuItems_ne_noMenuItems _ _ _)
      · intro h
        rw [h] at hc
        simp [convertMenuItems] at hc
    | returned entries =>
      have hlen := length_convertMenuItems _ _ _ hc
      simp only
      constructor
      · intro h
        split at h
        · rw [← List.length_eq_zero]; omega
        · cases h
      · intro h
        rw [h] at hlen
        simp at hlen
        simp [hlen]
  refine ⟨key, fun hne h => hne (key.1 h).1⟩

/-- The amended claim C20 at a sample: the generator `gen` yields nothing, and no extra
items are registered. -/
theorem _getExtensionMenuItems_no_items_witness :
    _getExtensionMenuItems State.initial Message.default (some sampleMenus) "gen".toList =
      .thrown (.noMenuItems "gen".toList) :=
  (_getExtensionMenuItems_no_items State.initial Message.default sampleMenus "gen".toList
    { otherwise := [] } (by decide)).1.2 ⟨by decide, by decide⟩

/-- Against claim C20 as it stands: the generator `gen` yields zero items and the extra
item `x` is registered under its name; opening the menu throws nothing and returns the
pair made of `x`. -/
theorem _getExtensionMenuItems_extra_items :
    Dict.get sampleMenus.menuMethods "gen".toList = some { otherwise := [] } ∧
    MenuGenerator.call { otherwise := [] } (editingTargetID sampleDynamic) = [] ∧
    _getExtensionMenuItems sampleDynamic Message.default (some sampleMenus) "gen".toList =
      .returned [.pair (.string "x".toList) (.string "x".toList)] := by
  decide

/-! ## Menu items -/

/-- When the call of `map` returns, every entry is what the callback returns for the
item at its place. -/
theorem forall₂_convertMenuItems (format : Message → Str) (items : List MenuItem)
    (entries : List MenuEntry) (h : convertMenuItems format items = .returned entries) :
    List.Forall₂ (fun item entry => convertMenuItem format item = .returned entry)
      items entries := by
  induction items generalizing entries with
  | nil =>
    simp only [convertMenuItems, Completion.returned.injEq] at h
    subst h
    exact List.Forall₂.nil
  | cons item rest ih =>
    unfold convertMenuItems at h
    cases h1 : convertMenuItem format item with
    | thrown e => rw [h1] at h; cases h
    | returned entry =>
      cases h2 : convertMenuItems format rest with
      | thrown e => rw [h1, h2] at h; cases h
      | returned tail =>
        rw [h1, h2] at h
        simp only [Completion.returned.injEq] at h
        subst h
        exact List.Forall₂.cons h1 (ih tail h2)

/-- The callback of `map` returns for every item but `null`. -/
theorem convertMenuItem_returns (format : Message → Str) (item : MenuItem)
    (h : item ≠ .other .null) : ∃ entry, convertMenuItem format item = .returned entry := by
  cases item with
  | string t => exact ⟨_, rfl⟩
  | message m =>
    by_cases hm : m.localizable = true
    · exact ⟨.pair (.string (format m)) (.string (format m)), by simp [convertMenuItem, hm]⟩
    · exact ⟨.pair .undefined .undefined, by simp [convertMenuItem, hm]⟩
  | object text value => exact ⟨_, rfl⟩
  | array text value => exact ⟨_, rfl⟩
  | other v =>
    cases v with
    | null => exact absurd rfl h
    | undefined => exact ⟨_, rfl⟩
    | boolean b => exact ⟨_, rfl⟩
    | number n => exact ⟨_, rfl⟩
    | string t => exact ⟨_, rfl⟩
    | object o => exact ⟨_, rfl⟩

/-- The call of `map` returns when no item is `null`. -/
theorem convertMenuItems_returns (format : Message → Str) (items : List MenuItem)
    (h : ∀ item ∈ items, item ≠ .other .null) :
    ∃ entries, convertMenuItems format items = .returned entries := by
  induction items with
  | nil => exact ⟨[], rfl⟩
  | cons item rest ih =>
    obtain ⟨entry, h1⟩ := convertMenuItem_returns format item (h item (List.mem_cons_self _ _))
    obtain ⟨tail, h2⟩ := ih fun x hx => h x (List.mem_cons_of_mem _ hx)
    exact ⟨entry :: tail, by unfold convertMenuItems; rw [h1, h2]⟩

/-- Claim C21, amended: for a generator method of the extension object, when the
resolver returns, its result has as many entries as the generator yields items and extra
items are registered under its name together, and the entries are, in that order, what
the callback of lines 739-755 makes of the generator's items followed by the extra
items; the resolver returns whenever there is at least one item and none is `null`.  A
bare string `s` becomes the pair `[s, s]`, an item `{text, value}` the pair of its text,
formatted when it is a localisable message, and its value, and a localisable message the
pair of its formatted text twice; `undefined`, a boolean and a number are passed through
as they are, and are no pairs. -/
theorem _getExtensionMenuItems_entries (s : State) (format : Message → Str)
    (extensionObject : ExtensionInstance) (menuItemFunctionName : Str) (menuFunc : MenuGenerator)
    (hfunc : Dict.get extensionObject.menuMethods menuItemFunctionName = some menuFunc) :
    (∀ entries,
      _getExtensionMenuItems s format (some extensionObject) menuItemFunctionName =
        .returned entries →
      entries.length = (menuFunc.call (editingTargetID s)).length +
        ((Dict.get s.dynamicMenuItems menuItemFunctionName).getD []).length ∧
      List.Forall₂ (fun item entry => convertMenuItem format item = .returned entry)
        (menuFunc.call (editingTargetID s) ++
          (Dict.get s.dynamicMenuItems menuItemFunctionName).getD []) entries) ∧
    (menuFunc.call (editingTargetID s) ++
        (Dict.get s.dynamicMenuItems menuItemFunctionName).getD [] ≠ [] →
      (∀ item ∈ menuFunc.call (editingTargetID s) ++
        (Dict.get s.dynamicMenuItems menuItemFunctionName).getD [], item ≠ .other .null) →
      ∃ entries, _getExtensionMenuItems s format (some extensionObject) menuItemFunctionName =
        .returned entries) ∧
    (∀ item : Str, convertMenuItem format (.string item) =
      .returned (.pair (.string item) (.string item))) ∧
    (∀ text value, convertMenuItem format (.object (.value text) value) =
      .returned (.pair text value)) ∧
    (∀ m value, m.localizable = true →
      convertMenuItem format (.object (.message m) value) =
        .returned (.pair (.string (format m)) value)) ∧
    (∀ m, m.localizable = true →
      convertMenuItem format (.message m) =
        .returned (.pair (.string (format m)) (.string (format m)))) ∧
    convertMenuItem format (.other .undefined) = .returned (.bare .undefined) ∧
    (∀ b, convertMenuItem format (.other (.boolean b)) = .returned (.bare (.boolean b))) ∧
    (∀ bits, convertMenuItem format (.other (.number bits)) =
      .returned (.bare (.number bits))) := by
  refine ⟨?_, ?_, fun _ => rfl, fun _ _ => rfl, ?_, ?_, rfl, fun _ => rfl, fun _ => rfl⟩
  · intro entries h
    simp only [_getExtensionMenuItems, hfunc] at h
    cases hc : convertMenuItems format (menuFunc.call (editingTargetID s) ++
        (Dict.get s.dynamicMenuItems menuItemFunctionName).getD []) with
    | thrown e => rw [hc] at h; cases h
    | returned converted =>
      rw [hc] at h
      simp only at h
      split at h
      · cases h
      · simp only [Completion.returned.injEq] at h
        subst h
        refine ⟨?_, forall₂_convertMenuItems _ _ _ hc⟩
        rw [length_convertMenuItems _ _ _ hc, List.length_append]
  · intro hne hnull
    obtain ⟨entries, hc⟩ := convertMenuItems_returns format _ hnull
    have hlen := length_convertMenuItems _ _ _ hc
    refine ⟨entries, ?_⟩
    simp only [_getExtensionMenuItems, hfunc, hc]
    rw [if_neg]
    intro hlt
    have : (menuFunc.call (editingTargetID s) ++
        (Dict.get s.dynamicMenuItems menuItemFunctionName).getD []).length = 0 := by omega
    exact hne (List.length_eq_zero.1 this)
  · intro m value hm
    simp [convertMenuItem, hm]
  · intro m hm
    simp [convertMenuItem, hm]

/-- The amended claim C21 at a sample: the generator `two` yields `a` and `b`, and the
resolver returns two entries. -/
theorem _getExtensionMenuItems_entries_witness :
    ∃ entries,
      _getExtensionMenuItems State.initial Message.default (some sampleMenus) "two".toList =
        .returned entries ∧
      entries.length = 2 := by
  have h := _getExtensionMenuItems_entries State.initial Message.default sampleMenus
    "two".toList { otherwise := [.string "a".toList, .string "b".toList] } (by decide)
  obtain ⟨entries, he⟩ := h.2.1 (by decide) (by decide)
  exact ⟨entries, he, (h.1 entries he).1⟩

/-- Against claim C21 as it stands: the generator `count` yields the number 1 and the
string `two`; the resolver returns, and the first element of its result is the number
itself, not a pair. -/
theorem _getExtensionMenuItems_number_item :
    _getExtensionMenuItems State.initial Message.default (some sampleNumbers) "count".toList =
      .returned [.bare (.number 4607182418800017408),
        .pair (.string "two".toList) (.string "two".toList)] := by
  decide

/-! ## Idempotence of normalisation -/

/-- A wrapper is not the function it is made over. -/
theorem wrapper_ne (f : FuncValue) :
    (∀ i d, FuncValue.direct i f d ≠ f) ∧ (∀ n d, FuncValue.remote n f d ≠ f) := by
  constructor
  · intro i d h
    have := congrArg sizeOf h
    simp at this
    omega
  · intro n d h
    have := congrArg sizeOf h
    simp at this
    omega

/-- A supplied value is kept. -/
theorem assigned_some {α : Type} (undefinedProperties : List Str) (name : Str) (v fallback : α) :
    assigned undefinedProperties name (some v) fallback = some v := rfl

/-- Filling in the defaults a second time changes nothing. -/
theorem assigned_assigned {α : Type} (undefinedProperties : List Str) (name : Str)
    (value : Option α) (fallback : α) :
    assigned undefinedProperties name (assigned undefinedProperties name value fallback)
      fallback = assigned undefinedProperties name value fallback := by
  cases value with
  | some v => rfl
  | none =>
    by_cases h : name ∈ undefinedProperties <;> simp [assigned, h]

/-- Without a supplied value the property is `undefined` or the default. -/
theorem assigned_none_cases (undefinedProperties : List Str) (name : Str)
    (fallback : BlockType) :
    assigned undefinedProperties name none fallback = none ∨
      assigned undefinedProperties name none fallback = some fallback := by
  by_cases h : name ∈ undefinedProperties <;> simp [assigned, h]

set_option maxHeartbeats 1600000 in
/-- Preparing a prepared block once more returns, and changes nothing but the call
wrapper. -/
theorem _prepareBlockInfo_twice (s : State) (serviceName : Str) (blockInfo first : BlockEntry)
    (h : (_prepareBlockInfo s serviceName blockInfo).result = .returned first) :
    isSeparator first = false ∧
      RepreparedResult first (_prepareBlockInfo s serviceName first).result := by
  cases blockInfo with
  | str t => simp [_prepareBlockInfo] at h
  | block supplied =>
    obtain ⟨opcode, blockType, text, func, terminal, blockAllThreads, arguments, isDynamic, xml,
      callFunc, other, undefinedProperties⟩ := supplied
    have hw := wrapper_ne (funcNameOf func opcode)
    cases hsvc : Dict.get s.services serviceName with
    | none =>
      cases blockType with
      | none =>
        rcases assigned_none_cases undefinedProperties
            ['b', 'l', 'o', 'c', 'k', 'T', 'y', 'p', 'e'] .COMMAND with hbt | hbt <;>
        cases ho : truthyOpt opcode <;>
          simp [_prepareBlockInfo, _isRemoteService, hsvc, ho, hbt] at h
      | some k =>
        cases k <;> cases ho : truthyOpt opcode <;> cases ht : truthyOpt text <;>
          simp [_prepareBlockInfo, _isRemoteService, hsvc, ho, ht, assigned_some] at h <;>
          subst h <;>
          simp [_prepareBlockInfo, isSeparator, RepreparedResult, Reprepared,
            BlockEntry.withoutFunc, BlockEntry.wrapped, BlockEntry.func, ho, ht,
            assigned_some, assigned_assigned]
    | some service =>
      cases service with
      | localObject obj =>
        cases blockType with
        | none =>
          rcases assigned_none_cases undefinedProperties
            ['b', 'l', 'o', 'c', 'k', 'T', 'y', 'p', 'e'] .COMMAND with hbt | hbt <;>
          cases ho : truthyOpt opcode <;> cases ht : truthyOpt text <;>
            simp [_prepareBlockInfo, _isRemoteService, hsvc, ho, ht, hbt] at h <;>
            subst h <;>
            simp [_prepareBlockInfo, _isRemoteService, isSeparator, RepreparedResult, Reprepared,
              BlockEntry.withoutFunc, BlockEntry.wrapped, BlockEntry.func, hsvc, ho, ht,
              funcNameOf, FuncValue.truthy, hbt, assigned_some, assigned_assigned] <;>
            exact fun h2 => hw.1 _ _ h2
        | some k =>
          cases k <;> cases ho : truthyOpt opcode <;> cases ht : truthyOpt text <;>
            simp [_prepareBlockInfo, _isRemoteService, hsvc, ho, ht, assigned_some] at h <;>
            subst h <;>
            simp [_prepareBlockInfo, _isRemoteService, isSeparator, RepreparedResult, Reprepared,
              BlockEntry.withoutFunc, BlockEntry.wrapped, BlockEntry.func, hsvc, ho, ht,
              funcNameOf, FuncValue.truthy, assigned_some, assigned_assigned] <;>
            exact fun h2 => hw.1 _ _ h2
      | remoteWorker w =>
        cases blockType with
        | none =>
          rcases assigned_none_cases undefinedProperties
            ['b', 'l', 'o', 'c', 'k', 'T', 'y', 'p', 'e'] .COMMAND with hbt | hbt <;>
          cases ho : truthyOpt opcode <;> cases ht : truthyOpt text <;>
            simp [_prepareBlockInfo, _isRemoteService, hsvc, ho, ht, hbt] at h <;>
            subst h <;>
            simp [_prepareBlockInfo, _isRemoteService, isSeparator, RepreparedResult, Reprepared,
              BlockEntry.withoutFunc, BlockEntry.wrapped, BlockEntry.func, hsvc, ho, ht,
              funcNameOf, FuncValue.truthy, hbt, assigned_some, assigned_assigned] <;>
            exact fun h2 => hw.2 _ _ h2
        | some k =>
          cases k <;> cases ho : truthyOpt opcode <;> cases ht : truthyOpt text <;>
            simp [_prepareBlockInfo, _isRemoteService, hsvc, ho, ht, assigned_some] at h <;>
            subst h <;>
            simp [_prepareBlockInfo, _isRemoteService, isSeparator, RepreparedResult, Reprepared,
              BlockEntry.withoutFunc, BlockEntry.wrapped, BlockEntry.func, hsvc, ho, ht,
              funcNameOf, FuncValue.truthy, assigned_some, assigned_assigned] <;>
            exact fun h2 => hw.2 _ _ h2

theorem pushed_twice (s : State) (serviceName : Str) (blockInfo first : BlockEntry)
    (h : pushed s serviceName blockInfo = some first) :
    ∃ second, pushed s serviceName first = some second ∧ Reprepared first second := by
  unfold pushed at h
  by_cases hsep : isSeparator blockInfo = true
  · simp only [hsep, if_true, Option.some.injEq] at h
    subst h
    refine ⟨blockInfo, by simp [pushed, hsep], rfl, fun _ => rfl, ?_⟩
    cases blockInfo with
    | str t => simp [BlockEntry.wrapped]
    | block info => simp [isSeparator] at hsep
  · simp only [hsep, Bool.false_eq_true, if_false] at h
    cases hres : (_prepareBlockInfo s serviceName blockInfo).result with
    | thrown e => rw [hres] at h; simp [Completion.value?] at h
    | returned x =>
      rw [hres] at h
      simp only [Completion.value?, Option.some.injEq] at h
      subst h
      obtain ⟨h1, h2⟩ := _prepareBlockInfo_twice s serviceName blockInfo x hres
      cases hres2 : (_prepareBlockInfo s serviceName x).result with
      | thrown e => rw [hres2] at h2; exact absurd h2 (by simp [RepreparedResult])
      | returned y =>
        rw [hres2] at h2
        exact ⟨y, by simp [pushed, h1, hres2, Completion.value?], h2⟩

theorem filterMap_pushed_twice (s : State) (serviceName : Str) (blocks : List BlockEntry) :
    List.Forall₂ Reprepared (blocks.filterMap (pushed s serviceName))
      ((blocks.filterMap (pushed s serviceName)).filterMap (pushed s serviceName)) := by
  induction blocks with
  | nil => exact List.Forall₂.nil
  | cons b rest ih =>
    rw [List.filterMap_cons]
    cases hb : pushed s serviceName b with
    | none => exact ih
    | some x =>
      obtain ⟨y, hy, hr⟩ := pushed_twice s serviceName b x hb
      simp only
      rw [List.filterMap_cons, hy]
      exact List.Forall₂.cons hr ih

/-- Preparing a prepared block list once more. -/
theorem prepareBlocks_twice (s : State) (serviceName : Str) (blocks : List BlockEntry) :
    List.Forall₂ Reprepared (prepareBlocks s serviceName blocks).2
      (prepareBlocks s serviceName (prepareBlocks s serviceName blocks).2).2 := by
  have e : ∀ l, (prepareBlocks s serviceName l).2 = l.filterMap (pushed s serviceName) :=
    fun l => prepareBlocks_eq_filterMap s serviceName l
  rw [e, e]
  exact filterMap_pushed_twice s serviceName blocks

/-- Preparing a prepared menu once more changes nothing. -/
theorem prepareMenu_twice (s : State) (serviceName : Str) (menuInfo : MenuValue) :
    prepareMenu s serviceName (prepareMenu s serviceName menuInfo) =
      prepareMenu s serviceName menuInfo := by
  cases menuInfo with
  | array items => rfl
  | string name => rfl
  | function o n => rfl
  | bare a => rfl
  | object items a =>
    cases items with
    | array items => rfl
    | string name =>
      cases name with
      | nil => rfl
      | cons c rest => rfl
    | function o n => rfl
    | bare a2 => rfl
    | object i2 a2 => rfl

theorem _prepareMenuInfo_twice (s : State) (serviceName : Str) (menus : Dict Str MenuValue) :
    _prepareMenuInfo s serviceName (_prepareMenuInfo s serviceName menus) =
      _prepareMenuInfo s serviceName menus := by
  unfold _prepareMenuInfo
  rw [List.map_map]
  apply List.map_congr_left
  intro entry _
  simp [prepareMenu_twice]

/-- Claim C22, amended: for a descriptor whose id has valid characters only, preparing
it returns a descriptor, and preparing that descriptor once more for the same service
name returns a descriptor with the same id, name, targetTypes, warning text, menus and
other fields, and with a block list of the same length in which every entry agrees with
the entry at its place in all fields but `func`: an entry without call wrapper (a
separator, a block of kind XML, EVENT, BUTTON or LABEL) is the same, and the `func` of a
block with a call wrapper is a new wrapper, made over the first wrapper and therefore
not the same function. -/
theorem _prepareExtensionInfo_twice (s : State) (serviceName : Str)
    (extensionInfo : ExtensionInfo) (hvalid : ∀ c ∈ extensionInfo.id, IdChar c) :
    ∃ once twice blocks1 blocks2,
      (_prepareExtensionInfo s serviceName extensionInfo).result = .returned once ∧
      (_prepareExtensionInfo s serviceName once).result = .returned twice ∧
      twice.id = once.id ∧ twice.name = once.name ∧ twice.targetTypes = once.targetTypes ∧
      twice.warningTipText = once.warningTipText ∧ twice.menus = once.menus ∧
      twice.other = once.other ∧
      once.blocks = some blocks1 ∧ twice.blocks = some blocks2 ∧
      List.Forall₂ Reprepared blocks1 blocks2 := by
  have h1 := _prepareExtensionInfo_valid s serviceName extensionInfo
    (hasInvalidIdChar_eq_false _ hvalid)
  have h2 := _prepareExtensionInfo_valid s serviceName _
    (show hasInvalidIdChar ({ extensionInfo with
        warningTipText :=
          if !decide (extensionInfo.id ∈ scratchExtension) && s.showCompatibilityWarning then
            if truthyOpt extensionInfo.warningTipText then extensionInfo.warningTipText
            else some s.compatibilityWarning
          else none,
        name :=
          if truthyOpt extensionInfo.name then extensionInfo.name else some extensionInfo.id,
        blocks := some (prepareBlocks s serviceName (extensionInfo.blocks.getD [])).2,
        targetTypes := some (extensionInfo.targetTypes.getD []),
        menus := some (_prepareMenuInfo s serviceName (extensionInfo.menus.getD [])) } :
        ExtensionInfo).id = false from hasInvalidIdChar_eq_false _ hvalid)
  refine ⟨_, _, _, _, h1, h2, rfl, ?_, rfl, ?_, ?_, rfl, rfl, rfl, ?_⟩
  · simp only
    by_cases hn : truthyOpt extensionInfo.name = true
    · simp [hn]
    · simp [hn]
  · simp only
    cases hc : (!decide (extensionInfo.id ∈ scratchExtension) && s.showCompatibilityWarning)
    · simp
    · by_cases hw : truthyOpt extensionInfo.warningTipText = true
      · simp [hw]
      · simp [hw]
  · simp only [Option.getD_some]
    rw [_prepareMenuInfo_twice]
  · simp only [Option.getD_some]
    exact prepareBlocks_twice s serviceName _

/-- The amended claim C22 at a sample: the descriptor of `sampleMixed`. -/
theorem _prepareExtensionInfo_twice_witness :
    ∃ once twice,
      (_prepareExtensionInfo sampleHosted "extension_0_m".toList sampleMixed.getInfo).result =
        .returned once ∧
      (_prepareExtensionInfo sampleHosted "extension_0_m".toList once).result =
        .returned twice ∧
      twice.name = once.name ∧ twice.menus = once.menus := by
  obtain ⟨once, twice, _, _, h1, h2, _, h4, _, _, h7, _⟩ := _prepareExtensionInfo_twice
    sampleHosted "extension_0_m".toList sampleMixed.getInfo
    (by intro c hc; simp [sampleMixed] at hc; subst hc; unfold IdChar; decide)
  exact ⟨once, twice, h1, h2, h4, h7⟩

/-- Against claim C22 as it stands: preparing the descriptor with the id `m` and the
single block `x` for the service `extension_0_m` gives a command whose function is the
wrapper over the method `x`; preparing that result once more gives a command whose
function is a wrapper over that wrapper, which is another function, and logs that the
service object has no such function. -/
theorem _prepareExtensionInfo_not_idempotent :
    (_prepareExtensionInfo sampleHosted "extension_0_m".toList
      { id := "m".toList, blocks := some [.block { opcode := some "x".toList }] }).result =
      .returned sampleOnce ∧
    (_prepareExtensionInfo sampleHosted "extension_0_m".toList sampleOnce).result =
      .returned
        ({ sampleOnce with
            blocks := some [.block
              { opcode := some "x".toList, blockType := some .COMMAND,
                text := some "x".toList,
                func := some (.direct 7 (.direct 7 (.name "x".toList) false) false),
                terminal := some false, blockAllThreads := some false,
                arguments := some [] }] } : ExtensionInfo) ∧
    (_prepareExtensionInfo sampleHosted "extension_0_m".toList sampleOnce).result ≠
      .returned sampleOnce ∧
    (_prepareExtensionInfo sampleHosted "extension_0_m".toList sampleOnce).logs =
      [.warnFunctionNotFound (.direct 7 (.name "x".toList) false)] := by
  decide

/-! ## Reserved ids, the catalog and built-in extensions -/

/-- The test of `isExtensionIdReserved`. -/
theorem isExtensionIdReserved_iff (extensionId : Str) :
    isExtensionIdReserved extensionId = true ↔
      extensionId ∈ reservedExtId ∨
        ∃ r ∈ reservedExtId, ∃ rest, extensionId = r ++ ['_'] ++ rest := by
  unfold isExtensionIdReserved
  by_cases hmem : extensionId ∈ reservedExtId
  · simp [hmem]
  · simp only [hmem, decide_False, Bool.false_eq_true, if_false, false_or]
    cases hf : reservedExtId.find? fun pre => startsWith extensionId (pre ++ ['_']) with
    | none =>
      simp only [truthyOpt, Bool.false_eq_true, if_false, false_iff]
      rintro ⟨r, hr, rest, rfl⟩
      rw [List.find?_eq_none] at hf
      have := hf r hr
      rw [Bool.not_eq_true, startsWith_eq_false_iff] at this
      exact this ⟨rest, rfl⟩
    | some r =>
      have hp := List.find?_some hf
      have hm := List.mem_of_find?_eq_some hf
      rw [startsWith_iff] at hp
      obtain ⟨rest, hrest⟩ := hp
      have hne : truthyOpt (some r) = true := by
        rw [truthyOpt_some_iff]
        intro h
        subst h
        revert hm
        decide
      simp only [hne, if_true, true_iff]
      exact ⟨r, hm, rest, hrest⟩

/-- Claim C23: `isExtensionIdReserved(id)` is true if and only if the id is one of the
twelve reserved identifiers, which are control, event, looks, motion, operator, sound,
sensing, data, procedures, argument, ccw and Gandi, or starts with one of them followed
by an underscore; so it is false for the empty string and for a reserved identifier
followed by a character other than the underscore. -/
theorem isExtensionIdReserved_spec :
    (∀ extensionId : Str, isExtensionIdReserved extensionId = true ↔
      extensionId ∈ reservedExtId ∨
        ∃ r ∈ reservedExtId, ∃ rest, extensionId = r ++ ['_'] ++ rest) ∧
    reservedExtId = ["control".toList, "event".toList, "looks".toList, "motion".toList,
      "operator".toList, "sound".toList, "sensing".toList, "data".toList, "procedures".toList,
      "argument".toList, "ccw".toList, "Gandi".toList] ∧
    isExtensionIdReserved [] = false ∧
    ∀ r ∈ reservedExtId, ∀ (c : Char) (rest : Str), c ≠ '_' →
      isExtensionIdReserved (r ++ c :: rest) = false := by
  refine ⟨isExtensionIdReserved_iff, rfl, by decide, ?_⟩
  intro r hr c rest hc
  cases hres : isExtensionIdReserved (r ++ c :: rest)
  · rfl
  · exfalso
    rcases (isExtensionIdReserved_iff _).1 hres with h | ⟨r2, hr2, rest2, h⟩
    · simp only [reservedExtId, List.mem_cons, List.mem_singleton, List.not_mem_nil,
        or_false] at hr h
      rcases hr with rfl | rfl | rfl | rfl | rfl | rfl | rfl | rfl | rfl | rfl | rfl | rfl <;>
        rcases h with h | h | h | h | h | h | h | h | h | h | h | h <;>
        simp [String.toList] at h
    · simp only [reservedExtId, List.mem_cons, List.mem_singleton, List.not_mem_nil,
        or_false] at hr hr2
      rcases hr with rfl | rfl | rfl | rfl | rfl | rfl | rfl | rfl | rfl | rfl | rfl | rfl <;>
        rcases hr2 with rfl | rfl | rfl | rfl | rfl | rfl | rfl | rfl | rfl | rfl | rfl | rfl <;>
        simp [String.toList] at h <;> exact hc h.1

namespace Dict

variable {κ β : Type} [DecidableEq κ]

theorem mem_keys_set (m : Dict κ β) (k a : κ) (v : β) (h : a ∈ keys (set m k v)) :
    a = k ∨ a ∈ keys m := by
  induction m with
  | nil =>
    simp [set, keys] at h
    exact Or.inl h
  | cons e m ih =>
    obtain ⟨k1, v1⟩ := e
    unfold set at h
    by_cases hk : k1 = k
    · simp only [hk, if_true] at h
      simp only [keys, List.map_cons, List.mem_cons] at h ⊢
      rcases h with h | h
      · exact Or.inl h
      · exact Or.inr (Or.inr h)
    · simp only [hk, if_false] at h
      simp only [keys, List.map_cons, List.mem_cons] at h ⊢
      rcases h with h | h
      · exact Or.inr (Or.inl h)
      · rcases ih h with h2 | h2
        · exact Or.inl h2
        · exact Or.inr (Or.inr h2)

theorem get_eq_none_iff (m : Dict κ β) (a : κ) : get m a = none ↔ a ∉ keys m := by
  induction m with
  | nil => simp [get, keys]
  | cons e m ih =>
    rw [get_cons]
    obtain ⟨k1, v1⟩ := e
    by_cases hk : k1 = a
    · simp [hk, keys]
    · simp only [hk, if_false, ih, keys, List.map_cons, List.mem_cons, not_or]
      exact ⟨fun h => ⟨fun h2 => hk h2.symm, h⟩, fun h => h.2⟩

end Dict

/-- Claim C24, amended: `addCustomExtensionInfo` rejects an object whose id is reserved:
it throws and leaves the state, and with it the registry and the catalog, unchanged.  So
when no id of the custom catalog is reserved before a call of `addCustomExtensionInfo`,
none is afterwards, in the table of records and in the table of constructors alike; and
the call leaves the registry as it is. -/
theorem addCustomExtensionInfo_reserved (s : State) (obj : ExtensionObject)
    (url : Option Str) :
    (∀ extensionId, obj.extensionId = some extensionId →
      isExtensionIdReserved extensionId = true →
      addCustomExtensionInfo s obj url = ⟨s, .thrown (.extensionIdReserved extensionId)⟩) ∧
    ((∀ id ∈ Dict.keys s._customExtensionInfo, isExtensionIdReserved id = false) →
      ∀ id ∈ Dict.keys (addCustomExtensionInfo s obj url).state._customExtensionInfo,
        isExtensionIdReserved id = false) ∧
    ((∀ id ∈ Dict.keys s.customExtension, isExtensionIdReserved id = false) →
      ∀ id ∈ Dict.keys (addCustomExtensionInfo s obj url).state.customExtension,
        isExtensionIdReserved id = false) ∧
    (addCustomExtensionInfo s obj url).state._loadedExtensions = s._loadedExtensions := by
  refine ⟨?_, ?_, ?_, ?_⟩
  · intro extensionId hid hres
    have hne : truthyOpt (some extensionId) = true := by
      rw [truthyOpt_some_iff]
      intro h
      subst h
      revert hres
      decide
    simp [addCustomExtensionInfo, hid, hne, hres]
  · intro hinv id hid
    unfold addCustomExtensionInfo at hid
    split at hid
    · exact hinv id hid
    · dsimp only at hid
      cases hres : isExtensionIdReserved (obj.extensionId.getD [])
      · rw [hres] at hid
        simp only [Bool.false_eq_true, if_false] at hid
        rcases Dict.mem_keys_set _ _ _ _ hid with h | h
        · rw [h]; exact hres
        · exact hinv id h
      · rw [hres] at hid
        exact hinv id hid
  · intro hinv id hid
    unfold addCustomExtensionInfo at hid
    split at hid
    · exact hinv id hid
    · dsimp only at hid
      cases hres : isExtensionIdReserved (obj.extensionId.getD [])
      · rw [hres] at hid
        simp only [Bool.false_eq_true, if_false] at hid
        rcases Dict.mem_keys_set _ _ _ _ hid with h | h
        · rw [h]; exact hres
        · exact hinv id h
      · rw [hres] at hid
        exact hinv id hid
  · unfold addCustomExtensionInfo
    split
    · rfl
    · dsimp only
      split <;> rfl

/-- The amended claim C24 at a sample: an object with the id `control_x`. -/
theorem addCustomExtensionInfo_reserved_witness :
    addCustomExtensionInfo State.initial
      { Extension := .obj (sampleBare 0 "control_x".toList),
        extensionId := some "control_x".toList } none =
      ⟨State.initial, .thrown (.extensionIdReserved "control_x".toList)⟩ :=
  (addCustomExtensionInfo_reserved State.initial
    { Extension := .obj (sampleBare 0 "control_x".toList),
      extensionId := some "control_x".toList } none).1 _ rfl (by decide)

/-- Against claim C24 as it stands: `registerExtension` accepts the reserved id
`control`, which is loaded afterwards, and `addOfficialExtensionInfo` enters the reserved
id `Gandi_x` in the official catalog. -/
theorem registerExtension_reserved_id :
    isExtensionIdReserved "control".toList = true ∧
    (registerExtension State.initial "control".toList
      (.obj (sampleBare 0 "control".toList)) false).result = .returned (some "control".toList) ∧
    isExtensionLoaded (registerExtension State.initial "control".toList
      (.obj (sampleBare 0 "control".toList)) false).state "control".toList = true ∧
    isExtensionIdReserved "Gandi_x".toList = true ∧
    (addOfficialExtensionInfo State.initial
      { Extension := .obj (sampleBare 1 "Gandi_x".toList),
        extensionId := some "Gandi_x".toList }).result = .returned () ∧
    Dict.has (addOfficialExtensionInfo State.initial
      { Extension := .obj (sampleBare 1 "Gandi_x".toList),
        extensionId := some "Gandi_x".toList }).state._officialExtensionInfo
      "Gandi_x".toList = true := by
  decide

/-- What `registerExtension` does for an id without registration and an extension whose
descriptor id is valid. -/
theorem registerExtension_new (s : State) (extensionId : Str) (extension : Extension)
    (shouldReplace : Bool)
    (hnew : Dict.get s._loadedExtensions extensionId = none)
    (hvalid : hasInvalidIdChar extension.toInstance.getInfo.id = false) :
    ∃ custom official added, registerExtension s extensionId extension shouldReplace =
      ⟨{ (instantiate s extension).1 with
          nextExtensionWorker := increment s.nextExtensionWorker,
          services := Dict.set s.services
            (internalServiceName s.nextExtensionWorker extension.toInstance.getInfo.id)
            (.localObject extension.toInstance),
          _loadedExtensions := Dict.set s._loadedExtensions extensionId
            (internalServiceName s.nextExtensionWorker extension.toInstance.getInfo.id),
          _customExtensionInfo := custom,
          _officialExtensionInfo := official,
          effects := (instantiate s extension).1.effects ++ added },
        .returned (some extensionId)⟩ := by
  have hn : (instantiate s extension).1.nextExtensionWorker = s.nextExtensionWorker := by
    unfold instantiate; split <;> rfl
  obtain ⟨added, hadded⟩ := _registerInternalExtension_valid (instantiate s extension).1
    extension.toInstance hvalid
  unfold registerExtension
  simp only [hnew, truthyOpt, Bool.false_and, Bool.false_eq_true, if_false, instantiate_snd]
  rw [hadded]
  simp only [Outcome.andThen, setLoadedExtension_result]
  rw [hn, instantiate_services]
  obtain ⟨c, o, a, h⟩ := setLoadedExtension_state
    { (instantiate s extension).1 with
      nextExtensionWorker := increment s.nextExtensionWorker,
      services := Dict.set s.services
        (internalServiceName s.nextExtensionWorker extension.toInstance.getInfo.id)
        (.localObject extension.toInstance),
      effects := (instantiate s extension).1.effects ++ added }
    extensionId (internalServiceName s.nextExtensionWorker extension.toInstance.getInfo.id)
  rw [h]
  refine ⟨c, o, added ++ a ++ [.compilerRegisterExtension extensionId
    extension.toInstance.ident], ?_⟩
  simp [State.log, instantiate_loaded, List.append_assoc]

/-- Claim C25, amended: when the id is not in the table of built-in extensions or is
already loaded, `loadExtensionIdSync(id)` returns no id and does nothing but log a
warning, so it throws nothing, calls no constructor and leaves the registry as it is.
Otherwise, when the descriptor of the built-in extension has an id of valid characters
only, it does what `registerExtension(id, extension)` does for the extension that the
entry gives: it returns the id, the id is loaded afterwards, and a class has been
instantiated. -/
theorem loadExtensionIdSync_spec (s : State) (extensionId : Str) :
    ((isBuiltinExtension s extensionId = false ∨ isExtensionLoaded s extensionId = true) →
      (loadExtensionIdSync s extensionId).result = .returned none ∧
      ∃ message, (loadExtensionIdSync s extensionId).state = s.log (.warn message)) ∧
    (∀ extension, Dict.get s.builtinExtensions extensionId = some extension →
      isExtensionLoaded s extensionId = false →
      (∀ c ∈ extension.toInstance.getInfo.id, IdChar c) →
      loadExtensionIdSync s extensionId = registerExtension s extensionId extension false ∧
      (loadExtensionIdSync s extensionId).result = .returned (some extensionId) ∧
      isExtensionLoaded (loadExtensionIdSync s extensionId).state extensionId = true ∧
      (isConstructor extension = true →
        Effect.construct extension.toInstance.ident ∈
          (loadExtensionIdSync s extensionId).state.effects)) := by
  constructor
  · intro h
    unfold loadExtensionIdSync
    by_cases hb : isBuiltinExtension s extensionId = true
    · have hl : isExtensionLoaded s extensionId = true := by
        rcases h with h | h
        · rw [hb] at h; cases h
        · exact h
      simp only [hb, hl, Bool.not_true, Bool.false_eq_true, if_false, if_true]
      exact ⟨trivial, _, rfl⟩
    · have hb2 : isBuiltinExtension s extensionId = false := by simpa using hb
      simp only [hb2, Bool.not_false, if_true]
      exact ⟨trivial, _, rfl⟩
  · intro extension hget hnot hvalid
    have hb : isBuiltinExtension s extensionId = true := by
      simp [isBuiltinExtension, Dict.has, hget]
    have hnew : Dict.get s._loadedExtensions extensionId = none := by
      simp only [isExtensionLoaded, Dict.has] at hnot
      cases hg : Dict.get s._loadedExtensions extensionId with
      | none => rfl
      | some v => rw [hg] at hnot; simp at hnot
    have heq : loadExtensionIdSync s extensionId =
        registerExtension s extensionId extension false := by
      unfold loadExtensionIdSync
      simp only [hb, hnot, Bool.not_true, Bool.false_eq_true, if_false, hget]
    obtain ⟨c, o, added, hreg⟩ := registerExtension_new s extensionId extension false hnew
      (hasInvalidIdChar_eq_false _ hvalid)
    refine ⟨heq, ?_, ?_, ?_⟩
    · rw [heq, hreg]
    · rw [heq, hreg]
      simp [isExtensionLoaded, Dict.has, Dict.get_set_self]
    · intro hc
      rw [heq, hreg]
      simp only [instantiate, hc, if_true, State.log]
      simp

/-- The amended claim C25 at a sample: `pen` is built in and `music` is not. -/
theorem loadExtensionIdSync_spec_witness :
    (loadExtensionIdSync sampleBuiltin "pen".toList).result = .returned (some "pen".toList) ∧
    (loadExtensionIdSync sampleBuiltin "music".toList).result = .returned none :=
  ⟨((loadExtensionIdSync_spec sampleBuiltin "pen".toList).2 _ rfl (by decide)
      (by intro c hc; simp [sampleBare, Extension.toInstance] at hc;
          rcases hc with rfl | rfl | rfl <;> (unfold IdChar; decide))).2.1,
    ((loadExtensionIdSync_spec sampleBuiltin "music".toList).1 (Or.inl (by decide))).1⟩

/-- Against claim C25 as it stands: `bad` is in the table of built-in extensions and is
not loaded, and its descriptor has the id `a b`; `loadExtensionIdSync` instantiates the
class and then throws, and `bad` is not loaded afterwards. -/
theorem loadExtensionIdSync_invalid_descriptor :
    isBuiltinExtension sampleBadBuiltin "bad".toList = true ∧
    isExtensionLoaded sampleBadBuiltin "bad".toList = false ∧
    (loadExtensionIdSync sampleBadBuiltin "bad".toList).result = .thrown .invalidExtensionId ∧
    isExtensionLoaded (loadExtensionIdSync sampleBadBuiltin "bad".toList).state
      "bad".toList = false ∧
    Effect.construct 6 ∈ (loadExtensionIdSync sampleBadBuiltin "bad".toList).state.effects := by
  decide

theorem foldl_urls_get (s : State) (k : Str) (ks : List Str) (acc : Dict Str Str)
    (hk : k ∉ ks) :
    Dict.get (ks.foldl (addLoadedURL s) acc) k = Dict.get acc k := by
  induction ks generalizing acc with
  | nil => rfl
  | cons x xs ih =>
    rw [List.foldl_cons, ih _ (fun h => hk (List.mem_cons_of_mem _ h))]
    have hne : k ≠ x := fun h => hk (h ▸ List.mem_cons_self _ _)
    unfold addLoadedURL
    split
    · split
      · exact Dict.get_set_of_ne _ _ _ _ hne
      · rfl
    · rfl

/-- The URLs that `getLoadedExtensionURLs` lists belong to ids of the registry. -/
theorem getLoadedExtensionURLs_of_not_loaded (s : State) (k : Str)
    (hk : Dict.get s._loadedExtensions k = none) :
    Dict.get (getLoadedExtensionURLs s) k = none := by
  unfold getLoadedExtensionURLs
  rw [foldl_urls_get s k _ _ ((Dict.get_eq_none_iff _ _).1 hk)]
  rfl

/-- Claim C27, amended: when no opcode of the extension is in use and the id is not the
name of a member that every object inherits, `deleteExtensionById(id)` returns;
afterwards the id is not loaded and `getLoadedExtensionURLs()` has no entry for it,
`getExtensionInfoById(id)` is the record of the official catalog for the id, if there is
one, and `undefined` otherwise, and `isExternalExtension(id)` tells whether the official
table has the id: the custom entries are removed, the official ones are kept. -/
theorem deleteExtensionById_catalog (s : State) (extensionId : Str)
    (hunused : ¬ ∃ op, InUse s extensionId op)
    (hname : extensionId ∉ objectPrototypeMembers) :
    (deleteExtensionById s extensionId).result = .returned () ∧
    isExtensionLoaded (deleteExtensionById s extensionId).state extensionId = false ∧
    Dict.read (getLoadedExtensionURLs (deleteExtensionById s extensionId).state) extensionId =
      .undefined ∧
    (∀ record, Dict.get s._officialExtensionInfo extensionId = some record →
      getExtensionInfoById (deleteExtensionById s extensionId).state extensionId =
        .own record) ∧
    (Dict.get s._officialExtensionInfo extensionId = none →
      getExtensionInfoById (deleteExtensionById s extensionId).state extensionId =
        .undefined) ∧
    isExternalExtension (deleteExtensionById s extensionId).state extensionId =
      Dict.has s.officialExtension extensionId := by
  obtain ⟨mons, added, hd⟩ := deleteExtensionById_unused s extensionId hunused
  rw [hd]
  refine ⟨rfl, ?_, ?_, ?_, ?_, ?_⟩
  · simp [isExtensionLoaded, Dict.has, Dict.get_delete_self]
  · unfold Dict.read
    rw [getLoadedExtensionURLs_of_not_loaded _ _ (Dict.get_delete_self _ _)]
    simp [hname]
  · intro record hrecord
    simp [getExtensionInfoById, Dict.read, Dict.get_delete_self, hname, hrecord]
  · intro hnone
    simp [getExtensionInfoById, Dict.read, Dict.get_delete_self, hname, hnone]
  · simp [isExternalExtension, Dict.has, Dict.get_delete_self]

/-- The amended claim C27 at a sample: the official extension `o`. -/
theorem deleteExtensionById_catalog_witness :
    "o".toList ∉ objectPrototypeMembers ∧
    getExtensionInfoById (deleteExtensionById sampleOfficial "o".toList).state "o".toList =
      .own { extensionId := "o".toList, url := some "https://x/o.js".toList,
             replaceable := false } ∧
    Dict.read (getLoadedExtensionURLs (deleteExtensionById sampleOfficial "o".toList).state)
      "o".toList = .undefined :=
  have h := deleteExtensionById_catalog sampleOfficial "o".toList (by
    rintro ⟨op, t, ht, _⟩
    simp [sampleOfficial, State.initial] at ht) (by decide)
  ⟨by decide, h.2.2.2.1 _ rfl, h.2.2.1⟩

/-- Against claim C27 as it stands: the extension `o` of the official catalog is
deleted; afterwards it is not loaded, but `getExtensionInfoById` still returns its record
and `isExternalExtension` is still true. -/
theorem deleteExtensionById_keeps_official :
    (deleteExtensionById sampleOfficial "o".toList).result = .returned () ∧
    isExtensionLoaded (deleteExtensionById sampleOfficial "o".toList).state "o".toList =
      false ∧
    getExtensionInfoById (deleteExtensionById sampleOfficial "o".toList).state "o".toList =
      .own { extensionId := "o".toList, url := some "https://x/o.js".toList,
             replaceable := false } ∧
    isExternalExtension (deleteExtensionById sampleOfficial "o".toList).state "o".toList =
      true := by
  decide

/-- The catalog tables are plain objects: after the custom extension `constructor` is
deleted, its record is gone, and the read of line 1111 finds the member `constructor`
that every object inherits, so that `getExtensionInfoById` is not `undefined`. -/
theorem deleteExtensionById_inherited_name :
    (deleteExtensionById sampleInherited "constructor".toList).result = .returned () ∧
    Dict.get (deleteExtensionById sampleInherited "constructor".toList).state._customExtensionInfo
      "constructor".toList = none ∧
    getExtensionInfoById (deleteExtensionById sampleInherited "constructor".toList).state
      "constructor".toList = .inherited "constructor".toList ∧
    isExternalExtension (deleteExtensionById sampleInherited "constructor".toList).state
      "constructor".toList = false := by
  decide

/-! ## The payloads of a refused replacement -/

/-- A set lists elements of the list it is made from, in the order of the list. -/
theorem setOf_sublist {α : Type} [DecidableEq α] (l : List α) : List.Sublist (setOf l) l := by
  induction l with
  | nil => exact List.Sublist.slnil
  | cons a l ih =>
    unfold setOf
    exact List.Sublist.cons₂ a ((List.filter_sublist _).trans ih)

/-- A set lists no element twice. -/
theorem setOf_nodup {α : Type} [DecidableEq α] (l : List α) : (setOf l).Nodup := by
  induction l with
  | nil => exact List.nodup_nil
  | cons a l ih =>
    unfold setOf
    rw [List.nodup_cons]
    exact ⟨by simp [List.mem_filter], ih.filter _⟩

/-- Claim C26, amended: when `registerExtension(id, candidate, true)` throws the cause
OPCODE_NOT_FOUND, the values of the cause are the in-use opcodes that the candidate
lacks, each exactly once, in the order in which the set of in-use opcodes lists them,
which is the order in which the blocks of the runtime targets first use them. -/
theorem registerExtension_missing_payload (s : State) (extensionId name : Str)
    (extension : Extension) (incoming : List BlockEntry) (values : List (Option Str))
    (hregistered : Registered s extensionId name)
    (hblocks : extension.toInstance.getInfo.blocks = some incoming)
    (hthrown : (registerExtension s extensionId extension true).result =
      .thrown (.cause .OPCODE_NOT_FOUND values)) :
    values = difference ((opsInUse s.targets extensionId).map some)
      (setOf (incoming.map fun b => b.opcode)) ∧
    values.Nodup ∧
    (∀ v, v ∈ values ↔ ∃ op, v = some op ∧ InUse s extensionId op ∧ ¬ Declares incoming op) ∧
    List.Sublist values ((opsInUse s.targets extensionId).map some) ∧
    (opsInUse s.targets extensionId).Nodup ∧
    List.Sublist (opsInUse s.targets extensionId)
      ((((s.targets.map fun t => t._blocks.map fun b => b.opcode).flatten).filter
        fun op => startsWith op (extensionId ++ ['_'])).map
        fun op => substring op (extensionId.length + 1)) := by
  obtain ⟨hreg, hname⟩ := hregistered
  have ht : truthyOpt (some name) = true := (truthyOpt_some_iff name).mpr hname
  have hval : values = difference ((opsInUse s.targets extensionId).map some)
      (setOf (incoming.map fun b => b.opcode)) := by
    unfold registerExtension at hthrown
    simp only [hreg, ht, Bool.not_true, Bool.and_false, Bool.false_eq_true, if_false,
      Bool.and_self, if_true, instantiate_snd, hblocks, instantiate_targets] at hthrown
    by_cases hd : (difference ((opsInUse s.targets extensionId).map some)
        (setOf (incoming.map fun b => b.opcode))).length > 0
    · rw [if_pos hd] at hthrown
      simp only [Completion.thrown.injEq, Err.cause.injEq, true_and] at hthrown
      exact hthrown.symm
    · rw [if_neg hd] at hthrown
      exact absurd hthrown (replaceLoaded_ne_opcode_not_found _ _ _ _ _ _ _)
  have hnd : (opsInUse s.targets extensionId).Nodup := by
    unfold opsInUse
    exact setOf_nodup _
  refine ⟨hval, ?_, ?_, ?_, hnd, ?_⟩
  · rw [hval]
    unfold difference
    exact (hnd.map (Option.some_injective _)).filter _
  · intro v
    rw [hval]
    exact mem_missing_iff s extensionId incoming v
  · rw [hval]
    unfold difference
    exact List.filter_sublist _
  · unfold opsInUse
    exact setOf_sublist _

/-- The amended claim C26 at a sample: the candidate lists no blocks and the program
uses `a_x` and then `a_y`. -/
theorem registerExtension_missing_payload_witness :
    (registerExtension sampleState "a".toList (.obj sampleEmptyCandidate) true).result =
      .thrown (.cause .OPCODE_NOT_FOUND [some "x".toList, some "y".toList]) ∧
    [some "x".toList, some "y".toList] =
      difference ((opsInUse sampleState.targets "a".toList).map some)
        (setOf (([] : List BlockEntry).map fun b => b.opcode)) :=
  ⟨by decide,
    (registerExtension_missing_payload sampleState "a".toList "extension_0_a".toList
      (.obj sampleEmptyCandidate) [] [some "x".toList, some "y".toList]
      ⟨by decide, by decide⟩ rfl (by decide)).1⟩

/-- Against claim C26 as it stands: the program uses `a_y` and then `a_x`, and the
candidate lacks both; the values of the cause are `y`, `x`, which is not the ascending
order.  With the blocks stored in the other order the values are `x`, `y`. -/
theorem registerExtension_missing_unsorted :
    (registerExtension sampleReversed "a".toList (.obj sampleEmptyCandidate) true).result =
      .thrown (.cause .OPCODE_NOT_FOUND [some "y".toList, some "x".toList]) ∧
    (registerExtension sampleState "a".toList (.obj sampleEmptyCandidate) true).result =
      .thrown (.cause .OPCODE_NOT_FOUND [some "x".toList, some "y".toList]) ∧
    "x".toList < "y".toList := by
  decide

theorem typeChanged_pred (ops : List Str) (incoming : List BlockEntry) (a : BlockEntry) :
    (a ∈ typeChangedBlocks ops [a] incoming) ↔
      (opcodeIn ops a = true ∧
        (⟨a⟩ : ConvertedBlockInfo) ∈ typeChangedConverted [⟨a⟩]
          (incoming.map ConvertedBlockInfo.mk)) := by
  rw [mem_typeChangedBlocks, mem_typeChangedConverted]
  simp only [List.mem_singleton, true_and, List.mem_map, opcodeIn]
  constructor
  · rintro ⟨op, hop, hmem, b, hb, hbop, hne⟩
    refine ⟨by simp [hop, hmem], ⟨b⟩, ⟨b, hb, rfl⟩, truthy_of_opcode a op hop,
      truthy_of_opcode b op hbop, by rw [hop, hbop], hne⟩
  · rintro ⟨hin, b2, ⟨b, hb, rfl⟩, _, _, hop, hne⟩
    cases ha : a.opcode with
    | none => simp [ha] at hin
    | some op =>
      simp only [ha, decide_eq_true_eq] at hin
      exact ⟨op, rfl, hin, b, hb, by rw [← hop, ha], hne⟩

theorem typeChangedBlocks_cons (ops : List Str) (a : BlockEntry) (old incoming : List BlockEntry) :
    typeChangedBlocks ops (a :: old) incoming =
      typeChangedBlocks ops [a] incoming ++ typeChangedBlocks ops old incoming := by
  unfold typeChangedBlocks
  rw [← List.filter_append]
  rfl

theorem typeChangedConverted_cons (a : ConvertedBlockInfo)
    (old incoming : List ConvertedBlockInfo) :
    typeChangedConverted (a :: old) incoming =
      typeChangedConverted [a] incoming ++ typeChangedConverted old incoming := by
  unfold typeChangedConverted
  rw [← List.filter_append]
  rfl

theorem filter_singleton_cases {α : Type} (p : α → Bool) (a : α) :
    [a].filter p = [a] ∨ [a].filter p = [] := by
  cases h : p a <;> simp [List.filter, h]

theorem typeChanged_singleton (ops : List Str) (incoming : List BlockEntry) (a : BlockEntry) :
    typeChangedBlocks ops [a] incoming =
      ((typeChangedConverted [⟨a⟩] (incoming.map ConvertedBlockInfo.mk)).map
        fun c => c.info).filter (opcodeIn ops) := by
  have h1 : typeChangedBlocks ops [a] incoming = [a] ∨ typeChangedBlocks ops [a] incoming = [] := by
    unfold typeChangedBlocks
    exact filter_singleton_cases _ a
  have h2 : typeChangedConverted [⟨a⟩] (incoming.map ConvertedBlockInfo.mk) = [⟨a⟩] ∨
      typeChangedConverted [⟨a⟩] (incoming.map ConvertedBlockInfo.mk) = [] := by
    unfold typeChangedConverted
    exact filter_singleton_cases _ _
  have key := typeChanged_pred ops incoming a
  rcases h1 with h1 | h1 <;> rcases h2 with h2 | h2
  · rw [h1, h2] at key ⊢
    have := key.1 (List.mem_singleton_self _)
    simp [this.1]
  · rw [h1, h2] at key
    have := key.1 (List.mem_singleton_self _)
    simp at this
  · rw [h1, h2] at key ⊢
    cases hin : opcodeIn ops a
    · simp [hin]
    · have := key.2 ⟨hin, List.mem_singleton_self _⟩
      simp at this
  · rw [h1, h2]
    rfl

/-- The filter of `registerExtension` gives the entries of the filter of
`replaceExtensionWithId` whose opcode is in use. -/
theorem typeChangedBlocks_eq (ops : List Str) (old incoming : List BlockEntry) :
    typeChangedBlocks ops old incoming =
      ((typeChangedConverted (old.map ConvertedBlockInfo.mk)
        (incoming.map ConvertedBlockInfo.mk)).map fun c => c.info).filter (opcodeIn ops) := by
  induction old with
  | nil => rfl
  | cons a old ih =>
    rw [typeChangedBlocks_cons, List.map_cons, typeChangedConverted_cons, List.map_append,
      List.filter_append, ← ih, ← typeChanged_singleton]

/-- How the two type checks are related: for the same old block list, new block list
and set of in-use opcodes, the blocks that the check of `registerExtension` reports are
those that the check of `replaceExtensionWithId` reports and whose opcode is in use, in
the same order.  The check of `replaceExtensionWithId` reports every old entry for which
some new entry has the same opcode field and another block type, in use or not; the
check of `registerExtension` reports those whose opcode is in use. -/
theorem typeChanged_refines (ops : List Str) (old incoming : List BlockEntry) :
    typeChangedBlocks ops old incoming =
      ((typeChangedConverted (old.map ConvertedBlockInfo.mk)
        (incoming.map ConvertedBlockInfo.mk)).map fun c => c.info).filter (opcodeIn ops) ∧
    ((typeChangedBlocks ops old incoming).length > 0 →
      (typeChangedConverted (old.map ConvertedBlockInfo.mk)
        (incoming.map ConvertedBlockInfo.mk)).length > 0) ∧
    (∀ c, c ∈ typeChangedConverted (old.map ConvertedBlockInfo.mk)
        (incoming.map ConvertedBlockInfo.mk) ↔
      c.info ∈ old ∧ ∃ b ∈ incoming, c.info.truthy = true ∧ b.truthy = true ∧
        c.info.opcode = b.opcode ∧ c.info.blockType ≠ b.blockType) ∧
    (∀ a, a ∈ typeChangedBlocks ops old incoming ↔
      a ∈ old ∧ ∃ op, a.opcode = some op ∧ op ∈ ops ∧
        ∃ b ∈ incoming, b.opcode = some op ∧ a.blockType ≠ b.blockType) := by
  refine ⟨typeChangedBlocks_eq ops old incoming, ?_, ?_, mem_typeChangedBlocks ops old incoming⟩
  · intro h
    rw [typeChangedBlocks_eq] at h
    have h2 := lt_of_lt_of_le h (List.length_filter_le _ _)
    rwa [List.length_map] at h2
  · intro c
    rw [mem_typeChangedConverted]
    simp only [List.mem_map]
    constructor
    · rintro ⟨⟨a, ha, rfl⟩, b2, ⟨b, hb, rfl⟩, h⟩
      exact ⟨ha, b, hb, h⟩
    · rintro ⟨ha, b, hb, h⟩
      exact ⟨⟨c.info, ha, rfl⟩, ⟨b⟩, ⟨b, hb, rfl⟩, h⟩

/-- Claim C28 at the failing inputs: the type check of `replaceExtensionWithId` lacks the
in-use condition of the check of `registerExtension`.  With no block in use and `x` a
reporter in the old block list and a command in the new one, `replaceExtensionWithId`
throws BLOCK_TYPE_CHANGED with the value `x`, and `registerExtension` with replacement
returns.  And an extension with a label and a button, which have no opcode, cannot be
replaced by an extension with the same two entries: `replaceExtensionWithId` throws
BLOCK_TYPE_CHANGED with the value `undefined` twice, and `registerExtension` with
replacement by the same descriptor returns. -/
theorem replaceExtensionWithId_unused_type_change :
    opsInUse sampleRetypedFork.targets "o".toList = [] ∧
    (replaceExtensionWithId sampleRetypedFork "n".toList "o".toList).result =
      .thrown (.cause .BLOCK_TYPE_CHANGED [some "x".toList]) ∧
    opsInUse sampleUnused.targets "a".toList = [] ∧
    (registerExtension sampleUnused "a".toList (.obj sampleRetyped) true).result =
      .returned (some "a".toList) ∧
    opsInUse sampleLabelFork.targets "o".toList = [] ∧
    (sampleLabelCategory "o".toList).blocks = (sampleLabelCategory "n".toList).blocks ∧
    (replaceExtensionWithId sampleLabelFork "n".toList "o".toList).result =
      .thrown (.cause .BLOCK_TYPE_CHANGED [none, none]) ∧
    opsInUse sampleLabelled.targets "a".toList = [] ∧
    Dict.get sampleLabelled.services "extension_0_a".toList =
      some (.localObject sampleLabels) ∧
    (registerExtension sampleLabelled "a".toList (.obj sampleLabels) true).result =
      .returned (some "a".toList) := by
  decide

/-! ## In-use detection by prefix -/

/-- Claim C29: for an id `a` and an id `b` that is `a`, an underscore and a rest, a
block of some target with the opcode `<b>_<op>` makes `<rest>_<op>` an in-use opcode of
`a`; so `deleteExtensionById(a)` throws OPCODE_IN_USE and leaves the state as it is, and
for a registered `a` a replacement by a candidate that does not declare `<rest>_<op>`
throws OPCODE_NOT_FOUND with that opcode among the values, whether or not a block uses
an opcode of `a` itself. -/
theorem opsInUse_shared_prefix (s : State) (a rest op : Str) (t : Target) (blk : Block)
    (ht : t ∈ s.targets) (hb : blk ∈ t._blocks)
    (hop : blk.opcode = (a ++ ['_'] ++ rest) ++ ['_'] ++ op) :
    (rest ++ ['_'] ++ op) ∈ opsInUse s.targets a ∧
    deleteExtensionById s a =
      ⟨s, .thrown (.cause .OPCODE_IN_USE ((opsInUse s.targets a).map some))⟩ ∧
    ∀ name extension incoming, Registered s a name →
      extension.toInstance.getInfo.blocks = some incoming →
      ¬ Declares incoming (rest ++ ['_'] ++ op) →
      ∃ values, (registerExtension s a extension true).result =
          .thrown (.cause .OPCODE_NOT_FOUND values) ∧
        some (rest ++ ['_'] ++ op) ∈ values := by
  have huse : InUse s a (rest ++ ['_'] ++ op) :=
    ⟨t, ht, blk, hb, by rw [hop]; simp [List.append_assoc]⟩
  refine ⟨(inUse_iff s a _).mp huse, deleteExtensionById_used s a ⟨_, huse⟩, ?_⟩
  intro name extension incoming hregistered hblocks hnot
  obtain ⟨hreg, hname⟩ := hregistered
  have ht2 : truthyOpt (some name) = true := (truthyOpt_some_iff name).mpr hname
  have hmem := (mem_missing_iff s a incoming (some (rest ++ ['_'] ++ op))).mpr
    ⟨_, rfl, huse, hnot⟩
  have hd : (difference ((opsInUse s.targets a).map some)
      (setOf (incoming.map fun b => b.opcode))).length > 0 :=
    (length_pos_iff_exists_mem _).mpr ⟨_, hmem⟩
  unfold registerExtension
  simp only [hreg, ht2, Bool.not_true, Bool.and_false, Bool.false_eq_true, if_false,
    Bool.and_self, if_true, instantiate_snd, hblocks, instantiate_targets, if_pos hd]
  exact ⟨_, rfl, hmem⟩

/-- Claim C29 at a sample: the only block has the opcode `a_b_x`. -/
theorem opsInUse_shared_prefix_witness :
    deleteExtensionById sampleShared "a".toList =
      ⟨sampleShared, .thrown (.cause .OPCODE_IN_USE [some "b_x".toList])⟩ ∧
    ∃ values, (registerExtension sampleShared "a".toList (.obj sampleLacking) true).result =
        .thrown (.cause .OPCODE_NOT_FOUND values) ∧
      some "b_x".toList ∈ values := by
  have h := opsInUse_shared_prefix sampleShared "a".toList "b".toList "x".toList
    { _blocks := [{ id := "b1".toList, opcode := "a_b_x".toList }] }
    { id := "b1".toList, opcode := "a_b_x".toList } (by decide) (by decide) (by decide)
  refine ⟨?_, h.2.2 "extension_0_a".toList (.obj sampleLacking) _ ⟨by decide, by decide⟩ rfl
    (by unfold Declares; decide)⟩
  rw [h.2.1]
  decide

/-! ## Service names -/

theorem toDigitsCore_append (n : Nat) : ∀ (fuel : Nat) (ds : List Char), n < fuel →
    Nat.toDigitsCore 10 fuel n ds = Nat.toDigitsCore 10 (n + 1) n [] ++ ds := by
  induction n using Nat.strong_induction_on with
  | _ n ih =>
    intro fuel ds hlt
    cases fuel with
    | zero => omega
    | succ f =>
      simp only [Nat.toDigitsCore]
      by_cases h0 : n / 10 = 0
      · simp [h0]
      · simp only [h0, if_false]
        have hlt2 : n / 10 < n := Nat.div_lt_self (by omega) (by omega)
        rw [ih (n / 10) hlt2 f _ (by omega), ih (n / 10) hlt2 n _ hlt2]
        simp

/-- The decimal digits of a number: those of its tenth, when that is not zero, followed
by its last digit. -/
theorem toDigits_eq (n : Nat) :
    Nat.toDigits 10 n =
      if n / 10 = 0 then [Nat.digitChar (n % 10)]
      else Nat.toDigits 10 (n / 10) ++ [Nat.digitChar (n % 10)] := by
  unfold Nat.toDigits
  rw [Nat.toDigitsCore]
  by_cases h0 : n / 10 = 0
  · simp [h0]
  · simp only [h0, if_false]
    have hlt2 : n / 10 < n := Nat.div_lt_self (by omega) (by omega)
    rw [toDigitsCore_append (n / 10) n _ hlt2]

theorem digitChar_ne_underscore : ∀ k, k < 10 → Nat.digitChar k ≠ '_' ∧
    (Nat.digitChar k).toNat - 48 = k := by
  decide

/-- The decimal digits of a number hold no underscore and stand for the number. -/
theorem toDigits_spec (n : Nat) :
    (∀ c ∈ Nat.toDigits 10 n, c ≠ '_') ∧ digitsValue (Nat.toDigits 10 n) = n := by
  induction n using Nat.strong_induction_on with
  | _ n ih =>
    rw [toDigits_eq]
    have hd := digitChar_ne_underscore (n % 10) (Nat.mod_lt _ (by omega))
    by_cases h0 : n / 10 = 0
    · simp only [h0, if_true, List.mem_singleton, forall_eq]
      refine ⟨hd.1, ?_⟩
      simp only [digitsValue, List.foldl_cons, List.foldl_nil, hd.2]
      omega
    · simp only [h0, if_false]
      have hlt2 : n / 10 < n := Nat.div_lt_self (by omega) (by omega)
      obtain ⟨h1, h2⟩ := ih (n / 10) hlt2
      constructor
      · intro c hc
        rcases List.mem_append.1 hc with h | h
        · exact h1 c h
        · rw [List.mem_singleton] at h
          rw [h]
          exact hd.1
      · unfold digitsValue at h2 ⊢
        rw [List.foldl_append, h2]
        simp only [List.foldl_cons, List.foldl_nil, hd.2]
        omega

theorem toDigits_injective (n m : Nat) (h : Nat.toDigits 10 n = Nat.toDigits 10 m) : n = m := by
  have := congrArg digitsValue h
  rwa [(toDigits_spec n).2, (toDigits_spec m).2] at this

/-- Two strings without underscore, each followed by an underscore and a rest, are equal
only if both parts are. -/
theorem append_underscore_cancel (a b x y : Str) (ha : ∀ c ∈ a, c ≠ '_')
    (hb : ∀ c ∈ b, c ≠ '_') (h : a ++ '_' :: x = b ++ '_' :: y) : a = b ∧ x = y := by
  induction a generalizing b with
  | nil =>
    cases b with
    | nil => simpa using h
    | cons c b =>
      simp only [List.nil_append, List.cons_append, List.cons.injEq] at h
      exact absurd h.1.symm (hb c (List.mem_cons_self _ _))
  | cons d a ih =>
    cases b with
    | nil =>
      simp only [List.nil_append, List.cons_append, List.cons.injEq] at h
      exact absurd h.1 (ha d (List.mem_cons_self _ _))
    | cons c b =>
      simp only [List.cons_append, List.cons.injEq] at h
      obtain ⟨h1, h2⟩ := ih b (fun c hc => ha c (List.mem_cons_of_mem _ hc))
        (fun c hc => hb c (List.mem_cons_of_mem _ hc)) h.2
      exact ⟨by rw [h.1, h1], h2⟩

theorem internalServiceName_injective (n m : Nat) (id id2 : Str)
    (h : internalServiceName n id = internalServiceName m id2) : n = m ∧ id = id2 := by
  unfold internalServiceName at h
  simp only [List.append_assoc, List.append_cancel_left_eq, List.singleton_append] at h
  obtain ⟨h1, h2⟩ := append_underscore_cancel _ _ _ _ (toDigits_spec n).1 (toDigits_spec m).1 h
  exact ⟨toDigits_injective n m h1, h2⟩

/-- `_registerInternalExtension` takes one number of the sequence counter, and returns
the service name made of it. -/
theorem _registerInternalExtension_counter (s : State) (extensionObject : ExtensionInstance) :
    (_registerInternalExtension s extensionObject).state.nextExtensionWorker =
      increment s.nextExtensionWorker ∧
    ∀ serviceName, (_registerInternalExtension s extensionObject).result =
        .returned serviceName →
      serviceName = internalServiceName s.nextExtensionWorker extensionObject.getInfo.id := by
  unfold _registerInternalExtension registerExtensionServiceSync callSyncGetInfo
    _registerExtensionInfo setServiceSync
  simp only [Dict.get_set_self, Outcome.andThen]
  split
  · next v hv =>
    split at hv
    · simp at hv
    · refine ⟨?_, ?_⟩
      · simp [State.log]
      · intro name hname
        simp at hname
        exact hname.symm
  · next e he =>
    split at he
    · exact ⟨rfl, by simp⟩
    · simp at he

/-- `allocateWorker` takes one number of the sequence counter. -/
theorem allocateWorker_counter (s : State) :
    (allocateWorker s).state.nextExtensionWorker = increment s.nextExtensionWorker := by
  cases hq : s.pendingExtensions <;> simp [allocateWorker, hq]

/-- Every service name given in a run of allocations carries a number that is at least
the counter at the start. -/
theorem serviceNames_ge (steps : List Allocation) (s : State) :
    ∀ name ∈ serviceNames s steps, ∃ n id, s.nextExtensionWorker ≤ n ∧
      name = internalServiceName n id := by
  induction steps generalizing s with
  | nil => simp [serviceNames]
  | cons step rest ih =>
    have hle := le_increment s.nextExtensionWorker
    cases step with
    | register obj =>
      obtain ⟨hc, hn⟩ := _registerInternalExtension_counter s obj
      unfold serviceNames
      split
      · next serviceName hres =>
        intro name hname
        rcases List.mem_cons.1 hname with h | h
        · exact ⟨_, _, le_refl _, h.trans (hn _ hres)⟩
        · obtain ⟨n, id, h1, h2⟩ := ih _ name h
          exact ⟨n, id, by omega, h2⟩
      · intro name hname
        obtain ⟨n, id, h1, h2⟩ := ih _ name hname
        exact ⟨n, id, by omega, h2⟩
    | worker =>
      unfold serviceNames
      intro name hname
      obtain ⟨n, id, h1, h2⟩ := ih _ name hname
      rw [allocateWorker_counter] at h1
      exact ⟨n, id, by omega, h2⟩

/-- The names given in a run of allocations that leaves the counter at 2^53 or below are
pairwise distinct. -/
theorem serviceNames_nodup (steps : List Allocation) (s : State)
    (hb : s.nextExtensionWorker + steps.length ≤ 2 ^ 53) :
    (serviceNames s steps).Nodup := by
  induction steps generalizing s with
  | nil => simp [serviceNames]
  | cons step rest ih =>
    simp only [List.length_cons] at hb
    have hinc := increment_of_lt s.nextExtensionWorker (by omega)
    cases step with
    | register obj =>
      obtain ⟨hc, hn⟩ := _registerInternalExtension_counter s obj
      rw [hinc] at hc
      unfold serviceNames
      split
      · next serviceName hres =>
        rw [List.nodup_cons]
        refine ⟨?_, ih _ (by rw [hc]; omega)⟩
        intro hmem
        obtain ⟨n, id, h1, h2⟩ := serviceNames_ge rest _ _ hmem
        rw [hn _ hres] at h2
        have := (internalServiceName_injective _ _ _ _ h2).1
        omega
      · exact ih _ (by rw [hc]; omega)
    | worker =>
      unfold serviceNames
      exact ih _ (by rw [allocateWorker_counter, hinc]; omega)

/-- Claim C30, amended: the service name for the number `n` and the descriptor id `id` is
`extension_`, the decimal digits of `n`, an underscore and `id`, and this map is
injective: two names are equal only if the numbers and the ids are.  Every call of
`_registerInternalExtension` and of `allocateWorker` puts the sequence counter through
its `++`, which raises it by one as long as it is below 2^53, and a name that
`_registerInternalExtension` returns is made of the counter before the call; so the
names returned in a run of such calls that leaves the counter at 2^53 or below are
pairwise distinct. -/
theorem internalServiceName_distinct :
    (∀ (n : Nat) (id : Str), internalServiceName n id =
      "extension_".toList ++ Nat.toDigits 10 n ++ ['_'] ++ id) ∧
    (∀ (n m : Nat) (id id2 : Str),
      internalServiceName n id = internalServiceName m id2 ↔ n = m ∧ id = id2) ∧
    (∀ (s : State) (extensionObject : ExtensionInstance),
      (_registerInternalExtension s extensionObject).state.nextExtensionWorker =
        increment s.nextExtensionWorker ∧
      ∀ serviceName, (_registerInternalExtension s extensionObject).result =
          .returned serviceName →
        serviceName = internalServiceName s.nextExtensionWorker extensionObject.getInfo.id) ∧
    (∀ s : State, (allocateWorker s).state.nextExtensionWorker =
      increment s.nextExtensionWorker) ∧
    (∀ n : Nat, n < 2 ^ 53 → increment n = n + 1) ∧
    (∀ (s : State) (steps : List Allocation),
      s.nextExtensionWorker + steps.length ≤ 2 ^ 53 → (serviceNames s steps).Nodup) ∧
    serviceNames State.initial
      [.register (sampleBare 0 "a".toList), .worker, .register (sampleBare 0 "a".toList),
        .register (sampleBare 1 "1_a".toList)] =
      ["extension_0_a".toList, "extension_2_a".toList, "extension_3_1_a".toList] := by
  refine ⟨fun _ _ => rfl, ?_, _registerInternalExtension_counter, allocateWorker_counter,
    increment_of_lt, fun s steps hb => serviceNames_nodup steps s hb, by decide⟩
  intro n m id id2
  constructor
  · exact internalServiceName_injective n m id id2
  · rintro ⟨rfl, rfl⟩
    rfl

/-- The amended claim C30 at a sample: two registrations of extensions with the
descriptor id `a`, made while the counter stands at 1. -/
theorem internalServiceName_distinct_witness :
    sampleState.nextExtensionWorker + 2 ≤ 2 ^ 53 ∧
    (serviceNames sampleState
      [.register (sampleBare 0 "a".toList), .register (sampleBare 1 "a".toList)]).Nodup :=
  ⟨by decide, internalServiceName_distinct.2.2.2.2.2.1 sampleState
    [.register (sampleBare 0 "a".toList), .register (sampleBare 1 "a".toList)] (by decide)⟩

/-- Against claim C30 as it stands: when the sequence counter stands at 2^53, its `++`
leaves it there, since 2^53 + 1 is no double; two registrations of extensions with the
descriptor id `a` then get the same service name. -/
theorem internalServiceName_repeats :
    sampleExhausted.nextExtensionWorker = 2 ^ 53 ∧
    increment (2 ^ 53) = 2 ^ 53 ∧
    (_registerInternalExtension sampleExhausted
      (sampleBare 0 "a".toList)).state.nextExtensionWorker = 2 ^ 53 ∧
    serviceNames sampleExhausted
      [.register (sampleBare 0 "a".toList), .register (sampleBare 1 "a".toList)] =
      ["extension_9007199254740992_a".toList, "extension_9007199254740992_a".toList] ∧
    ¬ (serviceNames sampleExhausted
      [.register (sampleBare 0 "a".toList), .register (sampleBare 1 "a".toList)]).Nodup := by
  decide

end GandiVM
